import Mathlib

/-!
# grep-docx: a verification development

A shallow embedding of `cmd/grep-docx/main.go` and theorems about it.

* Go strings are byte sequences: `GoString` is a list of byte values.
* The word-processing engine (package `gord`) and the file system are external:
  they are a parameter `World σ` whose operations act on an engine state `σ`.
* Every engine call and every line written to standard output is recorded as an
  `Event`, so that statements about the order of calls are statements about lists.
* The standard-library routines the program calls (`strings`, `fmt`, `strconv`,
  `unicode/utf8`, `encoding/json`, `filepath.WalkDir`) are transcribed from the Go
  standard library as far as the program uses them.
-/

namespace GrepDocx

/-! ## Strings -/

/-- A Go string: an arbitrary sequence of bytes (each value below 256). -/
abbrev GoString := List Nat

/-- UTF-8 encoding of a code point (the body of `utf8.AppendRune` for a valid rune). -/
def utf8Bytes (c : Nat) : List Nat :=
  if c < 0x80 then [c]
  else if c < 0x800 then [0xC0 + c / 64, 0x80 + c % 64]
  else if c < 0x10000 then [0xE0 + c / 4096, 0x80 + c / 64 % 64, 0x80 + c % 64]
  else [0xF0 + c / 262144, 0x80 + c / 4096 % 64, 0x80 + c / 64 % 64, 0x80 + c % 64]

/-- The bytes of a string constant of the source text. -/
def lit (s : String) : GoString := s.data.flatMap (fun c => utf8Bytes c.toNat)

/-- Go `strings.HasPrefix(s, p)`. -/
def startsWith : GoString → GoString → Bool
  | _, [] => true
  | [], _ :: _ => false
  | a :: s, b :: p => a == b && startsWith s p

/-- Go `strings.Contains(s, substr)`: some position of `s` starts with `substr`. -/
def contains : GoString → GoString → Bool
  | [], sub => startsWith [] sub
  | c :: s, sub => startsWith (c :: s) sub || contains s sub

/-- Go `strings.HasSuffix(s, suffix)`:
`len(s) >= len(suffix) && s[len(s)-len(suffix):] == suffix`. -/
def hasSuffix (s suffix : GoString) : Bool :=
  decide (suffix.length ≤ s.length) && (s.drop (s.length - suffix.length) == suffix)

/-! ## unicode/utf8 and strconv -/

/-- The value `utf8.RuneError`. -/
def runeError : Nat := 0xFFFD

/-- Go `utf8.DecodeRuneInString`: the first rune of `s` and its width in bytes.
Invalid or truncated encodings give `(RuneError, 1)`, the empty string `(RuneError, 0)`.
The table `first` and the `acceptRanges` of the library are written out as comparisons. -/
def decodeRune (s : GoString) : Nat × Nat :=
  match s with
  | [] => (runeError, 0)
  | s0 :: rest =>
    if s0 < 0x80 then (s0, 1)
    else if s0 < 0xC2 ∨ 0xF4 < s0 then (runeError, 1)
    else
      let sz := if s0 < 0xE0 then 2 else if s0 < 0xF0 then 3 else 4
      let lo := if s0 = 0xE0 then 0xA0 else if s0 = 0xF0 then 0x90 else 0x80
      let hi := if s0 = 0xED then 0x9F else if s0 = 0xF4 then 0x8F else 0xBF
      if rest.length + 1 < sz then (runeError, 1)
      else
        match rest with
        | [] => (runeError, 1)
        | s1 :: rest1 =>
          if s1 < lo ∨ hi < s1 then (runeError, 1)
          else if sz ≤ 2 then ((s0 % 32) * 64 + s1 % 64, 2)
          else
            match rest1 with
            | [] => (runeError, 1)
            | s2 :: rest2 =>
              if s2 < 0x80 ∨ 0xBF < s2 then (runeError, 1)
              else if sz ≤ 3 then ((s0 % 16) * 4096 + (s1 % 64) * 64 + s2 % 64, 3)
              else
                match rest2 with
                | [] => (runeError, 1)
                | s3 :: _ =>
                  if s3 < 0x80 ∨ 0xBF < s3 then (runeError, 1)
                  else ((s0 % 8) * 262144 + (s1 % 64) * 4096 + (s2 % 64) * 64 + s3 % 64, 4)

/-- Go `utf8.ValidRune`. -/
def validRune (r : Nat) : Bool :=
  decide (r < 0xD800) || (decide (0xDFFF < r) && decide (r ≤ 0x10FFFF))

/-- Go `utf8.AppendRune` / `utf8.EncodeRune`: an invalid rune is encoded as `RuneError`. -/
def encodeRune (r : Nat) : List Nat :=
  if validRune r then utf8Bytes r else utf8Bytes runeError

/-- The digit string `"0123456789abcdef"` indexed by a nibble (`lowerhex`, `hex`). -/
def hexDigit (n : Nat) : Nat := if n % 16 < 10 then 48 + n % 16 else 87 + n % 16

/-- Decimal digits of a natural number, most significant first; `fuel` bounds the
number of digits produced. -/
def natDigitsAux : Nat → Nat → List Nat → List Nat
  | 0, _, acc => acc
  | fuel + 1, n, acc =>
    if n < 10 then (48 + n) :: acc
    else natDigitsAux fuel (n / 10) ((48 + n % 10) :: acc)

/-- Decimal representation of a natural number. -/
def natDigits (n : Nat) : GoString := natDigitsAux (n + 1) n []

/-- Go `strconv.FormatInt(i, 10)` (also `strconv.AppendInt`). -/
def itoa (i : Int) : GoString :=
  if i < 0 then 45 :: natDigits i.natAbs else natDigits i.natAbs

/-- Go `strconv.IsPrint`: Latin-1 is decided in the code, larger runes by the Unicode
tables of the library, which are the parameter `tbl`. -/
def isPrint (tbl : Nat → Bool) (r : Nat) : Bool :=
  if r ≤ 0xFF then
    if 0x20 ≤ r ∧ r ≤ 0x7E then true
    else if 0xA1 ≤ r ∧ r ≤ 0xFF then r != 0xAD
    else false
  else tbl r

/-- Go `strconv.appendEscapedRune` with `quote = '"'`, `ASCIIonly = false`,
`graphicOnly = false`. -/
def appendEscapedRune (tbl : Nat → Bool) (r : Nat) : List Nat :=
  if r = 34 ∨ r = 92 then [92, r]
  else if isPrint tbl r then encodeRune r
  else if r = 7 then [92, 97]
  else if r = 8 then [92, 98]
  else if r = 12 then [92, 102]
  else if r = 10 then [92, 110]
  else if r = 13 then [92, 114]
  else if r = 9 then [92, 116]
  else if r = 11 then [92, 118]
  else if r < 32 ∨ r = 0x7f then [92, 120, hexDigit (r / 16), hexDigit r]
  else if ¬ validRune r = true ∨ r < 0x10000 then
    let r1 := if validRune r then r else 0xFFFD
    [92, 117, hexDigit (r1 / 4096), hexDigit (r1 / 256), hexDigit (r1 / 16), hexDigit r1]
  else
    [92, 85, hexDigit (r / 268435456), hexDigit (r / 16777216), hexDigit (r / 1048576),
      hexDigit (r / 65536), hexDigit (r / 4096), hexDigit (r / 256), hexDigit (r / 16),
      hexDigit r]

/-- The loop of Go `strconv.appendQuotedWith`; `fuel` bounds the number of iterations. -/
def quoteLoop (tbl : Nat → Bool) : Nat → GoString → List Nat
  | 0, _ => []
  | _ + 1, [] => []
  | fuel + 1, s0 :: rest =>
    let rw := if s0 ≥ 0x80 then decodeRune (s0 :: rest) else (s0, 1)
    if rw.2 = 1 ∧ rw.1 = runeError then
      [92, 120, hexDigit (s0 / 16), hexDigit s0] ++ quoteLoop tbl fuel rest
    else
      appendEscapedRune tbl rw.1 ++ quoteLoop tbl fuel ((s0 :: rest).drop rw.2)

/-- Go `strconv.Quote`: a double-quoted Go string literal. -/
def quote (tbl : Nat → Bool) (s : GoString) : GoString :=
  34 :: (quoteLoop tbl s.length s ++ [34])

/-! ## Errors and fmt -/

/-- A Go `error` value: either an error produced outside this program (engine, file
system, library), or the `*fmt.wrapError` built by `fmt.Errorf` with the verb `%w`. -/
inductive GoError where
  | external (msg : GoString)
  | wrapError (msg : GoString) (err : GoError)
deriving DecidableEq, Repr

/-- The method `Error()`. -/
def GoError.Error : GoError → GoString
  | .external msg => msg
  | .wrapError msg _ => msg

/-- The method `Unwrap()` (absent on external errors, which are treated as leaves). -/
def GoError.Unwrap : GoError → Option GoError
  | .external _ => none
  | .wrapError _ err => some err

/-- Go `errors.Is(e, target)` for comparable errors: `target` is on the unwrap chain of `e`. -/
def GoError.Is : GoError → GoError → Bool
  | .external msg, target => decide (GoError.external msg = target)
  | .wrapError msg err, target => decide (GoError.wrapError msg err = target) || err.Is target

/-- An operand of a formatting call. -/
inductive FmtArg where
  | str (s : GoString)
  | int (i : Int)
  | err (e : GoError)

/-- Padding on the left with spaces up to a minimal width (`fmt.pad` without the minus flag). -/
def padLeft (width : Nat) (s : GoString) : GoString :=
  List.replicate (width - s.length) 32 ++ s

/-- One formatting verb applied to one operand: `%s`, `%q` on strings, `%d` on integers,
`%s`, `%v`, `%w` on errors. Any other combination prints the bad-verb marker. -/
def fmtVerb (tbl : Nat → Bool) (verb : Nat) (a : FmtArg) : GoString :=
  match a with
  | .str s => if verb = 115 then s else if verb = 113 then quote tbl s else [37, 33, verb]
  | .int i => if verb = 100 then itoa i else [37, 33, verb]
  | .err e => if verb = 119 ∨ verb = 118 ∨ verb = 115 then e.Error else [37, 33, verb]

/-- The formatting loop of `fmt.Sprintf` for the directives this program uses: plain
text, and `%` followed by an optional decimal width and a verb. The third argument is
`none` in plain text and `some w` after a `%` and the width digits read so far. -/
def sprintfAux (tbl : Nat → Bool) : GoString → List FmtArg → Option Nat → GoString
  | [], _, _ => []
  | c :: rest, args, none =>
    if c = 37 then sprintfAux tbl rest args (some 0) else c :: sprintfAux tbl rest args none
  | c :: rest, args, some w =>
    if 48 ≤ c ∧ c ≤ 57 then sprintfAux tbl rest args (some (w * 10 + (c - 48)))
    else
      match args with
      | [] => [37, 33, c] ++ sprintfAux tbl rest [] none
      | a :: args1 => padLeft w (fmtVerb tbl c a) ++ sprintfAux tbl rest args1 none

/-- Go `fmt.Sprintf(format, args...)`. -/
def sprintf (tbl : Nat → Bool) (format : GoString) (args : List FmtArg) : GoString :=
  sprintfAux tbl format args none

/-- Source: `genErr`, that is `fmt.Errorf("%s failed: %w", procName, err)`; the result
wraps `err`. The verbs `%s` and `%w` do not consult the Unicode tables. -/
def genErr (procName : GoString) (err : GoError) : GoError :=
  .wrapError (sprintf (fun _ => false) (lit "%s failed: %w") [.str procName, .err err]) err

/-! ## Result records and encoding/json -/

/-- Source: `SimpleResult`. -/
structure SimpleResult where
  Path : GoString
  Text : GoString
deriving DecidableEq, Repr

/-- Source: `DetailResult`; `Page` and `Line` are `int32` values. -/
structure DetailResult where
  Path : GoString
  Page : Int
  Line : Int
  Text : GoString
deriving DecidableEq, Repr

/-- Source: `newSimpleResult`. -/
def newSimpleResult (path text : GoString) : SimpleResult := ⟨path, text⟩

/-- The table `htmlSafeSet` of encoding/json: the ASCII bytes copied unescaped. -/
def htmlSafe (b : Nat) : Bool :=
  decide (0x20 ≤ b) && decide (b < 0x80) && b != 34 && b != 38 && b != 60 && b != 62 && b != 92

/-- The `switch` of encoding/json `appendString` (with `escapeHTML = true`) on an ASCII
byte: a safe byte is copied, the others are escaped. -/
def asciiEscape (b : Nat) : List Nat :=
  if htmlSafe b then [b]
  else if b = 92 ∨ b = 34 then [92, b]
  else if b = 8 then [92, 98]
  else if b = 12 then [92, 102]
  else if b = 10 then [92, 110]
  else if b = 13 then [92, 114]
  else if b = 9 then [92, 116]
  else [92, 117, 48, 48, hexDigit (b / 16), hexDigit b]

/-- The loop of encoding/json `appendString` with `escapeHTML = true`; `fuel` bounds the
number of iterations. -/
def appendStringLoop : Nat → GoString → List Nat
  | 0, _ => []
  | _ + 1, [] => []
  | fuel + 1, b :: rest =>
    if b < 0x80 then asciiEscape b ++ appendStringLoop fuel rest
    else
      let cs := decodeRune ((b :: rest).take 4)
      if cs.1 = runeError ∧ cs.2 = 1 then
        lit "\\ufffd" ++ appendStringLoop fuel rest
      else if cs.1 = 0x2028 ∨ cs.1 = 0x2029 then
        lit "\\u202" ++ [hexDigit cs.1] ++ appendStringLoop fuel ((b :: rest).drop cs.2)
      else
        (b :: rest).take cs.2 ++ appendStringLoop fuel ((b :: rest).drop cs.2)

/-- The function `appendString` of encoding/json: a JSON string literal. -/
def appendString (s : GoString) : GoString :=
  34 :: (appendStringLoop s.length s ++ [34])

/-- A value handed to `toJson` (its parameter has type `any`). -/
inductive Record where
  | simple (r : SimpleResult)
  | detail (r : DetailResult)
deriving DecidableEq

/-- Go `json.Marshal` on the two record types: the fields in declaration order under
their `json` tags, without white space. Marshalling strings and integers cannot fail. -/
def jsonMarshal : Record → GoString × Option GoError
  | .simple r =>
    (lit "\x7b\"path\":" ++ appendString r.Path ++ lit ",\"text\":" ++ appendString r.Text
      ++ lit "\x7d", none)
  | .detail r =>
    (lit "\x7b\"path\":" ++ appendString r.Path ++ lit ",\"page\":" ++ itoa r.Page
      ++ lit ",\"line\":" ++ itoa r.Line ++ lit ",\"text\":" ++ appendString r.Text
      ++ lit "\x7d", none)

/-- Source: `toJson`. -/
def toJson (v : Record) : GoString × Option GoError :=
  match jsonMarshal v with
  | (_, some err) => ([], some (genErr (lit "json.Marshal(result)") err))
  | (b, none) => (b, none)

/-! ## Decoding: encoding/json `Unmarshal` on compact objects

The decoder below is `json.Unmarshal` into `SimpleResult` and `DetailResult`, restricted
to the inputs `json.Marshal` produces for these types: an object without white space
whose members are the fields in declaration order. String literals are unquoted as the
function `unquote` of the library does; numbers are read as `int32` values. -/

/-- The value of a hexadecimal digit. -/
def hexVal (c : Nat) : Option Nat :=
  if 48 ≤ c ∧ c ≤ 57 then some (c - 48)
  else if 97 ≤ c ∧ c ≤ 102 then some (c - 87)
  else if 65 ≤ c ∧ c ≤ 70 then some (c - 55)
  else none

/-- The function `getu4` of encoding/json on the four digits after a backslash and `u`. -/
def getu4 (a b c d : Nat) : Option Nat :=
  match hexVal a, hexVal b, hexVal c, hexVal d with
  | some x, some y, some z, some w => some (x * 4096 + y * 256 + z * 16 + w)
  | _, _, _, _ => none

/-- Put decoded bytes in front of the result of reading the rest of a literal. -/
def consBytes (bytes : List Nat) (r : Option (GoString × List Nat)) :
    Option (GoString × List Nat) :=
  r.map (fun p => (bytes ++ p.1, p.2))

/-- The rune a `\u` escape stands for, given the input after it: a high surrogate
followed by the escape of a low surrogate is the pair, any other surrogate is the
replacement character. Returns the rune and the input that remains. -/
def escapedRune (rr : Nat) (rest : List Nat) : Nat × List Nat :=
  if 0xD800 ≤ rr ∧ rr < 0xE000 then
    match rest with
    | b0 :: u0 :: a :: b :: c :: d :: rest1 =>
      if b0 = 92 ∧ u0 = 117 then
        match getu4 a b c d with
        | some rr1 =>
          if rr < 0xDC00 ∧ 0xDC00 ≤ rr1 ∧ rr1 < 0xE000 then
            ((rr - 0xD800) * 1024 + (rr1 - 0xDC00) + 0x10000, rest1)
          else (0xFFFD, rest)
        | none => (0xFFFD, rest)
      else (0xFFFD, rest)
    | _ => (0xFFFD, rest)
  else (rr, rest)

/-- Reading a JSON string literal after its opening quote, up to and including the
closing quote (the scanner and `unquote` of encoding/json in one pass): the decoded bytes
and the input that remains. `fuel` bounds the number of steps. -/
def readString : Nat → List Nat → Option (GoString × List Nat)
  | 0, _ => none
  | _ + 1, [] => none
  | fuel + 1, c :: rest =>
    if c = 34 then some ([], rest)
    else if c = 92 then
      match rest with
      | [] => none
      | e :: rest1 =>
        if e = 34 ∨ e = 92 ∨ e = 47 then consBytes [e] (readString fuel rest1)
        else if e = 98 then consBytes [8] (readString fuel rest1)
        else if e = 102 then consBytes [12] (readString fuel rest1)
        else if e = 110 then consBytes [10] (readString fuel rest1)
        else if e = 114 then consBytes [13] (readString fuel rest1)
        else if e = 116 then consBytes [9] (readString fuel rest1)
        else if e = 117 then
          match rest1 with
          | a :: b :: c1 :: d :: rest2 =>
            match getu4 a b c1 d with
            | none => none
            | some rr =>
              consBytes (encodeRune (escapedRune rr rest2).1)
                (readString fuel (escapedRune rr rest2).2)
          | _ => none
        else none
    else if c < 32 then none
    else if c < 0x80 then consBytes [c] (readString fuel rest)
    else
      consBytes (encodeRune (decodeRune (c :: rest)).1)
        (readString fuel ((c :: rest).drop (decodeRune (c :: rest)).2))

/-- A decimal digit. -/
def isDigit (c : Nat) : Bool := decide (48 ≤ c) && decide (c ≤ 57)

/-- The value of a string of decimal digits. -/
def digitsValue (ds : List Nat) : Nat := ds.foldl (fun acc c => acc * 10 + (c - 48)) 0

/-- Reading a JSON number into an `int32`: an optional minus sign and digits without a
superfluous leading zero; the value must fit. Returns the value and the input that
remains. -/
def readInt32 (s : List Nat) : Option (Int × List Nat) :=
  let neg := s.head? == some 45
  let s1 := if neg then s.drop 1 else s
  let ds := s1.takeWhile isDigit
  let rest := s1.dropWhile isDigit
  if ds.isEmpty then none
  else if decide (1 < ds.length) && (ds.head? == some 48) then none
  else
    let i : Int := if neg then - (digitsValue ds : Int) else (digitsValue ds : Int)
    if -2147483648 ≤ i ∧ i ≤ 2147483647 then some (i, rest) else none

/-- Consume a fixed piece of input. -/
def expect (p : List Nat) (s : List Nat) : Option (List Nat) :=
  if startsWith s p then some (s.drop p.length) else none

/-- Reading a string literal including its opening quote. -/
def readQuoted (s : List Nat) : Option (GoString × List Nat) :=
  (expect [34] s).bind (fun s1 => readString (s1.length + 1) s1)

/-- Go `json.Unmarshal` into a `SimpleResult`, on compact objects as `json.Marshal`
writes them. -/
def unmarshalSimple (s : GoString) : Option SimpleResult :=
  (expect (lit "\x7b\"path\":") s).bind fun s1 =>
  (readQuoted s1).bind fun p =>
  (expect (lit ",\"text\":") p.2).bind fun s2 =>
  (readQuoted s2).bind fun t =>
  (expect (lit "\x7d") t.2).bind fun s3 =>
  if s3.isEmpty then some { Path := p.1, Text := t.1 } else none

/-- Go `json.Unmarshal` into a `DetailResult`, on compact objects as `json.Marshal`
writes them. -/
def unmarshalDetail (s : GoString) : Option DetailResult :=
  (expect (lit "\x7b\"path\":") s).bind fun s1 =>
  (readQuoted s1).bind fun p =>
  (expect (lit ",\"page\":") p.2).bind fun s2 =>
  (readInt32 s2).bind fun pg =>
  (expect (lit ",\"line\":") pg.2).bind fun s3 =>
  (readInt32 s3).bind fun ln =>
  (expect (lit ",\"text\":") ln.2).bind fun s4 =>
  (readQuoted s4).bind fun t =>
  (expect (lit "\x7d") t.2).bind fun s5 =>
  if s5.isEmpty then some { Path := p.1, Page := pg.1, Line := ln.1, Text := t.1 } else none

/-! ## The program state: arguments, the external world, events -/

/-- Source: `Args`, the process-global configuration filled by `flag.Parse`. -/
structure Args where
  dir : GoString
  text : GoString
  json : Bool
  onlyHit : Bool
  verbose : Bool
  debug : Bool
deriving DecidableEq, Repr

/-- Source: `init`; the value of `args` when no flag is given on the command line. -/
def defaultArgs : Args :=
  { dir := lit ".", text := lit "", json := false, onlyHit := true, verbose := false,
    debug := false }

/-- One invocation of the callback by `filepath.WalkDir`: the path, `d.IsDir()` and the
incoming error. -/
structure Visit where
  path : GoString
  isDir : Bool
  err : Option GoError
deriving DecidableEq, Repr

/-- The value `constants.WdFindWrapFindStop` (Word: `wdFindStop`). -/
def WdFindWrapFindStop : Nat := 0

/-- Everything outside the program. The engine operations (package `gord`) act on an
engine state `σ` and return what the Go method returns: a value and an error. Documents,
ranges and find objects are handles. `walk root` lists the callback invocations that
`filepath.WalkDir` makes, in order, as long as the callback returns nil. -/
structure World (σ : Type) where
  filepathAbs : GoString → GoString
  filepathRel : GoString → GoString → GoString
  filepathBase : GoString → GoString
  walk : GoString → List Visit
  printTable : Nat → Bool
  initGord : σ → σ
  quit : σ → σ
  newGord : σ → σ
  wordRelease : σ → σ
  silent : Bool → σ → σ
  documents : σ → Option GoError × σ
  docsOpen : GoString → σ → (Nat × Option GoError) × σ
  docRelease : Nat → σ → σ
  allRange : Nat → σ → (Nat × Option GoError) × σ
  find : Nat → σ → (Nat × Option GoError) × σ
  forward : Nat → Bool → σ → Option GoError × σ
  wrap : Nat → Nat → σ → Option GoError × σ
  format : Nat → Bool → σ → Option GoError × σ
  matchCase : Nat → Bool → σ → Option GoError × σ
  matchWildcards : Nat → Bool → σ → Option GoError × σ
  setText : Nat → GoString → σ → Option GoError × σ
  execute : Nat → σ → (Bool × Option GoError) × σ
  rangeText : Nat → σ → (GoString × Option GoError) × σ
  pageNumber : Nat → σ → (Int × Option GoError) × σ
  lineNo : Nat → σ → (Int × Option GoError) × σ

/-- What a line on standard output (the logger `appLog`) was printed for. -/
inductive Printed where
  | debug
  | simple (r : SimpleResult)
  | detail (r : DetailResult)
deriving DecidableEq, Repr

/-- An observable step of the program: a callback invocation, an engine call with its
arguments and results, or a line written through `appLog`. -/
inductive Event where
  | initGord
  | quit
  | newGord
  | wordRelease
  | silent (v : Bool)
  | documents (err : Option GoError)
  | visit (path : GoString) (isDir : Bool) (err : Option GoError)
  | docOpen (path : GoString) (doc : Nat) (err : Option GoError)
  | docRelease (doc : Nat)
  | allRange (doc : Nat) (rng : Nat) (err : Option GoError)
  | find (rng : Nat) (fnd : Nat) (err : Option GoError)
  | forward (fnd : Nat) (v : Bool) (err : Option GoError)
  | wrap (fnd : Nat) (v : Nat) (err : Option GoError)
  | format (fnd : Nat) (v : Bool) (err : Option GoError)
  | matchCase (fnd : Nat) (v : Bool) (err : Option GoError)
  | matchWildcards (fnd : Nat) (v : Bool) (err : Option GoError)
  | text (fnd : Nat) (s : GoString) (err : Option GoError)
  | execute (fnd : Nat) (found : Bool) (err : Option GoError)
  | rangeText (rng : Nat) (s : GoString) (err : Option GoError)
  | pageNumber (rng : Nat) (n : Int) (err : Option GoError)
  | lineNo (rng : Nat) (n : Int) (err : Option GoError)
  | println (src : Printed) (line : GoString)
  | printDefaults
  | logFatal (err : GoError)
deriving DecidableEq, Repr

/-- The result of running a piece of the program: `ret = some r` when it returned the
error value `r` (`none` is Go `nil`), `ret = none` when it was still inside the verbose
loop when the fuel ran out; the engine state reached and the events produced. -/
structure Outcome (σ : Type) where
  ret : Option (Option GoError)
  eng : σ
  events : List Event

/-- The same outcome, preceded by earlier events. -/
def Outcome.after {σ : Type} (evs : List Event) (o : Outcome σ) : Outcome σ :=
  { ret := o.ret, eng := o.eng, events := evs ++ o.events }

/-- The pattern `if err := call; err != nil { return genErr(procName, err) }`: `r` is
what the call returned, `ev` records it, `k` is the rest of the function. -/
def check {σ : Type} (procName : GoString) (ev : Option GoError → Event)
    (r : Option GoError × σ) (k : σ → Outcome σ) : Outcome σ :=
  match r.1 with
  | some err => { ret := some (some (genErr procName err)), eng := r.2, events := [ev (some err)] }
  | none => (k r.2).after [ev none]

/-! ## The program -/

/-- Source: `abs`; the error of `filepath.Abs` is discarded. -/
def abs {σ : Type} (W : World σ) (p : GoString) : GoString := W.filepathAbs p

/-- Source: `newDetailResult`; the errors of the three accessors are discarded. -/
def newDetailResult {σ : Type} (W : World σ) (path : GoString) (foundRange : Nat) (s : σ) :
    DetailResult × σ × List Event :=
  let t := W.rangeText foundRange s
  let p := W.pageNumber foundRange t.2
  let l := W.lineNo foundRange p.2
  ({ Path := path, Page := p.1.1, Line := l.1.1, Text := t.1.1 }, l.2,
    [.rangeText foundRange t.1.1 t.1.2, .pageNumber foundRange p.1.1 p.1.2,
      .lineNo foundRange l.1.1 l.1.2])

/-- Source: `outSimple`; returns the error and the line printed. -/
def outSimple (tbl : Nat → Bool) (args : Args) (result : SimpleResult) :
    Option GoError × List Event :=
  let message := sprintf tbl (lit "%s: %s") [.str result.Path, .str result.Text]
  if args.json then
    match toJson (.simple result) with
    | (_, some err) => (some (genErr (lit "toJson(result)") err), [])
    | (message, none) => (none, [.println (.simple result) message])
  else (none, [.println (.simple result) message])

/-- Source: `outDetail`; returns the error and the line printed. -/
def outDetail (tbl : Nat → Bool) (args : Args) (result : DetailResult) :
    Option GoError × List Event :=
  let message := sprintf tbl (lit "%s (%3d,%3d): %q")
    [.str result.Path, .int result.Page, .int result.Line, .str result.Text]
  if args.json then
    match toJson (.detail result) with
    | (_, some err) => (some (genErr (lit "toJson(result)") err), [])
    | (message, none) => (none, [.println (.detail result) message])
  else (none, [.println (.detail result) message])

/-- Source: `run`, the loop `for found { ... }` (lines 211-226). `fuel` bounds the number
of iterations; the outcome has `ret = none` when `found` is still true after them. -/
def detailLoop {σ : Type} (W : World σ) (args : Args) (relPath : GoString)
    (allRange fnd : Nat) : Nat → Bool → σ → Outcome σ
  | _, false, s => { ret := some none, eng := s, events := [] }
  | 0, true, s => { ret := none, eng := s, events := [] }
  | fuel + 1, true, s =>
    let d := newDetailResult W relPath allRange s
    match outDetail W.printTable args d.1 with
    | (some err, evs) =>
      { ret := some (some (genErr (lit "outDetail(result)") err)), eng := d.2.1,
        events := d.2.2 ++ evs }
    | (none, evs) =>
      match W.execute fnd d.2.1 with
      | ((found, some err), s2) =>
        { ret := some (some (genErr (lit "find.Execute() [after the second time]") err)),
          eng := s2, events := d.2.2 ++ evs ++ [.execute fnd found (some err)] }
      | ((found, none), s2) =>
        (detailLoop W args relPath allRange fnd fuel found s2).after
          (d.2.2 ++ evs ++ [.execute fnd found none])

/-- Source: `run`, lines 190-226: what is reported once the first `Execute` succeeded. -/
def report {σ : Type} (W : World σ) (args : Args) (fuel : Nat) (relPath : GoString)
    (allRange fnd : Nat) (found : Bool) (s : σ) : Outcome σ :=
  if !found then
    if !args.onlyHit then
      match outSimple W.printTable args (newSimpleResult relPath (lit "NO HIT")) with
      | (some err, evs) =>
        { ret := some (some (genErr (lit "outSimple(result)") err)), eng := s, events := evs }
      | (none, evs) => { ret := some none, eng := s, events := evs }
    else { ret := some none, eng := s, events := [] }
  else if !args.verbose then
    match outSimple W.printTable args (newSimpleResult relPath (lit "HIT")) with
    | (some err, evs) =>
      { ret := some (some (genErr (lit "outSimple(result)") err)), eng := s, events := evs }
    | (none, evs) => { ret := some none, eng := s, events := evs }
  else detailLoop W args relPath allRange fnd fuel found s

/-- Source: `run`, lines 185-190: the first `find.Execute()`. -/
def search {σ : Type} (W : World σ) (args : Args) (fuel : Nat) (rootDir absPath : GoString)
    (allRange fnd : Nat) (s : σ) : Outcome σ :=
  match W.execute fnd s with
  | ((found, some err), s1) =>
    { ret := some (some (genErr (lit "find.Execute() [first time]") err)), eng := s1,
      events := [.execute fnd found (some err)] }
  | ((found, none), s1) =>
    (report W args fuel (W.filepathRel rootDir absPath) allRange fnd found s1).after
      [.execute fnd found none]

/-- Source: `run`, lines 175-183: the wildcard switch and the search text. -/
def setPattern {σ : Type} (W : World σ) (args : Args) (fuel : Nat)
    (rootDir absPath : GoString) (allRange fnd : Nat) (s : σ) : Outcome σ :=
  let rest := fun s1 =>
    check (lit "find.Text()") (.text fnd args.text) (W.setText fnd args.text s1)
      (search W args fuel rootDir absPath allRange fnd)
  if contains args.text (lit "*") then
    check (lit "find.MatchWildcards()") (.matchWildcards fnd true)
      (W.matchWildcards fnd true s) rest
  else rest s

/-- Source: `run`, lines 150-164: the fixed settings of the find object. -/
def configure {σ : Type} (W : World σ) (args : Args) (fuel : Nat)
    (rootDir absPath : GoString) (allRange fnd : Nat) (s : σ) : Outcome σ :=
  check (lit "find.Forward()") (.forward fnd true) (W.forward fnd true s) fun s1 =>
  check (lit "find.Wrap()") (.wrap fnd WdFindWrapFindStop)
    (W.wrap fnd WdFindWrapFindStop s1) fun s2 =>
  check (lit "find.Format()") (.format fnd false) (W.format fnd false s2) fun s3 =>
  check (lit "find.MatchCase()") (.matchCase fnd false) (W.matchCase fnd false s3)
    (setPattern W args fuel rootDir absPath allRange fnd)

/-- Source: `run`, lines 140-148: the whole-document range and its find object. -/
def prepare {σ : Type} (W : World σ) (args : Args) (fuel : Nat)
    (rootDir absPath : GoString) (doc : Nat) (s : σ) : Outcome σ :=
  match W.allRange doc s with
  | ((rng, some err), s1) =>
    { ret := some (some (genErr (lit "doc.AllRange()") err)), eng := s1,
      events := [.allRange doc rng (some err)] }
  | ((rng, none), s1) =>
    Outcome.after [.allRange doc rng none]
      (match W.find rng s1 with
       | ((fnd, some err), s2) =>
         { ret := some (some (genErr (lit "range.Find()") err)), eng := s2,
           events := [.find rng fnd (some err)] }
       | ((fnd, none), s2) =>
         (configure W args fuel rootDir absPath rng fnd s2).after [.find rng fnd none])

/-- Source: `run`, lines 136-226: the body of the callback after `defer docRelease()`;
it starts with the debug line. -/
def openBody {σ : Type} (W : World σ) (args : Args) (fuel : Nat)
    (rootDir absPath : GoString) (doc : Nat) (s : σ) : Outcome σ :=
  Outcome.after
    (if args.debug then
      [.println .debug (sprintf W.printTable (lit "Document Open: %s") [.str absPath])]
     else [])
    (prepare W args fuel rootDir absPath doc s)

/-- Source: `run`, lines 112-227: the callback handed to `filepath.WalkDir`. The deferred
`docRelease()` runs when the body has returned. -/
def walkFn {σ : Type} (W : World σ) (args : Args) (fuel : Nat) (rootDir : GoString)
    (v : Visit) (s : σ) : Outcome σ :=
  Outcome.after [.visit v.path v.isDir v.err]
    (match v.err with
     | some err => { ret := some (some err), eng := s, events := [] }
     | none =>
       if v.isDir then { ret := some none, eng := s, events := [] }
       else if contains (W.filepathBase v.path) (lit "~$") then
         { ret := some none, eng := s, events := [] }
       else if !hasSuffix v.path (lit ".docx") then
         { ret := some none, eng := s, events := [] }
       else
         let absPath := abs W v.path
         match W.docsOpen absPath s with
         | ((doc, some err), s1) =>
           { ret := some (some err), eng := s1, events := [.docOpen absPath doc (some err)] }
         | ((doc, none), s1) =>
           let o := openBody W args fuel rootDir absPath doc s1
           match o.ret with
           | none => o.after [.docOpen absPath doc none]
           | some r =>
             { ret := some r, eng := W.docRelease doc o.eng,
               events := .docOpen absPath doc none :: (o.events ++ [.docRelease doc]) })

/-- Go `filepath.WalkDir` seen from the callback: it is invoked for each entry in turn,
and the first non-nil result stops the walk and is returned. (The callback of this
program never returns `filepath.SkipDir` or `filepath.SkipAll` of its own.) -/
def walkDir {σ : Type} (fn : Visit → σ → Outcome σ) : List Visit → σ → Outcome σ
  | [], s => { ret := some none, eng := s, events := [] }
  | v :: vs, s =>
    let o := fn v s
    match o.ret with
    | some none => (walkDir fn vs o.eng).after o.events
    | _ => o

/-- Source: `run`. The deferred `wordRelease()` and `quit()` run, in this order, when the
body has returned. -/
def run {σ : Type} (W : World σ) (args : Args) (fuel : Nat) (s : σ) : Outcome σ :=
  let s3 := W.silent false (W.newGord (W.initGord s))
  let body : Outcome σ :=
    match W.documents s3 with
    | (some err, s4) =>
      { ret := some (some (genErr (lit "word.Documents()") err)), eng := s4,
        events := [.documents (some err)] }
    | (none, s4) =>
      let rootDir := abs W args.dir
      (walkDir (walkFn W args fuel rootDir) (W.walk rootDir) s4).after [.documents none]
  match body.ret with
  | none => body.after [.initGord, .newGord, .silent false]
  | some r =>
    { ret := some r, eng := W.quit (W.wordRelease body.eng),
      events := [.initGord, .newGord, .silent false] ++ body.events ++ [.wordRelease, .quit] }

/-- How `main` ended: the exit status of the process (`none` while `run` has not
returned), the engine state, the events. -/
structure MainOutcome (σ : Type) where
  exit : Option Nat
  eng : σ
  events : List Event

/-- Source: `main`, after `flag.Parse()` has filled `args`. `os.Exit(1)` ends the process
at once; `log.Fatal` prints the error and exits with status 1. -/
def main {σ : Type} (W : World σ) (args : Args) (fuel : Nat) (s : σ) : MainOutcome σ :=
  if args.text = lit "" then { exit := some 1, eng := s, events := [.printDefaults] }
  else
    let args1 := if args.dir = lit "" then { args with dir := lit "." } else args
    let o := run W args1 fuel s
    match o.ret with
    | some (some err) => { exit := some 1, eng := o.eng, events := o.events ++ [.logFatal err] }
    | some none => { exit := some 0, eng := o.eng, events := o.events }
    | none => { exit := none, eng := o.eng, events := o.events }


/-! ## Classification of events -/

/-- The events that the search of one document produces from the first `Execute` on:
`Execute` calls, accessor calls and printed lines. -/
def Event.isSearchStep : Event → Bool
  | .execute _ _ _ => true
  | .rangeText _ _ _ => true
  | .pageNumber _ _ _ => true
  | .lineNo _ _ _ => true
  | .println _ _ => true
  | _ => false

/-- An `Execute` call. -/
def Event.isExecute : Event → Bool
  | .execute _ _ _ => true
  | _ => false

/-- A call `find.MatchWildcards(v)`, whatever it returned. -/
def Event.isMatchWildcards : Event → Bool
  | .matchWildcards _ _ _ => true
  | _ => false

/-- A call `find.MatchWildcards(true)`, whatever it returned. -/
def Event.isWildcardsOn : Event → Bool
  | .matchWildcards _ true _ => true
  | _ => false

/-- The events the body of the callback can produce once the document is open, given
whether the search text holds a `*`: the calls on the document, its range and its find
object, and printed lines; `MatchWildcards` only with the argument `true` and only when
`star` holds. -/
def Event.isBodyStep (star : Bool) : Event → Bool
  | .allRange _ _ _ => true
  | .find _ _ _ => true
  | .forward _ _ _ => true
  | .wrap _ _ _ => true
  | .format _ _ _ => true
  | .matchCase _ _ _ => true
  | .matchWildcards _ v _ => star && v
  | .text _ _ _ => true
  | .execute _ _ _ => true
  | .rangeText _ _ _ => true
  | .pageNumber _ _ _ => true
  | .lineNo _ _ _ => true
  | .println _ _ => true
  | _ => false

/-- The events `run` can produce: those of the callback bodies, the callback invocations,
opening and releasing documents, and starting and stopping the engine. -/
def Event.isRunStep (star : Bool) : Event → Bool
  | .initGord => true
  | .quit => true
  | .newGord => true
  | .wordRelease => true
  | .silent _ => true
  | .documents _ => true
  | .visit _ _ _ => true
  | .docOpen _ _ _ => true
  | .docRelease _ => true
  | .printDefaults => false
  | .logFatal _ => false
  | e => e.isBodyStep star

/-- A step in the life of a document handle. -/
inductive DocMark where
  | opened (doc : Nat)
  | released (doc : Nat)
deriving DecidableEq, Repr

/-- The life-cycle step an event stands for: a successful `docs.Open`, or a call of the
release function it returned. -/
def Event.docMark : Event → Option DocMark
  | .docOpen _ doc none => some (.opened doc)
  | .docRelease doc => some (.released doc)
  | _ => none

/-- The life-cycle steps of a list of events, in order. -/
def docMarks (evs : List Event) : List DocMark := evs.filterMap Event.docMark

/-- The life cycle in which the documents `docs` are, one after the other, opened and
released. -/
def paired (docs : List Nat) : List DocMark :=
  docs.flatMap (fun d => [.opened d, .released d])

/-- A failed call whose error the program wraps with `genErr`: the operation names it
may be wrapped under (the program uses two names for `find.Execute`) and the error the
call returned. -/
def Event.wrappedFailure : Event → Option (List GoString × GoError)
  | .documents (some e) => some ([lit "word.Documents()"], e)
  | .allRange _ _ (some e) => some ([lit "doc.AllRange()"], e)
  | .find _ _ (some e) => some ([lit "range.Find()"], e)
  | .forward _ _ (some e) => some ([lit "find.Forward()"], e)
  | .wrap _ _ (some e) => some ([lit "find.Wrap()"], e)
  | .format _ _ (some e) => some ([lit "find.Format()"], e)
  | .matchCase _ _ (some e) => some ([lit "find.MatchCase()"], e)
  | .matchWildcards _ _ (some e) => some ([lit "find.MatchWildcards()"], e)
  | .text _ _ (some e) => some ([lit "find.Text()"], e)
  | .execute _ _ (some e) =>
    some ([lit "find.Execute() [first time]", lit "find.Execute() [after the second time]"], e)
  | _ => none

/-- A failure the program hands on as it is: the incoming error of the callback and the
error of `docs.Open`. -/
def Event.passedFailure : Event → Option GoError
  | .visit _ _ (some e) => some e
  | .docOpen _ _ (some e) => some e
  | _ => none

/-- The incoming error of a callback invocation. -/
def Event.incomingFailure : Event → Option GoError
  | .visit _ _ (some e) => some e
  | _ => none

/-- A call of one of the accessors `Text`, `PageNumber`, `LineNo`. -/
def Event.isAccessor : Event → Bool
  | .rangeText _ _ _ => true
  | .pageNumber _ _ _ => true
  | .lineNo _ _ _ => true
  | _ => false

/-- The event is accounted for by the returned value `ret`: if it is a failure that is
wrapped, `ret` is that error wrapped by `genErr` under one of its operation names; if it
is a failure that is handed on, `ret` is that error. -/
def Event.accounted (ret : Option (Option GoError)) (ev : Event) : Prop :=
  (∀ names e0, ev.wrappedFailure = some (names, e0) →
    ∃ name ∈ names, ret = some (some (genErr name e0))) ∧
  (∀ e0, ev.passedFailure = some e0 → ret = some (some e0))

/-- An event that is neither a wrapped nor a handed-on failure. -/
def Event.isQuiet (ev : Event) : Bool :=
  ev.wrappedFailure.isNone && ev.passedFailure.isNone

/-- The event is a call that returned an error. -/
def Event.failed : Event → Bool
  | .documents err => err.isSome
  | .visit _ _ err => err.isSome
  | .docOpen _ _ err => err.isSome
  | .allRange _ _ err => err.isSome
  | .find _ _ err => err.isSome
  | .forward _ _ err => err.isSome
  | .wrap _ _ err => err.isSome
  | .format _ _ err => err.isSome
  | .matchCase _ _ err => err.isSome
  | .matchWildcards _ _ err => err.isSome
  | .text _ _ err => err.isSome
  | .execute _ _ err => err.isSome
  | .rangeText _ _ err => err.isSome
  | .pageNumber _ _ err => err.isSome
  | .lineNo _ _ err => err.isSome
  | _ => false

/-- The line an event prints, with what it was printed for. -/
def Event.output : Event → Option (Printed × GoString)
  | .println src line => some (src, line)
  | _ => none

/-- The lines printed through `appLog`, in order. -/
def outputs (evs : List Event) : List (Printed × GoString) := evs.filterMap Event.output

/-- The answer of an `Execute` call: whether it reported a match. -/
def Event.executed : Event → Option Bool
  | .execute _ found _ => some found
  | _ => none

/-- The answers of the `Execute` calls, in order. -/
def executes (evs : List Event) : List Bool := evs.filterMap Event.executed

/-- What an `Execute` call returned: whether it reported a match, and its error. -/
def Event.executeResult : Event → Option (Bool × Option GoError)
  | .execute _ found err => some (found, err)
  | _ => none

/-- What the `Execute` calls returned, in order. -/
def executeResults (evs : List Event) : List (Bool × Option GoError) :=
  evs.filterMap Event.executeResult

/-- The calls that set the search up: they neither print nor execute. -/
def Event.isSetupStep : Event → Bool
  | .allRange _ _ _ => true
  | .find _ _ _ => true
  | .forward _ _ _ => true
  | .wrap _ _ _ => true
  | .format _ _ _ => true
  | .matchCase _ _ _ => true
  | .matchWildcards _ _ _ => true
  | .text _ _ _ => true
  | _ => false

/-- The debug line of `run` for a document, when the `debug` flag is set. -/
def debugOutput (tbl : Nat → Bool) (args : Args) (absPath : GoString) :
    List (Printed × GoString) :=
  if args.debug then [(.debug, sprintf tbl (lit "Document Open: %s") [.str absPath])] else []

/-- A stage of the set-up either stops at a failed call, having neither printed nor
executed, or hands over to `search` after set-up calls only. -/
def Stage {σ : Type} (W : World σ) (args : Args) (fuel : Nat) (rootDir absPath : GoString)
    (o : Outcome σ) : Prop :=
  (o.events.all Event.isSetupStep = true ∧ o.events.any Event.failed = true) ∨
  (∃ pre rng fnd s1, pre.all Event.isSetupStep = true ∧
    o = (search W args fuel rootDir absPath rng fnd s1).after pre)

/-- When the outcome is an error, its last event is the failed call that caused it. -/
def StopsAtFailure {σ : Type} (o : Outcome σ) : Prop :=
  ∀ e, o.ret = some (some e) → ∃ before f, o.events = before ++ [f] ∧ f.isQuiet = false

/-- The results of the callback invocations that `filepath.WalkDir` makes, in order. -/
def callbackResults {σ : Type} (fn : Visit → σ → Outcome σ) :
    List Visit → σ → List (Option (Option GoError))
  | [], _ => []
  | v :: vs, s =>
    (fn v s).ret ::
      (match (fn v s).ret with
       | some none => callbackResults fn vs (fn v s).eng
       | _ => [])

/-- The form of a detail line in the words of the specification: the path, a space, an
opening parenthesis, the decimal page number, a comma, the decimal line number, a closing
parenthesis, a colon, a space, and the text between double quotes. -/
def specDetailLine (r : DetailResult) : GoString :=
  r.Path ++ lit " (" ++ itoa r.Page ++ lit "," ++ itoa r.Line ++ lit "): " ++ [34] ++ r.Text
    ++ [34]

/-- A printable ASCII byte other than the double quote and the backslash. -/
def plainByte (b : Nat) : Bool :=
  decide (0x20 ≤ b) && decide (b ≤ 0x7E) && b != 34 && b != 92

/-- The JSON text `json.Marshal` writes for one Unicode scalar value inside a string. -/
def jsonEsc (c : Nat) : List Nat :=
  if c < 0x80 then asciiEscape c
  else if c = 0x2028 ∨ c = 0x2029 then lit "\\u202" ++ [hexDigit c]
  else utf8Bytes c

/-- The string is valid UTF-8: it is the encoding of a sequence of Unicode scalar values
(code points up to U+10FFFF that are not surrogates). -/
def ValidUTF8 (s : GoString) : Prop :=
  ∃ cs : List Nat, cs.all validRune = true ∧ s = cs.flatMap utf8Bytes

/-- The value is in the range of `int32`. -/
def IsInt32 (i : Int) : Prop := -2147483648 ≤ i ∧ i ≤ 2147483647

/-! ## A concrete world for examples -/

/-- Settings of the example engine: the entries of the walk, the number of matches every
document holds, and the errors some operations return (`doc.AllRange()` per document
handle). -/
structure Script where
  visits : List Visit
  hits : Nat
  failDocuments : Option GoError
  failOpen : Option GoError
  failAllRange : Nat → Option GoError
  failText : Option GoError
  failPage : Option GoError
  failLine : Option GoError

/-- The part of a path after its last backslash. -/
def lastSegment : GoString → GoString → GoString
  | [], acc => acc
  | c :: rest, acc => if c = 92 then lastSegment rest [] else lastSegment rest (acc ++ [c])

/-- An example world. The handle of a document is the length of its path. The engine
state counts the `Execute` calls on the open document; `Execute` reports a match as long
as that count is below `sc.hits`. -/
def scriptWorld (sc : Script) : World Nat :=
  { filepathAbs := fun p =>
      if p = lit "." then lit "C:\\w"
      else if startsWith p (lit "C:\\") then p else lit "C:\\w\\" ++ p
    filepathRel := fun root p =>
      if startsWith p (root ++ [92]) then p.drop (root.length + 1) else p
    filepathBase := fun p => lastSegment p []
    walk := fun _ => sc.visits
    printTable := fun _ => true
    initGord := fun s => s
    quit := fun s => s
    newGord := fun s => s
    wordRelease := fun s => s
    silent := fun _ s => s
    documents := fun s => (sc.failDocuments, s)
    docsOpen := fun p _ => ((p.length, sc.failOpen), 0)
    docRelease := fun _ s => s
    allRange := fun doc s => ((doc + 1, sc.failAllRange doc), s)
    find := fun rng s => ((rng + 1, none), s)
    forward := fun _ _ s => (none, s)
    wrap := fun _ _ s => (none, s)
    format := fun _ _ s => (none, s)
    matchCase := fun _ _ s => (none, s)
    matchWildcards := fun _ _ s => (none, s)
    setText := fun _ _ s => (none, s)
    execute := fun _ s => ((decide (s < sc.hits), none), s + 1)
    rangeText := fun _ s => ((if sc.failText.isSome then [] else lit "hit", sc.failText), s)
    pageNumber := fun _ s => ((if sc.failPage.isSome then 0 else 1, sc.failPage), s)
    lineNo := fun _ s => ((if sc.failLine.isSome then 0 else s, sc.failLine), s) }

/-- An example walk: the root directory, a lock file, a text file and one document. -/
def sampleVisits : List Visit :=
  [ { path := lit "C:\\w", isDir := true, err := none },
    { path := lit "C:\\w\\~$a.docx", isDir := false, err := none },
    { path := lit "C:\\w\\notes.txt", isDir := false, err := none },
    { path := lit "C:\\w\\a.docx", isDir := false, err := none } ]

/-- The example settings: the sample walk, `hits` matches per document, no failure. -/
def sampleScript (hits : Nat) : Script :=
  { visits := sampleVisits, hits := hits, failDocuments := none, failOpen := none,
    failAllRange := fun _ => none, failText := none, failPage := none, failLine := none }

/-- An example walk with three documents, of handles 11, 12 and 13 in the example world. -/
def abortVisits : List Visit :=
  [ { path := lit "C:\\w", isDir := true, err := none },
    { path := lit "C:\\w\\a.docx", isDir := false, err := none },
    { path := lit "C:\\w\\bb.docx", isDir := false, err := none },
    { path := lit "C:\\w\\ccc.docx", isDir := false, err := none } ]

/-- The settings in which every document holds one match and `doc.AllRange()` fails on the
second document of `abortVisits`. -/
def abortScript : Script :=
  { visits := abortVisits, hits := 1, failDocuments := none, failOpen := none,
    failAllRange := fun doc => if doc = 12 then some (.external (lit "busy")) else none,
    failText := none, failPage := none, failLine := none }

/-! ## Helper notions used in the statements -/

/-- The line `outSimple` prints for a record: the JSON text when the `json` flag is set,
the formatted text otherwise. -/
def simpleLine (tbl : Nat → Bool) (args : Args) (r : SimpleResult) : GoString :=
  if args.json then (jsonMarshal (.simple r)).1
  else sprintf tbl (lit "%s: %s") [.str r.Path, .str r.Text]

/-- The line `outDetail` prints for a record. -/
def detailLine (tbl : Nat → Bool) (args : Args) (r : DetailResult) : GoString :=
  if args.json then (jsonMarshal (.detail r)).1
  else sprintf tbl (lit "%s (%3d,%3d): %q") [.str r.Path, .int r.Page, .int r.Line, .str r.Text]

/-- The calls made before the first `Execute` of a list of events. -/
def beforeFirstExecute (evs : List Event) : List Event :=
  evs.takeWhile (fun e => !e.isExecute)

/-- The document of the sample walk, as the callback receives it. -/
def sampleDoc : Visit := { path := lit "C:\\w\\a.docx", isDir := false, err := none }

/-- An example walk whose root directory cannot be read: the callback is invoked with the
error "access denied". -/
def deniedVisits : List Visit :=
  [ { path := lit "C:\\w", isDir := true, err := some (.external (lit "access denied")) } ]

/-! ## Basic facts -/

@[simp] theorem after_ret {σ : Type} (evs : List Event) (o : Outcome σ) :
    (o.after evs).ret = o.ret := rfl

@[simp] theorem after_eng {σ : Type} (evs : List Event) (o : Outcome σ) :
    (o.after evs).eng = o.eng := rfl

@[simp] theorem after_events {σ : Type} (evs : List Event) (o : Outcome σ) :
    (o.after evs).events = evs ++ o.events := rfl

theorem lit_empty : lit "" = [] := rfl

theorem startsWith_iff (s p : GoString) : startsWith s p = true ↔ p <+: s := by
  induction s generalizing p with
  | nil => cases p <;> simp [startsWith]
  | cons a s ih =>
    cases p with
    | nil => simp [startsWith]
    | cons b p =>
      simp only [startsWith, Bool.and_eq_true, beq_iff_eq, ih, List.cons_prefix_cons]
      constructor
      · rintro ⟨h1, h2⟩
        exact ⟨h1.symm, h2⟩
      · rintro ⟨h1, h2⟩
        exact ⟨h1.symm, h2⟩

/-- The function `strings.Contains` decides the substring relation. -/
theorem contains_iff (s sub : GoString) : contains s sub = true ↔ sub <:+: s := by
  induction s with
  | nil => simp [contains, startsWith_iff]
  | cons c s ih =>
    simp only [contains, Bool.or_eq_true, startsWith_iff, ih, List.infix_cons_iff]

/-- The function `strings.HasSuffix` decides the suffix relation. -/
theorem hasSuffix_iff (s suffix : GoString) : hasSuffix s suffix = true ↔ suffix <:+ s := by
  simp only [hasSuffix, Bool.and_eq_true, decide_eq_true_eq, beq_iff_eq]
  constructor
  · rintro ⟨_, h⟩
    exact List.suffix_iff_eq_drop.mpr h.symm
  · intro h
    exact ⟨h.length_le, (List.suffix_iff_eq_drop.mp h).symm⟩

/-- Searching for a one-byte string is membership of that byte. -/
theorem contains_singleton (s : GoString) (c : Nat) : contains s [c] = true ↔ c ∈ s := by
  rw [contains_iff]
  constructor
  · intro h
    exact h.subset (List.mem_singleton_self c)
  · intro h
    obtain ⟨a, b, hab⟩ := List.append_of_mem h
    exact ⟨a, b, by simp [hab]⟩

/-! ## C2: which entries the callback skips -/

/-- C2 (as amended): (1) for an entry that reaches the callback without an incoming error,
the callback skips it (returns nil, leaves the engine untouched, opens nothing and prints
nothing) when it is a directory, or the base name of its path contains "~$", or its path
does not end in ".docx"; every other such entry is handed to `docs.Open` as the first
thing the callback does. (2) An entry that arrives with an incoming error is not filtered,
whatever it is: the callback returns that error at once, leaving the engine untouched,
opening nothing and printing nothing. -/
theorem walkFn_filter {σ : Type} (W : World σ) (args : Args) (fuel : Nat)
    (rootDir : GoString) (v : Visit) (s : σ) :
    (v.err = none →
      ((v.isDir = true ∨ lit "~$" <:+: W.filepathBase v.path ∨ ¬ lit ".docx" <:+ v.path) →
        (walkFn W args fuel rootDir v s).ret = some none ∧
        (walkFn W args fuel rootDir v s).eng = s ∧
        (walkFn W args fuel rootDir v s).events = [.visit v.path v.isDir none]) ∧
      ((v.isDir = false ∧ ¬ lit "~$" <:+: W.filepathBase v.path ∧ lit ".docx" <:+ v.path) →
        ∃ rest, (walkFn W args fuel rootDir v s).events =
          .visit v.path v.isDir none ::
            .docOpen (W.filepathAbs v.path) (W.docsOpen (W.filepathAbs v.path) s).1.1
              (W.docsOpen (W.filepathAbs v.path) s).1.2 :: rest)) ∧
    (∀ e, v.err = some e →
      (walkFn W args fuel rootDir v s).ret = some (some e) ∧
      (walkFn W args fuel rootDir v s).eng = s ∧
      (walkFn W args fuel rootDir v s).events = [.visit v.path v.isDir (some e)]) := by
  refine ⟨?_, ?_⟩
  · intro h
    constructor
    · intro hskip
      by_cases hd : v.isDir = true
      · simp [walkFn, h, hd]
      · by_cases hb : contains (W.filepathBase v.path) (lit "~$") = true
        · simp [walkFn, h, hd, hb]
        · have hs : hasSuffix v.path (lit ".docx") = false := by
            rcases hskip with h1 | h1 | h1
            · exact absurd h1 hd
            · exact absurd ((contains_iff _ _).mpr h1) hb
            · cases hx : hasSuffix v.path (lit ".docx")
              · rfl
              · exact absurd ((hasSuffix_iff _ _).mp hx) h1
          simp [walkFn, h, hd, hb, hs]
    · rintro ⟨hd, hb, hs⟩
      have hb1 : contains (W.filepathBase v.path) (lit "~$") = false := by
        cases hx : contains (W.filepathBase v.path) (lit "~$")
        · rfl
        · exact absurd ((contains_iff _ _).mp hx) hb
      have hs1 : hasSuffix v.path (lit ".docx") = true := (hasSuffix_iff _ _).mpr hs
      simp only [walkFn, h, hd, hb1, hs1, abs]
      rcases hopen : W.docsOpen (W.filepathAbs v.path) s with ⟨⟨doc, err⟩, s1⟩
      cases err with
      | some e => exact ⟨[], by simp⟩
      | none =>
        simp only [Bool.false_eq_true, if_false, Bool.not_true]
        cases hr : (openBody W args fuel rootDir (W.filepathAbs v.path) doc s1).ret with
        | none => exact ⟨_, by simp [hr]; rfl⟩
        | some r => exact ⟨_, by simp [hr]; rfl⟩
  · intro e he
    simp [walkFn, he]

/-- Witness of `walkFn_filter`: the lock file of the sample walk is skipped, and a
directory that arrives with the error "access denied" is answered with that error. -/
theorem walkFn_filter_witness :
    (({ path := lit "C:\\w\\~$a.docx", isDir := false, err := none } : Visit).err = none) ∧
    (walkFn (scriptWorld (sampleScript 1)) defaultArgs 3 (lit "C:\\w")
      { path := lit "C:\\w\\~$a.docx", isDir := false, err := none } 0).events =
      [.visit (lit "C:\\w\\~$a.docx") false none] ∧
    (walkFn (scriptWorld (sampleScript 1)) defaultArgs 3 (lit "C:\\w")
      { path := lit "C:\\w\\sub", isDir := true,
        err := some (.external (lit "access denied")) } 0).ret =
      some (some (.external (lit "access denied"))) :=
  ⟨rfl,
    (((walkFn_filter (scriptWorld (sampleScript 1)) defaultArgs 3 (lit "C:\\w")
      { path := lit "C:\\w\\~$a.docx", isDir := false, err := none } 0).1 rfl).1
        (Or.inr (Or.inl (by decide)))).2.2,
    ((walkFn_filter (scriptWorld (sampleScript 1)) defaultArgs 3 (lit "C:\\w")
      { path := lit "C:\\w\\sub", isDir := true,
        err := some (.external (lit "access denied")) } 0).2 _ rfl).1⟩

/-- C2 (as stated) fails: a directory entry that arrives with an incoming error (the
second invocation `filepath.WalkDir` makes for a directory it could not read) is not
skipped with nil; the callback returns the incoming error. -/
theorem walkFn_directory_with_error :
    (({ path := lit "C:\\w\\sub", isDir := true,
        err := some (.external (lit "access denied")) } : Visit).isDir = true) ∧
    (walkFn (scriptWorld (sampleScript 1)) defaultArgs 3 (lit "C:\\w")
      { path := lit "C:\\w\\sub", isDir := true,
        err := some (.external (lit "access denied")) } 0).ret
      = some (some (.external (lit "access denied"))) ∧
    (walkFn (scriptWorld (sampleScript 1)) defaultArgs 3 (lit "C:\\w")
      { path := lit "C:\\w\\sub", isDir := true,
        err := some (.external (lit "access denied")) } 0).ret ≠ some none := by
  refine ⟨rfl, ?_, ?_⟩
  · decide
  · decide

/-! ## C3: the check of the search text in `main` -/

theorem run_events_head {σ : Type} (W : World σ) (args : Args) (fuel : Nat) (s : σ) :
    ∃ tail, (run W args fuel s).events = .initGord :: .newGord :: .silent false :: tail := by
  simp only [run]
  split <;> simp

/-- C3: `main` prints the flag defaults and exits with status 1 without calling `run` (no
engine call, no visit, no printed line: its only event is `printDefaults` and the engine
state is untouched) exactly when the search text is empty. With a non-empty search text
`main` calls `run` on the arguments in which an empty `dir` is replaced by ".": the
engine is initialised first, the events are those of `run` (followed by `log.Fatal` when
`run` returned an error), and the exit status follows the result of `run`. -/
theorem main_exit_iff {σ : Type} (W : World σ) (args : Args) (fuel : Nat) (s : σ) :
    ((main W args fuel s).events = [.printDefaults] ↔ args.text = lit "") ∧
    (args.text = lit "" →
      (main W args fuel s).exit = some 1 ∧ (main W args fuel s).eng = s) ∧
    (args.text ≠ lit "" →
      (main W args fuel s).events.head? = some .initGord ∧
      (main W args fuel s).eng =
        (run W { args with dir := if args.dir = lit "" then lit "." else args.dir } fuel s).eng ∧
      (main W args fuel s).events =
        (run W { args with dir := if args.dir = lit "" then lit "." else args.dir } fuel s).events
          ++ (match (run W { args with dir := if args.dir = lit "" then lit "." else args.dir }
                fuel s).ret with
              | some (some err) => [.logFatal err]
              | _ => []) ∧
      (main W args fuel s).exit =
        (match (run W { args with dir := if args.dir = lit "" then lit "." else args.dir }
            fuel s).ret with
         | some (some _) => some 1
         | some none => some 0
         | none => none)) := by
  have hargs : (if args.dir = lit "" then { args with dir := lit "." } else args) =
      { args with dir := if args.dir = lit "" then lit "." else args.dir } := by
    split <;> rfl
  have key : args.text ≠ lit "" →
      (main W args fuel s).events.head? = some .initGord ∧
      (main W args fuel s).eng =
        (run W { args with dir := if args.dir = lit "" then lit "." else args.dir } fuel s).eng ∧
      (main W args fuel s).events =
        (run W { args with dir := if args.dir = lit "" then lit "." else args.dir } fuel s).events
          ++ (match (run W { args with dir := if args.dir = lit "" then lit "." else args.dir }
                fuel s).ret with
              | some (some err) => [.logFatal err]
              | _ => []) ∧
      (main W args fuel s).exit =
        (match (run W { args with dir := if args.dir = lit "" then lit "." else args.dir }
            fuel s).ret with
         | some (some _) => some 1
         | some none => some 0
         | none => none) := by
    intro ht
    obtain ⟨tail, htail⟩ := run_events_head W
      { args with dir := if args.dir = lit "" then lit "." else args.dir } fuel s
    simp only [main, ht, if_false, hargs]
    rcases hr : (run W { args with dir := if args.dir = lit "" then lit "." else args.dir }
      fuel s).ret with _ | _ | e <;> simp [htail]
  refine ⟨⟨?_, ?_⟩, ?_, key⟩
  · intro hev
    by_contra ht
    have h1 := (key ht).1
    rw [hev] at h1
    simp at h1
  · intro ht
    simp [main, ht]
  · intro ht
    simp [main, ht]

/-- Witness of `main_exit_iff`: without a search text `main` only prints the defaults and
exits with status 1; with the search text "a" and an empty `dir` it runs on ".". -/
theorem main_exit_iff_witness :
    (main (scriptWorld (sampleScript 1)) defaultArgs 3 0).events = [.printDefaults] ∧
    (main (scriptWorld (sampleScript 1)) defaultArgs 3 0).exit = some 1 ∧
    (main (scriptWorld (sampleScript 1)) { defaultArgs with text := lit "a", dir := lit "" }
      3 0).events.head? = some .initGord ∧
    (main (scriptWorld (sampleScript 1)) { defaultArgs with text := lit "a", dir := lit "" }
      3 0).eng =
      (run (scriptWorld (sampleScript 1)) { defaultArgs with text := lit "a", dir := lit "." }
        3 0).eng :=
  ⟨(main_exit_iff (scriptWorld (sampleScript 1)) defaultArgs 3 0).1.mpr rfl,
    ((main_exit_iff (scriptWorld (sampleScript 1)) defaultArgs 3 0).2.1 rfl).1,
    ((main_exit_iff (scriptWorld (sampleScript 1))
      { defaultArgs with text := lit "a", dir := lit "" } 3 0).2.2 (by decide)).1,
    ((main_exit_iff (scriptWorld (sampleScript 1))
      { defaultArgs with text := lit "a", dir := lit "" } 3 0).2.2 (by decide)).2.1⟩

/-! ## The printing functions never fail -/

theorem toJson_eq (v : Record) : toJson v = ((jsonMarshal v).1, none) := by
  cases v <;> rfl

theorem outSimple_eq (tbl : Nat → Bool) (args : Args) (r : SimpleResult) :
    outSimple tbl args r = (none, [.println (.simple r) (simpleLine tbl args r)]) := by
  simp only [outSimple, simpleLine, toJson_eq]
  split <;> rfl

theorem outDetail_eq (tbl : Nat → Bool) (args : Args) (r : DetailResult) :
    outDetail tbl args r = (none, [.println (.detail r) (detailLine tbl args r)]) := by
  simp only [outDetail, detailLine, toJson_eq]
  split <;> rfl

/-! ## Shape of the events of one document -/

theorem detailLoop_steps {σ : Type} (W : World σ) (args : Args) (relPath : GoString)
    (rng fnd : Nat) (fuel : Nat) (found : Bool) (s : σ) :
    (detailLoop W args relPath rng fnd fuel found s).events.all Event.isSearchStep = true := by
  induction fuel generalizing found s with
  | zero => cases found <;> simp [detailLoop]
  | succ n ih =>
    cases found with
    | false => simp [detailLoop]
    | true =>
      simp only [detailLoop, outDetail_eq]
      rcases hx : W.execute fnd (newDetailResult W relPath rng s).2.1 with ⟨⟨b, e⟩, s2⟩
      cases e with
      | some err => simp [newDetailResult, Event.isSearchStep]
      | none =>
        have h := ih b s2
        simp only [after_events, List.all_append, h, Bool.and_true]
        simp [newDetailResult, Event.isSearchStep]

theorem report_steps {σ : Type} (W : World σ) (args : Args) (fuel : Nat) (relPath : GoString)
    (rng fnd : Nat) (found : Bool) (s : σ) :
    (report W args fuel relPath rng fnd found s).events.all Event.isSearchStep = true := by
  simp only [report, outSimple_eq]
  split
  · split <;> simp [Event.isSearchStep]
  · split
    · simp [Event.isSearchStep]
    · exact detailLoop_steps W args relPath rng fnd fuel found s

theorem search_events {σ : Type} (W : World σ) (args : Args) (fuel : Nat)
    (rootDir absPath : GoString) (rng fnd : Nat) (s : σ) :
    ∃ tail, (search W args fuel rootDir absPath rng fnd s).events =
        .execute fnd (W.execute fnd s).1.1 (W.execute fnd s).1.2 :: tail ∧
      tail.all Event.isSearchStep = true := by
  simp only [search]
  rcases hx : W.execute fnd s with ⟨⟨b, e⟩, s1⟩
  cases e with
  | some err => exact ⟨[], by simp⟩
  | none =>
    exact ⟨_, by simp, report_steps W args fuel (W.filepathRel rootDir absPath) rng fnd b s1⟩

theorem search_steps {σ : Type} (W : World σ) (args : Args) (fuel : Nat)
    (rootDir absPath : GoString) (rng fnd : Nat) (s : σ) :
    (search W args fuel rootDir absPath rng fnd s).events.all Event.isSearchStep = true := by
  obtain ⟨tail, h1, h2⟩ := search_events W args fuel rootDir absPath rng fnd s
  rw [h1]
  simp only [List.all_cons, h2, Event.isSearchStep, Bool.and_true]

/-! ## C1: the wildcard switch -/

theorem lit_star : lit "*" = [42] := by decide

theorem star_iff (text : GoString) : contains text (lit "*") = true ↔ 42 ∈ text := by
  rw [lit_star, contains_singleton]

theorem search_before_execute {σ : Type} (W : World σ) (args : Args) (fuel : Nat)
    (rootDir absPath : GoString) (rng fnd : Nat) (s : σ) :
    (search W args fuel rootDir absPath rng fnd s).events.any Event.isExecute = true ∧
    beforeFirstExecute (search W args fuel rootDir absPath rng fnd s).events = [] := by
  obtain ⟨tail, h1, _⟩ := search_events W args fuel rootDir absPath rng fnd s
  rw [h1]
  simp [beforeFirstExecute, Event.isExecute]

theorem beforeFirstExecute_cons (e : Event) (evs : List Event) (h : e.isExecute = false) :
    beforeFirstExecute (e :: evs) = e :: beforeFirstExecute evs := by
  simp [beforeFirstExecute, List.takeWhile_cons, h]

theorem any_isExecute_cons (e : Event) (evs : List Event) (h : e.isExecute = false) :
    (e :: evs).any Event.isExecute = evs.any Event.isExecute := by
  simp [h]

/-- Prefixing a call that is neither `Execute` nor `MatchWildcards(true)` changes neither
whether `Execute` is called nor whether the switch is set before it. -/
theorem wildcards_cons (e : Event) (evs : List Event) (b : Bool)
    (h1 : e.isExecute = false) (h2 : e.isWildcardsOn = false)
    (h : evs.any Event.isExecute = true → (beforeFirstExecute evs).any Event.isWildcardsOn = b) :
    (e :: evs).any Event.isExecute = true →
      (beforeFirstExecute (e :: evs)).any Event.isWildcardsOn = b := by
  intro hx
  rw [any_isExecute_cons _ _ h1] at hx
  rw [beforeFirstExecute_cons _ _ h1, List.any_cons, h2, Bool.false_or]
  exact h hx

theorem wildcards_on_cons (e : Event) (evs : List Event)
    (h1 : e.isExecute = false) (h2 : e.isWildcardsOn = true) :
    (e :: evs).any Event.isExecute = true →
      (beforeFirstExecute (e :: evs)).any Event.isWildcardsOn = true := by
  intro _
  rw [beforeFirstExecute_cons _ _ h1, List.any_cons, h2, Bool.true_or]

theorem wildcards_single (e : Event) (b : Bool) (h1 : e.isExecute = false) :
    [e].any Event.isExecute = true → (beforeFirstExecute [e]).any Event.isWildcardsOn = b := by
  intro hx
  rw [any_isExecute_cons _ _ h1] at hx
  simp at hx

theorem setPattern_wildcards {σ : Type} (W : World σ) (args : Args) (fuel : Nat)
    (rootDir absPath : GoString) (rng fnd : Nat) (s : σ) :
    (setPattern W args fuel rootDir absPath rng fnd s).events.any Event.isExecute = true →
    (beforeFirstExecute (setPattern W args fuel rootDir absPath rng fnd s).events).any
      Event.isWildcardsOn = contains args.text (lit "*") := by
  have hsearch : ∀ s1,
      (search W args fuel rootDir absPath rng fnd s1).events.any Event.isExecute = true →
      (beforeFirstExecute (search W args fuel rootDir absPath rng fnd s1).events).any
        Event.isWildcardsOn = false := by
    intro s1 _
    rw [(search_before_execute W args fuel rootDir absPath rng fnd s1).2]
    rfl
  cases hstar : contains args.text (lit "*")
  · simp only [setPattern, hstar, check, Bool.false_eq_true, if_false]
    split
    · exact wildcards_single _ _ rfl
    · rw [after_events, List.singleton_append]
      exact wildcards_cons _ _ _ rfl rfl (hsearch _)
  · simp only [setPattern, hstar, check, if_true]
    split
    · exact wildcards_single _ _ rfl
    · rw [after_events, List.singleton_append]
      exact wildcards_on_cons _ _ rfl rfl

theorem configure_wildcards {σ : Type} (W : World σ) (args : Args) (fuel : Nat)
    (rootDir absPath : GoString) (rng fnd : Nat) (s : σ) :
    (configure W args fuel rootDir absPath rng fnd s).events.any Event.isExecute = true →
    (beforeFirstExecute (configure W args fuel rootDir absPath rng fnd s).events).any
      Event.isWildcardsOn = contains args.text (lit "*") := by
  simp only [configure, check]
  split
  · exact wildcards_single _ _ rfl
  · rw [after_events, List.singleton_append]
    refine wildcards_cons _ _ _ rfl rfl ?_
    split
    · exact wildcards_single _ _ rfl
    · rw [after_events, List.singleton_append]
      refine wildcards_cons _ _ _ rfl rfl ?_
      split
      · exact wildcards_single _ _ rfl
      · rw [after_events, List.singleton_append]
        refine wildcards_cons _ _ _ rfl rfl ?_
        split
        · exact wildcards_single _ _ rfl
        · rw [after_events, List.singleton_append]
          exact wildcards_cons _ _ _ rfl rfl (setPattern_wildcards W args fuel rootDir absPath
            rng fnd _)

theorem prepare_wildcards {σ : Type} (W : World σ) (args : Args) (fuel : Nat)
    (rootDir absPath : GoString) (doc : Nat) (s : σ) :
    (prepare W args fuel rootDir absPath doc s).events.any Event.isExecute = true →
    (beforeFirstExecute (prepare W args fuel rootDir absPath doc s).events).any
      Event.isWildcardsOn = contains args.text (lit "*") := by
  simp only [prepare]
  split
  · exact wildcards_single _ _ rfl
  · rw [after_events, List.singleton_append]
    refine wildcards_cons _ _ _ rfl rfl ?_
    split
    · exact wildcards_single _ _ rfl
    · rw [after_events, List.singleton_append]
      exact wildcards_cons _ _ _ rfl rfl (configure_wildcards W args fuel rootDir absPath _ _ _)

theorem openBody_wildcards {σ : Type} (W : World σ) (args : Args) (fuel : Nat)
    (rootDir absPath : GoString) (doc : Nat) (s : σ) :
    (openBody W args fuel rootDir absPath doc s).events.any Event.isExecute = true →
    (beforeFirstExecute (openBody W args fuel rootDir absPath doc s).events).any
      Event.isWildcardsOn = contains args.text (lit "*") := by
  simp only [openBody, after_events]
  split
  · rw [List.singleton_append]
    exact wildcards_cons _ _ _ rfl rfl (prepare_wildcards W args fuel rootDir absPath doc s)
  · rw [List.nil_append]
    exact prepare_wildcards W args fuel rootDir absPath doc s

theorem isBodyStep_of_isSearchStep (star : Bool) (e : Event) (h : e.isSearchStep = true) :
    e.isBodyStep star = true := by
  cases e <;> simp_all [Event.isSearchStep, Event.isBodyStep]

theorem all_isBodyStep_of_all_isSearchStep (star : Bool) (evs : List Event)
    (h : evs.all Event.isSearchStep = true) : evs.all (Event.isBodyStep star) = true := by
  rw [List.all_eq_true] at h ⊢
  intro e he
  exact isBodyStep_of_isSearchStep star e (h e he)

theorem setPattern_steps {σ : Type} (W : World σ) (args : Args) (fuel : Nat)
    (rootDir absPath : GoString) (rng fnd : Nat) (s : σ) :
    (setPattern W args fuel rootDir absPath rng fnd s).events.all
      (Event.isBodyStep (contains args.text (lit "*"))) = true := by
  have hsearch := fun s1 => all_isBodyStep_of_all_isSearchStep (contains args.text (lit "*")) _
    (search_steps W args fuel rootDir absPath rng fnd s1)
  cases hstar : contains args.text (lit "*")
  · rw [hstar] at hsearch
    simp only [setPattern, hstar, check, Bool.false_eq_true, if_false]
    split
    · rfl
    · rw [after_events, List.all_append, hsearch]
      rfl
  · rw [hstar] at hsearch
    simp only [setPattern, hstar, check, if_true]
    split
    · rfl
    · rw [after_events, List.all_append]
      split
      · rfl
      · rw [after_events, List.all_append, hsearch]
        rfl

theorem configure_steps {σ : Type} (W : World σ) (args : Args) (fuel : Nat)
    (rootDir absPath : GoString) (rng fnd : Nat) (s : σ) :
    (configure W args fuel rootDir absPath rng fnd s).events.all
      (Event.isBodyStep (contains args.text (lit "*"))) = true := by
  simp only [configure, check]
  split
  · rfl
  · rw [after_events, List.all_append]
    split
    · rfl
    · rw [after_events, List.all_append]
      split
      · rfl
      · rw [after_events, List.all_append]
        split
        · rfl
        · rw [after_events, List.all_append, setPattern_steps]
          rfl

theorem prepare_steps {σ : Type} (W : World σ) (args : Args) (fuel : Nat)
    (rootDir absPath : GoString) (doc : Nat) (s : σ) :
    (prepare W args fuel rootDir absPath doc s).events.all
      (Event.isBodyStep (contains args.text (lit "*"))) = true := by
  simp only [prepare]
  split
  · rfl
  · rw [after_events, List.all_append]
    split
    · rfl
    · rw [after_events, List.all_append, configure_steps]
      rfl

theorem openBody_steps {σ : Type} (W : World σ) (args : Args) (fuel : Nat)
    (rootDir absPath : GoString) (doc : Nat) (s : σ) :
    (openBody W args fuel rootDir absPath doc s).events.all
      (Event.isBodyStep (contains args.text (lit "*"))) = true := by
  simp only [openBody, after_events, List.all_append, prepare_steps, Bool.and_true]
  split <;> rfl

/-- The three ways an invocation of the callback can go: the entry is not opened (it is
skipped, or it came with an error); `docs.Open` fails; the document is opened, the body
runs, and the deferred release follows once the body has returned. -/
theorem walkFn_shape {σ : Type} (W : World σ) (args : Args) (fuel : Nat)
    (rootDir : GoString) (v : Visit) (s : σ) :
    ((walkFn W args fuel rootDir v s).events = [.visit v.path v.isDir v.err] ∧
      (walkFn W args fuel rootDir v s).eng = s ∧
      (walkFn W args fuel rootDir v s).ret = some v.err) ∨
    (∃ doc e s1, v.err = none ∧
      W.docsOpen (W.filepathAbs v.path) s = ((doc, some e), s1) ∧
      (walkFn W args fuel rootDir v s).events =
        [.visit v.path v.isDir none, .docOpen (W.filepathAbs v.path) doc (some e)] ∧
      (walkFn W args fuel rootDir v s).eng = s1 ∧
      (walkFn W args fuel rootDir v s).ret = some (some e)) ∨
    (∃ doc s1, v.err = none ∧
      W.docsOpen (W.filepathAbs v.path) s = ((doc, none), s1) ∧
      (((openBody W args fuel rootDir (W.filepathAbs v.path) doc s1).ret = none ∧
        (walkFn W args fuel rootDir v s).ret = none ∧
        (walkFn W args fuel rootDir v s).eng =
          (openBody W args fuel rootDir (W.filepathAbs v.path) doc s1).eng ∧
        (walkFn W args fuel rootDir v s).events =
          .visit v.path v.isDir none :: .docOpen (W.filepathAbs v.path) doc none ::
            (openBody W args fuel rootDir (W.filepathAbs v.path) doc s1).events) ∨
       (∃ r, (openBody W args fuel rootDir (W.filepathAbs v.path) doc s1).ret = some r ∧
        (walkFn W args fuel rootDir v s).ret = some r ∧
        (walkFn W args fuel rootDir v s).eng =
          W.docRelease doc (openBody W args fuel rootDir (W.filepathAbs v.path) doc s1).eng ∧
        (walkFn W args fuel rootDir v s).events =
          .visit v.path v.isDir none :: .docOpen (W.filepathAbs v.path) doc none ::
            ((openBody W args fuel rootDir (W.filepathAbs v.path) doc s1).events
              ++ [.docRelease doc])))) := by
  rcases v with ⟨path, isDir, err⟩
  cases err with
  | some e => exact Or.inl (by simp [walkFn])
  | none =>
    by_cases hd : isDir = true
    · exact Or.inl (by simp [walkFn, hd])
    · by_cases hb : contains (W.filepathBase path) (lit "~$") = true
      · exact Or.inl (by simp [walkFn, hd, hb])
      · by_cases hs : hasSuffix path (lit ".docx") = true
        · rcases hopen : W.docsOpen (W.filepathAbs path) s with ⟨⟨doc, e⟩, s1⟩
          cases e with
          | some e =>
            refine Or.inr (Or.inl ⟨doc, e, s1, rfl, rfl, ?_, ?_, ?_⟩) <;>
              simp [walkFn, hd, hb, hs, abs, hopen]
          | none =>
            refine Or.inr (Or.inr ⟨doc, s1, rfl, rfl, ?_⟩)
            cases hr : (openBody W args fuel rootDir (W.filepathAbs path) doc s1).ret with
            | none =>
              refine Or.inl ⟨rfl, ?_, ?_, ?_⟩ <;> simp [walkFn, hd, hb, hs, abs, hopen, hr]
            | some r =>
              refine Or.inr ⟨r, rfl, ?_, ?_, ?_⟩ <;> simp [walkFn, hd, hb, hs, abs, hopen, hr]
        · exact Or.inl (by simp [walkFn, hd, hb, hs])

theorem isRunStep_of_isBodyStep (star : Bool) (e : Event) (h : e.isBodyStep star = true) :
    e.isRunStep star = true := by
  cases e <;> simp_all [Event.isRunStep, Event.isBodyStep]

theorem all_isRunStep_of_all_isBodyStep (star : Bool) (evs : List Event)
    (h : evs.all (Event.isBodyStep star) = true) : evs.all (Event.isRunStep star) = true := by
  rw [List.all_eq_true] at h ⊢
  intro e he
  exact isRunStep_of_isBodyStep star e (h e he)

theorem walkFn_steps {σ : Type} (W : World σ) (args : Args) (fuel : Nat)
    (rootDir : GoString) (v : Visit) (s : σ) :
    (walkFn W args fuel rootDir v s).events.all
      (Event.isRunStep (contains args.text (lit "*"))) = true := by
  have hbody := fun doc s1 => all_isRunStep_of_all_isBodyStep _ _
    (openBody_steps W args fuel rootDir (W.filepathAbs v.path) doc s1)
  rcases walkFn_shape W args fuel rootDir v s with h | ⟨doc, e, s1, _, _, h, _⟩ |
    ⟨doc, s1, _, _, h | ⟨r, h⟩⟩
  · rw [h.1]; rfl
  · rw [h]; rfl
  · rw [h.2.2.2, List.all_cons, List.all_cons, hbody]; rfl
  · rw [h.2.2.2, List.all_cons, List.all_cons, List.all_append, hbody]; rfl

theorem walkDir_all {σ : Type} (fn : Visit → σ → Outcome σ) (p : Event → Bool)
    (h : ∀ v s, (fn v s).events.all p = true) (vs : List Visit) (s : σ) :
    (walkDir fn vs s).events.all p = true := by
  induction vs generalizing s with
  | nil => rfl
  | cons v vs ih =>
    simp only [walkDir]
    split
    · rw [after_events, List.all_append, h, ih]; rfl
    · exact h v s

theorem run_steps {σ : Type} (W : World σ) (args : Args) (fuel : Nat) (s : σ) :
    (run W args fuel s).events.all (Event.isRunStep (contains args.text (lit "*"))) = true := by
  have hw := fun vs s1 => walkDir_all (walkFn W args fuel (abs W args.dir))
    (Event.isRunStep (contains args.text (lit "*")))
    (walkFn_steps W args fuel (abs W args.dir)) vs s1
  have hbody : (match W.documents (W.silent false (W.newGord (W.initGord s))) with
      | (some err, s4) =>
        ({ ret := some (some (genErr (lit "word.Documents()") err)), eng := s4,
           events := [.documents (some err)] } : Outcome σ)
      | (none, s4) =>
        (walkDir (walkFn W args fuel (abs W args.dir)) (W.walk (abs W args.dir)) s4).after
          [.documents none]).events.all (Event.isRunStep (contains args.text (lit "*")))
        = true := by
    split
    · rfl
    · rw [after_events, List.all_append, hw]; rfl
  simp only [run]
  split
  · rw [after_events, List.all_append, hbody]; rfl
  · simp only [List.all_append, hbody]; rfl

theorem beforeFirstExecute_append (l m : List Event) (h : l.any Event.isExecute = true) :
    beforeFirstExecute (l ++ m) = beforeFirstExecute l := by
  induction l with
  | nil => simp at h
  | cons e l ih =>
    cases he : e.isExecute with
    | true => simp [beforeFirstExecute, List.takeWhile_cons, he]
    | false =>
      rw [any_isExecute_cons _ _ he] at h
      rw [List.cons_append, beforeFirstExecute_cons _ _ he, beforeFirstExecute_cons _ _ he, ih h]

theorem walkFn_wildcards {σ : Type} (W : World σ) (args : Args) (fuel : Nat)
    (rootDir : GoString) (v : Visit) (s : σ) :
    (walkFn W args fuel rootDir v s).events.any Event.isExecute = true →
    (beforeFirstExecute (walkFn W args fuel rootDir v s).events).any
      Event.isWildcardsOn = contains args.text (lit "*") := by
  rcases walkFn_shape W args fuel rootDir v s with h | ⟨doc, e, s1, _, _, h, _⟩ |
    ⟨doc, s1, _, _, h | ⟨r, h⟩⟩
  · rw [h.1]
    exact wildcards_single _ _ rfl
  · rw [h]
    exact wildcards_cons _ _ _ rfl rfl (wildcards_single _ _ rfl)
  · rw [h.2.2.2]
    exact wildcards_cons _ _ _ rfl rfl (wildcards_cons _ _ _ rfl rfl
      (openBody_wildcards W args fuel rootDir _ doc s1))
  · rw [h.2.2.2]
    refine wildcards_cons _ _ _ rfl rfl (wildcards_cons _ _ _ rfl rfl ?_)
    intro hx
    have hany : (openBody W args fuel rootDir (W.filepathAbs v.path) doc s1).events.any
        Event.isExecute = true := by
      rw [List.any_append] at hx
      simpa [Event.isExecute] using hx
    rw [beforeFirstExecute_append _ _ hany]
    exact openBody_wildcards W args fuel rootDir (W.filepathAbs v.path) doc s1 hany

/-- C1: (1) when the search text holds no `*`, `MatchWildcards` is never called during
`run`, whatever else the text contains; (2) `MatchWildcards` is only ever called with the
argument `true`; (3) for every invocation of the callback in which `find.Execute` is
called, `MatchWildcards(true)` is among the calls made before the first `Execute` if and
only if the search text contains the byte `*` (42). -/
theorem wildcards_iff_star {σ : Type} (W : World σ) (args : Args) (fuel : Nat) (s : σ) :
    (42 ∉ args.text →
      (run W args fuel s).events.all (fun e => !e.isMatchWildcards) = true) ∧
    ((run W args fuel s).events.all (fun e => !e.isMatchWildcards || e.isWildcardsOn) = true) ∧
    (∀ (rootDir : GoString) (v : Visit) (s1 : σ),
      (walkFn W args fuel rootDir v s1).events.any Event.isExecute = true →
      ((beforeFirstExecute (walkFn W args fuel rootDir v s1).events).any
          Event.isWildcardsOn = true ↔ 42 ∈ args.text)) := by
  have hsteps := run_steps W args fuel s
  rw [List.all_eq_true] at hsteps
  refine ⟨?_, ?_, ?_⟩
  · intro hstar
    have hc : contains args.text (lit "*") = false := by
      cases hx : contains args.text (lit "*")
      · rfl
      · exact absurd ((star_iff _).mp hx) hstar
    rw [List.all_eq_true]
    intro e he
    have h1 := hsteps e he
    rw [hc] at h1
    clear hsteps he hc hstar
    cases e <;> first
      | rfl
      | (simp [Event.isRunStep, Event.isBodyStep] at h1)
  · rw [List.all_eq_true]
    intro e he
    have h1 := hsteps e he
    clear hsteps he
    cases e with
    | matchWildcards fnd v err =>
      cases v with
      | true => rfl
      | false => simp [Event.isRunStep, Event.isBodyStep] at h1
    | _ => rfl
  · intro rootDir v s1 hx
    rw [walkFn_wildcards W args fuel rootDir v s1 hx]
    exact star_iff _

/-- Witness of `wildcards_iff_star`: in the sample walk with the search text "a*" the
document is searched, and `MatchWildcards(true)` precedes the first `Execute`. -/
theorem wildcards_iff_star_witness :
    (walkFn (scriptWorld (sampleScript 1)) { defaultArgs with text := lit "a*" } 3
        (lit "C:\\w") { path := lit "C:\\w\\a.docx", isDir := false, err := none }
        0).events.any Event.isExecute = true ∧
    ((beforeFirstExecute (walkFn (scriptWorld (sampleScript 1))
        { defaultArgs with text := lit "a*" } 3
        (lit "C:\\w") { path := lit "C:\\w\\a.docx", isDir := false, err := none }
        0).events).any Event.isWildcardsOn = true ↔
      42 ∈ ({ defaultArgs with text := lit "a*" } : Args).text) :=
  ⟨by decide, (wildcards_iff_star (scriptWorld (sampleScript 1))
    { defaultArgs with text := lit "a*" } 3 0).2.2 (lit "C:\\w")
    { path := lit "C:\\w\\a.docx", isDir := false, err := none } 0 (by decide)⟩

/-! ## C7: every opened document is released -/

theorem docMarks_append (l m : List Event) : docMarks (l ++ m) = docMarks l ++ docMarks m := by
  simp [docMarks, List.filterMap_append]

theorem docMarks_of_bodySteps (star : Bool) (evs : List Event)
    (h : evs.all (Event.isBodyStep star) = true) : docMarks evs = [] := by
  induction evs with
  | nil => rfl
  | cons e evs ih =>
    rw [List.all_cons, Bool.and_eq_true] at h
    have h1 : e.docMark = none := by
      have h2 := h.1
      cases e <;> first
        | rfl
        | (simp [Event.isBodyStep] at h2)
    simp only [docMarks, List.filterMap_cons, h1]
    exact ih h.2

/-- The life cycle of one invocation of the callback. -/
theorem walkFn_docMarks {σ : Type} (W : World σ) (args : Args) (fuel : Nat)
    (rootDir : GoString) (v : Visit) (s : σ) :
    (docMarks (walkFn W args fuel rootDir v s).events = [] ∧
      (walkFn W args fuel rootDir v s).ret ≠ none) ∨
    (∃ d, docMarks (walkFn W args fuel rootDir v s).events = [.opened d, .released d] ∧
      (walkFn W args fuel rootDir v s).ret ≠ none) ∨
    (∃ d, docMarks (walkFn W args fuel rootDir v s).events = [.opened d] ∧
      (walkFn W args fuel rootDir v s).ret = none) := by
  have hbody := fun doc s1 => docMarks_of_bodySteps _ _
    (openBody_steps W args fuel rootDir (W.filepathAbs v.path) doc s1)
  rcases walkFn_shape W args fuel rootDir v s with h | ⟨doc, e, s1, _, _, h, _, hr⟩ |
    ⟨doc, s1, _, _, h | ⟨r, h⟩⟩
  · refine Or.inl ⟨?_, ?_⟩
    · rw [h.1]; rfl
    · rw [h.2.2]; simp
  · refine Or.inl ⟨?_, ?_⟩
    · rw [h]; rfl
    · rw [hr]; simp
  · refine Or.inr (Or.inr ⟨doc, ?_, h.2.1⟩)
    rw [h.2.2.2]
    simp only [docMarks, List.filterMap_cons, Event.docMark]
    exact congrArg _ (hbody doc s1)
  · refine Or.inr (Or.inl ⟨doc, ?_, ?_⟩)
    · rw [h.2.2.2]
      simp only [docMarks, List.filterMap_cons, Event.docMark, List.filterMap_append]
      have := hbody doc s1
      simp only [docMarks] at this
      rw [this]
      rfl
    · rw [h.2.1]; simp

theorem paired_cons (d : Nat) (docs : List Nat) :
    paired (d :: docs) = .opened d :: .released d :: paired docs := by
  simp [paired]

theorem walkDir_docMarks {σ : Type} (W : World σ) (args : Args) (fuel : Nat)
    (rootDir : GoString) (vs : List Visit) (s : σ) :
    ∃ docs, (docMarks (walkDir (walkFn W args fuel rootDir) vs s).events = paired docs ∧
        (walkDir (walkFn W args fuel rootDir) vs s).ret ≠ none) ∨
      ((walkDir (walkFn W args fuel rootDir) vs s).ret = none ∧
        ∃ d, docMarks (walkDir (walkFn W args fuel rootDir) vs s).events
          = paired docs ++ [.opened d]) := by
  induction vs generalizing s with
  | nil => exact ⟨[], Or.inl ⟨rfl, by simp [walkDir]⟩⟩
  | cons v vs ih =>
    simp only [walkDir]
    split
    · rename_i hret
      obtain ⟨docs, hdocs⟩ := ih (walkFn W args fuel rootDir v s).eng
      rcases walkFn_docMarks W args fuel rootDir v s with ⟨h, _⟩ | ⟨d, h, _⟩ | ⟨d, _, h⟩
      · refine ⟨docs, ?_⟩
        simpa only [after_events, after_ret, docMarks_append, h, List.nil_append] using hdocs
      · refine ⟨d :: docs, ?_⟩
        simpa only [after_events, after_ret, docMarks_append, h, paired_cons,
          List.cons_append, List.nil_append] using
          hdocs.imp (fun h1 => ⟨by rw [h1.1], h1.2⟩)
            (fun h1 => ⟨h1.1, h1.2.imp (fun d1 h2 => by rw [h2])⟩)
      · rw [hret] at h
        simp at h
    · rcases walkFn_docMarks W args fuel rootDir v s with ⟨h, hr⟩ | ⟨d, h, hr⟩ | ⟨d, h, hr⟩
      · exact ⟨[], Or.inl ⟨h, hr⟩⟩
      · exact ⟨[d], Or.inl ⟨by rw [h]; rfl, hr⟩⟩
      · exact ⟨[], Or.inr ⟨hr, d, by rw [h]; rfl⟩⟩

/-- The ways `run` can go: `word.Documents()` fails; or the walk takes place, and the
deferred calls follow once it has returned. -/
theorem run_shape {σ : Type} (W : World σ) (args : Args) (fuel : Nat) (s : σ) :
    (∃ e s4, W.documents (W.silent false (W.newGord (W.initGord s))) = (some e, s4) ∧
      (run W args fuel s).ret = some (some (genErr (lit "word.Documents()") e)) ∧
      (run W args fuel s).eng = W.quit (W.wordRelease s4) ∧
      (run W args fuel s).events =
        [.initGord, .newGord, .silent false, .documents (some e), .wordRelease, .quit]) ∨
    (∃ s4, W.documents (W.silent false (W.newGord (W.initGord s))) = (none, s4) ∧
      (((walkDir (walkFn W args fuel (abs W args.dir)) (W.walk (abs W args.dir)) s4).ret = none ∧
        (run W args fuel s).ret = none ∧
        (run W args fuel s).eng =
          (walkDir (walkFn W args fuel (abs W args.dir)) (W.walk (abs W args.dir)) s4).eng ∧
        (run W args fuel s).events =
          [.initGord, .newGord, .silent false, .documents none] ++
            (walkDir (walkFn W args fuel (abs W args.dir)) (W.walk (abs W args.dir)) s4).events) ∨
       (∃ r,
        (walkDir (walkFn W args fuel (abs W args.dir)) (W.walk (abs W args.dir)) s4).ret
          = some r ∧
        (run W args fuel s).ret = some r ∧
        (run W args fuel s).eng = W.quit (W.wordRelease
          (walkDir (walkFn W args fuel (abs W args.dir)) (W.walk (abs W args.dir)) s4).eng) ∧
        (run W args fuel s).events =
          [.initGord, .newGord, .silent false, .documents none] ++
            (walkDir (walkFn W args fuel (abs W args.dir)) (W.walk (abs W args.dir)) s4).events
            ++ [.wordRelease, .quit]))) := by
  rcases hdoc : W.documents (W.silent false (W.newGord (W.initGord s))) with ⟨e, s4⟩
  cases e with
  | some e =>
    refine Or.inl ⟨e, s4, rfl, ?_, ?_, ?_⟩ <;> simp [run, hdoc]
  | none =>
    refine Or.inr ⟨s4, rfl, ?_⟩
    cases hr : (walkDir (walkFn W args fuel (abs W args.dir)) (W.walk (abs W args.dir)) s4).ret with
    | none =>
      refine Or.inl ⟨rfl, ?_, ?_, ?_⟩ <;> simp [run, hdoc, hr]
    | some r =>
      refine Or.inr ⟨r, rfl, ?_, ?_, ?_⟩ <;> simp [run, hdoc, hr]

/-- C7: in the events of `run`, the successful `docs.Open` calls and the release calls
form the sequence open d1, release d1, open d2, release d2, ...: every opened document is
released exactly once, before the next one is opened, and nothing is released that was
not opened. The only other possibility is that `run` has not returned (the fuel ran out
inside the verbose loop of the last opened document), and then exactly that last document
is still open. For a single invocation of the callback that returned, on whatever path,
the sequence is empty or is one open followed by its release. -/
theorem documents_released {σ : Type} (W : World σ) (args : Args) (fuel : Nat) (s : σ) :
    (∃ docs, (docMarks (run W args fuel s).events = paired docs ∧
        (run W args fuel s).ret ≠ none) ∨
      ((run W args fuel s).ret = none ∧
        ∃ d, docMarks (run W args fuel s).events = paired docs ++ [.opened d])) ∧
    (∀ (rootDir : GoString) (v : Visit) (s1 : σ),
      (walkFn W args fuel rootDir v s1).ret ≠ none →
        docMarks (walkFn W args fuel rootDir v s1).events = [] ∨
        ∃ d, docMarks (walkFn W args fuel rootDir v s1).events = [.opened d, .released d]) := by
  constructor
  · rcases run_shape W args fuel s with ⟨e, s4, _, hr, _, hev⟩ |
      ⟨s4, _, ⟨hw, hr, _, hev⟩ | ⟨r, hw, hr, _, hev⟩⟩
    · refine ⟨[], Or.inl ⟨?_, ?_⟩⟩
      · rw [hev]; rfl
      · rw [hr]; simp
    · obtain ⟨docs, h | h⟩ := walkDir_docMarks W args fuel (abs W args.dir)
        (W.walk (abs W args.dir)) s4
      · exact absurd hw h.2
      · refine ⟨docs, Or.inr ⟨hr, ?_⟩⟩
        obtain ⟨d, hd⟩ := h.2
        refine ⟨d, ?_⟩
        rw [hev, docMarks_append, hd]
        rfl
    · obtain ⟨docs, h | h⟩ := walkDir_docMarks W args fuel (abs W args.dir)
        (W.walk (abs W args.dir)) s4
      · refine ⟨docs, Or.inl ⟨?_, ?_⟩⟩
        · rw [hev, docMarks_append, docMarks_append, h.1]
          simp [docMarks, Event.docMark]
        · rw [hr]; simp
      · rw [hw] at h
        simp at h
  · intro rootDir v s1 hret
    rcases walkFn_docMarks W args fuel rootDir v s1 with ⟨h, _⟩ | ⟨d, h, _⟩ | ⟨d, _, h⟩
    · exact Or.inl h
    · exact Or.inr ⟨d, h⟩
    · exact absurd h hret

/-- Witness of `documents_released`: the callback on the document of the sample walk
returns, having opened and released the document. -/
theorem documents_released_witness :
    (walkFn (scriptWorld (sampleScript 2)) { defaultArgs with text := lit "a", verbose := true }
        5 (lit "C:\\w") { path := lit "C:\\w\\a.docx", isDir := false, err := none } 0).ret
      ≠ none ∧
    (docMarks (walkFn (scriptWorld (sampleScript 2))
        { defaultArgs with text := lit "a", verbose := true }
        5 (lit "C:\\w") { path := lit "C:\\w\\a.docx", isDir := false, err := none } 0).events
      = [] ∨
     ∃ d, docMarks (walkFn (scriptWorld (sampleScript 2))
        { defaultArgs with text := lit "a", verbose := true }
        5 (lit "C:\\w") { path := lit "C:\\w\\a.docx", isDir := false, err := none } 0).events
      = [.opened d, .released d]) :=
  ⟨by decide, (documents_released (scriptWorld (sampleScript 2))
    { defaultArgs with text := lit "a", verbose := true } 5 0).2 (lit "C:\\w")
    { path := lit "C:\\w\\a.docx", isDir := false, err := none } 0 (by decide)⟩

/-! ## C6: which failures are propagated, and how -/

/-- The message, the wrapped error and the `errors.Is` relation of `genErr`. -/
theorem genErr_spec (procName : GoString) (err : GoError) :
    (genErr procName err).Error = procName ++ lit " failed: " ++ err.Error ∧
    (genErr procName err).Unwrap = some err ∧
    (genErr procName err).Is err = true := by
  refine ⟨?_, rfl, ?_⟩
  · simp [genErr, sprintf, sprintfAux, lit, utf8Bytes, GoError.Error, fmtVerb, padLeft]
  · cases err <;> simp [genErr, GoError.Is]

theorem accounted_of_isQuiet (ret : Option (Option GoError)) (ev : Event)
    (h : ev.isQuiet = true) : ev.accounted ret := by
  simp only [Event.isQuiet, Bool.and_eq_true, Option.isNone_iff_eq_none] at h
  constructor
  · intro names e0 h1
    rw [h.1] at h1
    cases h1
  · intro e0 h1
    rw [h.2] at h1
    cases h1

theorem accounted_wrapped (ev : Event) (name : GoString) (e0 : GoError)
    (h1 : ev.wrappedFailure = some ([name], e0)) (h2 : ev.passedFailure = none)
    (ret : Option (Option GoError)) (hret : ret = some (some (genErr name e0))) :
    ev.accounted ret := by
  constructor
  · intro names e1 h
    rw [h1] at h
    cases h
    exact ⟨name, List.mem_singleton_self _, hret⟩
  · intro e1 h
    rw [h2] at h
    cases h

theorem all_accounted_after {σ : Type} (evs : List Event) (o : Outcome σ)
    (h1 : evs.all Event.isQuiet = true) (h2 : ∀ ev ∈ o.events, ev.accounted o.ret) :
    ∀ ev ∈ (o.after evs).events, ev.accounted (o.after evs).ret := by
  intro ev hev
  rw [after_events, List.mem_append] at hev
  rcases hev with h | h
  · exact accounted_of_isQuiet _ _ (List.all_eq_true.mp h1 ev h)
  · exact h2 ev h

theorem check_accounted {σ : Type} (procName : GoString) (ev : Option GoError → Event)
    (r : Option GoError × σ) (k : σ → Outcome σ)
    (hq : (ev none).isQuiet = true)
    (hf : ∀ err, (ev (some err)).wrappedFailure = some ([procName], err) ∧
      (ev (some err)).passedFailure = none)
    (hk : ∀ s, ∀ e ∈ (k s).events, e.accounted (k s).ret) :
    ∀ e ∈ (check procName ev r k).events, e.accounted (check procName ev r k).ret := by
  simp only [check]
  split
  · rename_i err _
    intro e he
    rw [List.mem_singleton.mp he]
    exact accounted_wrapped _ procName err (hf err).1 (hf err).2 _ rfl
  · exact all_accounted_after _ _ (by simp [hq]) (hk _)

theorem detailLoop_accounted {σ : Type} (W : World σ) (args : Args) (relPath : GoString)
    (rng fnd : Nat) (fuel : Nat) (found : Bool) (s : σ) :
    ∀ e ∈ (detailLoop W args relPath rng fnd fuel found s).events,
      e.accounted (detailLoop W args relPath rng fnd fuel found s).ret := by
  induction fuel generalizing found s with
  | zero => cases found <;> simp [detailLoop]
  | succ n ih =>
    cases found with
    | false => simp [detailLoop]
    | true =>
      simp only [detailLoop, outDetail_eq]
      rcases hx : W.execute fnd (newDetailResult W relPath rng s).2.1 with ⟨⟨b, e⟩, s2⟩
      cases e with
      | some err =>
        intro e he
        simp only [List.mem_append, List.mem_singleton] at he
        rcases he with (he | he) | he
        · refine accounted_of_isQuiet _ _ ?_
          simp only [newDetailResult, List.mem_cons, List.mem_singleton, List.not_mem_nil,
            or_false] at he
          rcases he with he | he | he <;> (rw [he]; rfl)
        · rw [he]; exact accounted_of_isQuiet _ _ rfl
        · rw [he]
          constructor
          · intro names e1 h
            simp only [Event.wrappedFailure, Option.some.injEq, Prod.mk.injEq] at h
            rw [← h.1, ← h.2]
            exact ⟨_, by simp, rfl⟩
          · intro e1 h
            cases h
      | none =>
        refine all_accounted_after _ _ ?_ (ih b s2)
        simp only [List.all_append, Bool.and_eq_true]
        refine ⟨⟨?_, rfl⟩, rfl⟩
        simp only [newDetailResult, List.all_cons, List.all_nil, Bool.and_true, Bool.and_eq_true]
        refine ⟨?_, ?_, ?_⟩ <;> simp [Event.isQuiet, Event.wrappedFailure, Event.passedFailure]

theorem report_accounted {σ : Type} (W : World σ) (args : Args) (fuel : Nat)
    (relPath : GoString) (rng fnd : Nat) (found : Bool) (s : σ) :
    ∀ e ∈ (report W args fuel relPath rng fnd found s).events,
      e.accounted (report W args fuel relPath rng fnd found s).ret := by
  simp only [report, outSimple_eq]
  split
  · split
    · intro e he
      rw [List.mem_singleton.mp he]
      exact accounted_of_isQuiet _ _ rfl
    · simp
  · split
    · intro e he
      rw [List.mem_singleton.mp he]
      exact accounted_of_isQuiet _ _ rfl
    · exact detailLoop_accounted W args relPath rng fnd fuel found s

theorem search_accounted {σ : Type} (W : World σ) (args : Args) (fuel : Nat)
    (rootDir absPath : GoString) (rng fnd : Nat) (s : σ) :
    ∀ e ∈ (search W args fuel rootDir absPath rng fnd s).events,
      e.accounted (search W args fuel rootDir absPath rng fnd s).ret := by
  simp only [search]
  rcases hx : W.execute fnd s with ⟨⟨b, e⟩, s1⟩
  cases e with
  | some err =>
    intro e he
    rw [List.mem_singleton.mp he]
    constructor
    · intro names e1 h
      simp only [Event.wrappedFailure, Option.some.injEq, Prod.mk.injEq] at h
      rw [← h.1, ← h.2]
      exact ⟨_, by simp, rfl⟩
    · intro e1 h
      cases h
  | none => exact all_accounted_after _ _ rfl (report_accounted W args fuel _ rng fnd b s1)

theorem setPattern_accounted {σ : Type} (W : World σ) (args : Args) (fuel : Nat)
    (rootDir absPath : GoString) (rng fnd : Nat) (s : σ) :
    ∀ e ∈ (setPattern W args fuel rootDir absPath rng fnd s).events,
      e.accounted (setPattern W args fuel rootDir absPath rng fnd s).ret := by
  have hrest : ∀ s1, ∀ e ∈ (check (lit "find.Text()") (.text fnd args.text)
      (W.setText fnd args.text s1) (search W args fuel rootDir absPath rng fnd)).events,
      e.accounted (check (lit "find.Text()") (.text fnd args.text)
      (W.setText fnd args.text s1) (search W args fuel rootDir absPath rng fnd)).ret :=
    fun s1 => check_accounted _ _ _ _ rfl (fun _ => ⟨rfl, rfl⟩)
      (search_accounted W args fuel rootDir absPath rng fnd)
  simp only [setPattern]
  split
  · exact check_accounted _ _ _ _ rfl (fun _ => ⟨rfl, rfl⟩) hrest
  · exact hrest s

theorem configure_accounted {σ : Type} (W : World σ) (args : Args) (fuel : Nat)
    (rootDir absPath : GoString) (rng fnd : Nat) (s : σ) :
    ∀ e ∈ (configure W args fuel rootDir absPath rng fnd s).events,
      e.accounted (configure W args fuel rootDir absPath rng fnd s).ret := by
  simp only [configure]
  refine check_accounted _ _ _ _ rfl (fun _ => ⟨rfl, rfl⟩) (fun s1 => ?_)
  refine check_accounted _ _ _ _ rfl (fun _ => ⟨rfl, rfl⟩) (fun s2 => ?_)
  refine check_accounted _ _ _ _ rfl (fun _ => ⟨rfl, rfl⟩) (fun s3 => ?_)
  exact check_accounted _ _ _ _ rfl (fun _ => ⟨rfl, rfl⟩)
    (setPattern_accounted W args fuel rootDir absPath rng fnd)

theorem prepare_accounted {σ : Type} (W : World σ) (args : Args) (fuel : Nat)
    (rootDir absPath : GoString) (doc : Nat) (s : σ) :
    ∀ e ∈ (prepare W args fuel rootDir absPath doc s).events,
      e.accounted (prepare W args fuel rootDir absPath doc s).ret := by
  simp only [prepare]
  split
  · intro e he
    rw [List.mem_singleton.mp he]
    refine accounted_wrapped _ _ _ ?_ ?_ _ rfl <;> rfl
  · refine all_accounted_after _ _ rfl ?_
    split
    · intro e he
      rw [List.mem_singleton.mp he]
      refine accounted_wrapped _ _ _ ?_ ?_ _ rfl <;> rfl
    · exact all_accounted_after _ _ rfl (configure_accounted W args fuel rootDir absPath _ _ _)

theorem openBody_accounted {σ : Type} (W : World σ) (args : Args) (fuel : Nat)
    (rootDir absPath : GoString) (doc : Nat) (s : σ) :
    ∀ e ∈ (openBody W args fuel rootDir absPath doc s).events,
      e.accounted (openBody W args fuel rootDir absPath doc s).ret := by
  simp only [openBody]
  refine all_accounted_after _ _ ?_ (prepare_accounted W args fuel rootDir absPath doc s)
  split <;> rfl

theorem walkFn_accounted {σ : Type} (W : World σ) (args : Args) (fuel : Nat)
    (rootDir : GoString) (v : Visit) (s : σ) :
    ∀ e ∈ (walkFn W args fuel rootDir v s).events,
      e.accounted (walkFn W args fuel rootDir v s).ret := by
  rcases walkFn_shape W args fuel rootDir v s with h | ⟨doc, e, s1, _, _, h, _, hr⟩ |
    ⟨doc, s1, _, _, h | ⟨r, h⟩⟩
  · rw [h.1, h.2.2]
    intro e he
    rw [List.mem_singleton.mp he]
    constructor
    · intro names e1 h1
      cases h1
    · intro e1 h1
      cases hv : v.err with
      | none => rw [hv] at h1; cases h1
      | some e2 =>
        rw [hv] at h1
        simp only [Event.passedFailure, Option.some.injEq] at h1
        rw [h1]
  · rw [h, hr]
    intro e1 he
    simp only [List.mem_cons, List.mem_singleton, List.not_mem_nil, or_false] at he
    rcases he with he | he
    · rw [he]; exact accounted_of_isQuiet _ _ rfl
    · rw [he]
      constructor
      · intro names e2 h1
        cases h1
      · intro e2 h1
        simp only [Event.passedFailure, Option.some.injEq] at h1
        rw [h1]
  · rw [h.2.2.2, h.2.1, ← h.1]
    intro e he
    simp only [List.mem_cons] at he
    rcases he with he | he | he
    · rw [he]; exact accounted_of_isQuiet _ _ rfl
    · rw [he]; exact accounted_of_isQuiet _ _ rfl
    · exact openBody_accounted W args fuel rootDir _ doc s1 e he
  · rw [h.2.2.2, h.2.1, ← h.1]
    intro e he
    simp only [List.mem_cons, List.mem_append, List.not_mem_nil, or_false] at he
    rcases he with he | he | he | he
    · rw [he]; exact accounted_of_isQuiet _ _ rfl
    · rw [he]; exact accounted_of_isQuiet _ _ rfl
    · exact openBody_accounted W args fuel rootDir _ doc s1 e he
    · rw [he]; exact accounted_of_isQuiet _ _ rfl

/-- A failure that is accounted for is not compatible with a nil result. -/
theorem isQuiet_of_accounted_nil (ev : Event) (ret : Option (Option GoError))
    (hret : ret = some none ∨ ret = none) (h : ev.accounted ret) : ev.isQuiet = true := by
  simp only [Event.isQuiet, Bool.and_eq_true, Option.isNone_iff_eq_none]
  constructor
  · cases hw : ev.wrappedFailure with
    | none => rfl
    | some p =>
      obtain ⟨name, _, h1⟩ := h.1 p.1 p.2 hw
      rcases hret with h2 | h2 <;> (rw [h2] at h1; cases h1)
  · cases hp : ev.passedFailure with
    | none => rfl
    | some e0 =>
      have h1 := h.2 e0 hp
      rcases hret with h2 | h2 <;> (rw [h2] at h1; cases h1)

theorem walkDir_accounted {σ : Type} (fn : Visit → σ → Outcome σ)
    (h : ∀ v s, ∀ e ∈ (fn v s).events, e.accounted (fn v s).ret) (vs : List Visit) (s : σ) :
    ∀ e ∈ (walkDir fn vs s).events, e.accounted (walkDir fn vs s).ret := by
  induction vs generalizing s with
  | nil => simp [walkDir]
  | cons v vs ih =>
    simp only [walkDir]
    split
    · rename_i hret
      refine all_accounted_after _ _ ?_ (ih _)
      rw [List.all_eq_true]
      intro e he
      exact isQuiet_of_accounted_nil e _ (Or.inl hret) (h v s e he)
    · exact h v s

theorem run_accounted {σ : Type} (W : World σ) (args : Args) (fuel : Nat) (s : σ) :
    ∀ e ∈ (run W args fuel s).events, e.accounted (run W args fuel s).ret := by
  have hw := walkDir_accounted (walkFn W args fuel (abs W args.dir))
    (walkFn_accounted W args fuel (abs W args.dir)) (W.walk (abs W args.dir))
  rcases run_shape W args fuel s with ⟨e, s4, _, hr, _, hev⟩ |
    ⟨s4, _, ⟨hwr, hr, _, hev⟩ | ⟨r, hwr, hr, _, hev⟩⟩
  · rw [hev, hr]
    intro e1 he
    simp only [List.mem_cons, List.not_mem_nil, or_false] at he
    rcases he with he | he | he | he | he | he
    · rw [he]; exact accounted_of_isQuiet _ _ rfl
    · rw [he]; exact accounted_of_isQuiet _ _ rfl
    · rw [he]; exact accounted_of_isQuiet _ _ rfl
    · rw [he]
      refine accounted_wrapped _ _ _ ?_ ?_ _ rfl <;> rfl
    · rw [he]; exact accounted_of_isQuiet _ _ rfl
    · rw [he]; exact accounted_of_isQuiet _ _ rfl
  · rw [hev, hr, ← hwr]
    intro e1 he
    rw [List.mem_append] at he
    rcases he with he | he
    · refine accounted_of_isQuiet _ _ ?_
      simp only [List.mem_cons, List.not_mem_nil, or_false] at he
      rcases he with he | he | he | he <;> (rw [he]; rfl)
    · exact hw s4 e1 he
  · rw [hev, hr, ← hwr]
    intro e1 he
    simp only [List.mem_append] at he
    rcases he with (he | he) | he
    · refine accounted_of_isQuiet _ _ ?_
      simp only [List.mem_cons, List.not_mem_nil, or_false] at he
      rcases he with he | he | he | he <;> (rw [he]; rfl)
    · exact hw s4 e1 he
    · refine accounted_of_isQuiet _ _ ?_
      simp only [List.mem_cons, List.not_mem_nil, or_false] at he
      rcases he with he | he <;> (rw [he]; rfl)

/-! ## C8, C9: what is reported for a document -/

theorem outputs_append (l m : List Event) : outputs (l ++ m) = outputs l ++ outputs m := by
  simp [outputs, List.filterMap_append]

theorem executes_append (l m : List Event) : executes (l ++ m) = executes l ++ executes m := by
  simp [executes, List.filterMap_append]

theorem outputs_of_setup (evs : List Event) (h : evs.all Event.isSetupStep = true) :
    outputs evs = [] := by
  induction evs with
  | nil => rfl
  | cons e evs ih =>
    rw [List.all_cons, Bool.and_eq_true] at h
    have h1 : e.output = none := by
      have h2 := h.1
      cases e <;> first
        | rfl
        | (simp [Event.isSetupStep] at h2)
    simp only [outputs, List.filterMap_cons, h1]
    exact ih h.2

theorem executes_of_setup (evs : List Event) (h : evs.all Event.isSetupStep = true) :
    executes evs = [] := by
  induction evs with
  | nil => rfl
  | cons e evs ih =>
    rw [List.all_cons, Bool.and_eq_true] at h
    have h1 : e.executed = none := by
      have h2 := h.1
      cases e <;> first
        | rfl
        | (simp [Event.isSetupStep] at h2)
    simp only [executes, List.filterMap_cons, h1]
    exact ih h.2

theorem stage_after {σ : Type} (W : World σ) (args : Args) (fuel : Nat)
    (rootDir absPath : GoString) (e : Event) (o : Outcome σ) (he : e.isSetupStep = true)
    (h : Stage W args fuel rootDir absPath o) :
    Stage W args fuel rootDir absPath (o.after [e]) := by
  rcases h with ⟨h1, h2⟩ | ⟨pre, rng, fnd, s1, h1, h2⟩
  · refine Or.inl ⟨?_, ?_⟩
    · rw [after_events, List.all_append, h1]
      simp [he]
    · rw [after_events, List.any_append, h2]
      simp
  · refine Or.inr ⟨e :: pre, rng, fnd, s1, ?_, ?_⟩
    · rw [List.all_cons, he, h1]; rfl
    · rw [h2]; rfl

theorem stage_check {σ : Type} (W : World σ) (args : Args) (fuel : Nat)
    (rootDir absPath : GoString) (procName : GoString) (ev : Option GoError → Event)
    (r : Option GoError × σ) (k : σ → Outcome σ)
    (hs : ∀ err, (ev err).isSetupStep = true)
    (hf : ∀ err, (ev (some err)).failed = true)
    (hk : ∀ s, Stage W args fuel rootDir absPath (k s)) :
    Stage W args fuel rootDir absPath (check procName ev r k) := by
  simp only [check]
  split
  · rename_i err _
    exact Or.inl ⟨by simp [hs], by simp [hf]⟩
  · exact stage_after W args fuel rootDir absPath _ _ (hs none) (hk _)

theorem stage_setPattern {σ : Type} (W : World σ) (args : Args) (fuel : Nat)
    (rootDir absPath : GoString) (rng fnd : Nat) (s : σ) :
    Stage W args fuel rootDir absPath (setPattern W args fuel rootDir absPath rng fnd s) := by
  have hrest : ∀ s1, Stage W args fuel rootDir absPath
      (check (lit "find.Text()") (.text fnd args.text)
        (W.setText fnd args.text s1) (search W args fuel rootDir absPath rng fnd)) :=
    fun s1 => stage_check W args fuel rootDir absPath _ _ _ _ (fun _ => rfl) (fun _ => rfl)
      (fun s2 => Or.inr ⟨[], rng, fnd, s2, rfl, rfl⟩)
  simp only [setPattern]
  split
  · exact stage_check W args fuel rootDir absPath _ _ _ _ (fun _ => rfl) (fun _ => rfl) hrest
  · exact hrest s

theorem stage_configure {σ : Type} (W : World σ) (args : Args) (fuel : Nat)
    (rootDir absPath : GoString) (rng fnd : Nat) (s : σ) :
    Stage W args fuel rootDir absPath (configure W args fuel rootDir absPath rng fnd s) := by
  simp only [configure]
  refine stage_check W args fuel rootDir absPath _ _ _ _ (fun _ => rfl) (fun _ => rfl) ?_
  intro s1
  refine stage_check W args fuel rootDir absPath _ _ _ _ (fun _ => rfl) (fun _ => rfl) ?_
  intro s2
  refine stage_check W args fuel rootDir absPath _ _ _ _ (fun _ => rfl) (fun _ => rfl) ?_
  intro s3
  exact stage_check W args fuel rootDir absPath _ _ _ _ (fun _ => rfl) (fun _ => rfl)
    (stage_setPattern W args fuel rootDir absPath rng fnd)

theorem stage_prepare {σ : Type} (W : World σ) (args : Args) (fuel : Nat)
    (rootDir absPath : GoString) (doc : Nat) (s : σ) :
    Stage W args fuel rootDir absPath (prepare W args fuel rootDir absPath doc s) := by
  simp only [prepare]
  split
  · exact Or.inl ⟨rfl, rfl⟩
  · refine stage_after W args fuel rootDir absPath _ _ rfl ?_
    split
    · exact Or.inl ⟨rfl, rfl⟩
    · exact stage_after W args fuel rootDir absPath _ _ rfl
        (stage_configure W args fuel rootDir absPath _ _ _)

theorem newDetailResult_outputs {σ : Type} (W : World σ) (relPath : GoString) (rng : Nat)
    (s : σ) :
    outputs (newDetailResult W relPath rng s).2.2 = [] ∧
    executes (newDetailResult W relPath rng s).2.2 = [] ∧
    (newDetailResult W relPath rng s).1.Path = relPath :=
  ⟨rfl, rfl, rfl⟩

/-- The verbose loop when no call fails: it prints one detail line per iteration; it
returns nil after the first `Execute` that reports no match, or is still running, every
`Execute` so far having reported a match, when the fuel is used up. -/
theorem detailLoop_shape {σ : Type} (W : World σ) (args : Args) (relPath : GoString)
    (rng fnd : Nat) (fuel : Nat) (found : Bool) (s : σ)
    (h : (detailLoop W args relPath rng fnd fuel found s).events.all
      (fun e => !e.failed) = true) :
    ∃ details : List DetailResult,
      outputs (detailLoop W args relPath rng fnd fuel found s).events =
        details.map (fun d => (Printed.detail d, detailLine W.printTable args d)) ∧
      (∀ d ∈ details, d.Path = relPath) ∧
      (((detailLoop W args relPath rng fnd fuel found s).ret = some none ∧
        found :: executes (detailLoop W args relPath rng fnd fuel found s).events =
          List.replicate details.length true ++ [false]) ∨
       ((detailLoop W args relPath rng fnd fuel found s).ret = none ∧
        details.length = fuel ∧
        found :: executes (detailLoop W args relPath rng fnd fuel found s).events =
          List.replicate (fuel + 1) true)) := by
  induction fuel generalizing found s with
  | zero =>
    cases found with
    | false => exact ⟨[], rfl, by simp, Or.inl ⟨rfl, rfl⟩⟩
    | true => exact ⟨[], rfl, by simp, Or.inr ⟨rfl, rfl, rfl⟩⟩
  | succ n ih =>
    cases found with
    | false => exact ⟨[], rfl, by simp, Or.inl ⟨rfl, rfl⟩⟩
    | true =>
      simp only [detailLoop, outDetail_eq] at h ⊢
      rcases hx : W.execute fnd (newDetailResult W relPath rng s).2.1 with ⟨⟨b, e⟩, s2⟩
      rw [hx] at h
      cases e with
      | some err =>
        simp only [List.all_append, Bool.and_eq_true] at h
        have h1 := h.2
        simp [Event.failed] at h1
      | none =>
        simp only [after_events, List.all_append, Bool.and_eq_true] at h
        obtain ⟨details, hout, hpath, hret⟩ := ih b s2 h.2
        obtain ⟨ho, he, hp⟩ := newDetailResult_outputs W relPath rng s
        refine ⟨(newDetailResult W relPath rng s).1 :: details, ?_, ?_, ?_⟩
        · simp only [after_events, after_ret, outputs_append, ho, hout, List.nil_append,
            List.map_cons]
          rfl
        · intro d hd
          rcases List.mem_cons.mp hd with hd | hd
          · rw [hd]; exact hp
          · exact hpath d hd
        · simp only [after_events, after_ret, executes_append, he, List.nil_append]
          have hex : executes [Event.println (Printed.detail (newDetailResult W relPath rng s).1)
              (detailLine W.printTable args (newDetailResult W relPath rng s).1)] = [] := rfl
          have hex2 : executes [Event.execute fnd b none] = [b] := rfl
          rw [hex, hex2, List.nil_append, List.singleton_append]
          rcases hret with ⟨h1, h2⟩ | ⟨h1, h2, h3⟩
          · refine Or.inl ⟨h1, ?_⟩
            rw [h2, List.length_cons, List.replicate_succ, List.cons_append]
          · refine Or.inr ⟨h1, ?_, ?_⟩
            · rw [List.length_cons, h2]
            · rw [h3, List.replicate_succ (n := n + 1)]

theorem all_not_failed_append (l m : List Event) :
    (l ++ m).all (fun e => !e.failed) = true ↔
      l.all (fun e => !e.failed) = true ∧ m.all (fun e => !e.failed) = true := by
  rw [List.all_append, Bool.and_eq_true]

/-- An invocation of the callback in which `Execute` is called: the document was opened,
the set-up went through, and what is printed, executed and returned is what `search`
prints, executes and returns, preceded by the debug line when the flag is set. -/
theorem walkFn_search_view {σ : Type} (W : World σ) (args : Args) (fuel : Nat)
    (rootDir : GoString) (v : Visit) (s : σ)
    (h : executes (walkFn W args fuel rootDir v s).events ≠ []) :
    ∃ rng fnd s2,
      outputs (walkFn W args fuel rootDir v s).events =
        debugOutput W.printTable args (W.filepathAbs v.path) ++
          outputs (search W args fuel rootDir (W.filepathAbs v.path) rng fnd s2).events ∧
      executes (walkFn W args fuel rootDir v s).events =
        executes (search W args fuel rootDir (W.filepathAbs v.path) rng fnd s2).events ∧
      (walkFn W args fuel rootDir v s).ret =
        (search W args fuel rootDir (W.filepathAbs v.path) rng fnd s2).ret ∧
      ((walkFn W args fuel rootDir v s).events.all (fun e => !e.failed) = true →
        (search W args fuel rootDir (W.filepathAbs v.path) rng fnd s2).events.all
          (fun e => !e.failed) = true) := by
  have hbody : ∀ doc s1,
      (executes (openBody W args fuel rootDir (W.filepathAbs v.path) doc s1).events = [] ∨
      ∃ rng fnd s2,
        outputs (openBody W args fuel rootDir (W.filepathAbs v.path) doc s1).events =
          debugOutput W.printTable args (W.filepathAbs v.path) ++
            outputs (search W args fuel rootDir (W.filepathAbs v.path) rng fnd s2).events ∧
        executes (openBody W args fuel rootDir (W.filepathAbs v.path) doc s1).events =
          executes (search W args fuel rootDir (W.filepathAbs v.path) rng fnd s2).events ∧
        (openBody W args fuel rootDir (W.filepathAbs v.path) doc s1).ret =
          (search W args fuel rootDir (W.filepathAbs v.path) rng fnd s2).ret ∧
        ((openBody W args fuel rootDir (W.filepathAbs v.path) doc s1).events.all
            (fun e => !e.failed) = true →
          (search W args fuel rootDir (W.filepathAbs v.path) rng fnd s2).events.all
            (fun e => !e.failed) = true)) := by
    intro doc s1
    have hdbg : ∀ evs : List Event,
        outputs ((if args.debug then
          [Event.println .debug (sprintf W.printTable (lit "Document Open: %s")
            [.str (W.filepathAbs v.path)])] else []) ++ evs) =
          debugOutput W.printTable args (W.filepathAbs v.path) ++ outputs evs ∧
        executes ((if args.debug then
          [Event.println .debug (sprintf W.printTable (lit "Document Open: %s")
            [.str (W.filepathAbs v.path)])] else []) ++ evs) = executes evs := by
      intro evs
      simp only [debugOutput]
      split <;> exact ⟨rfl, rfl⟩
    rcases stage_prepare W args fuel rootDir (W.filepathAbs v.path) doc s1 with
      ⟨h1, _⟩ | ⟨pre, rng, fnd, s2, h1, h2⟩
    · left
      simp only [openBody, after_events]
      rw [(hdbg _).2]
      exact executes_of_setup _ h1
    · right
      refine ⟨rng, fnd, s2, ?_, ?_, ?_, ?_⟩
      · simp only [openBody, after_events]
        rw [(hdbg _).1, h2, after_events, outputs_append, outputs_of_setup _ h1, List.nil_append]
      · simp only [openBody, after_events]
        rw [(hdbg _).2, h2, after_events, executes_append, executes_of_setup _ h1,
          List.nil_append]
      · simp only [openBody, after_ret]
        rw [h2, after_ret]
      · simp only [openBody, after_events]
        rw [h2, after_events]
        intro hall
        exact ((all_not_failed_append _ _).mp ((all_not_failed_append _ _).mp hall).2).2
  rcases walkFn_shape W args fuel rootDir v s with h1 | ⟨doc, e, s1, _, _, h1, _⟩ |
    ⟨doc, s1, _, _, h1 | ⟨r, h1⟩⟩
  · rw [h1.1] at h
    exact absurd rfl h
  · rw [h1] at h
    exact absurd rfl h
  · rcases hbody doc s1 with hb | ⟨rng, fnd, s2, hb1, hb2, hb3, hb4⟩
    · rw [h1.2.2.2] at h
      exact absurd (by simpa [executes, Event.executed] using hb) h
    · refine ⟨rng, fnd, s2, ?_, ?_, ?_, ?_⟩
      · rw [h1.2.2.2, ← hb1]; rfl
      · rw [h1.2.2.2, ← hb2]; rfl
      · rw [h1.2.1, ← hb3, h1.1]
      · rw [h1.2.2.2]
        intro hall
        simp only [List.all_cons, Bool.and_eq_true] at hall
        exact hb4 hall.2.2
  · rcases hbody doc s1 with hb | ⟨rng, fnd, s2, hb1, hb2, hb3, hb4⟩
    · rw [h1.2.2.2] at h
      refine absurd ?_ h
      have : executes (Event.visit v.path v.isDir none ::
          Event.docOpen (W.filepathAbs v.path) doc none ::
          ((openBody W args fuel rootDir (W.filepathAbs v.path) doc s1).events ++
            [Event.docRelease doc])) =
          executes (openBody W args fuel rootDir (W.filepathAbs v.path) doc s1).events ++
            executes [Event.docRelease doc] := by
        rw [← executes_append]; rfl
      rw [this, hb]; rfl
    · have hx : ∀ evs : List Event, executes (Event.visit v.path v.isDir none ::
          Event.docOpen (W.filepathAbs v.path) doc none :: (evs ++ [Event.docRelease doc])) =
          executes evs ∧ outputs (Event.visit v.path v.isDir none ::
          Event.docOpen (W.filepathAbs v.path) doc none :: (evs ++ [Event.docRelease doc])) =
          outputs evs := by
        intro evs
        constructor
        · show executes (evs ++ [Event.docRelease doc]) = executes evs
          rw [executes_append]
          exact List.append_nil _
        · show outputs (evs ++ [Event.docRelease doc]) = outputs evs
          rw [outputs_append]
          exact List.append_nil _
      refine ⟨rng, fnd, s2, ?_, ?_, ?_, ?_⟩
      · rw [h1.2.2.2, (hx _).2, hb1]
      · rw [h1.2.2.2, (hx _).1, hb2]
      · rw [h1.2.1, ← hb3, h1.1]
      · rw [h1.2.2.2]
        intro hall
        simp only [List.all_cons, Bool.and_eq_true] at hall
        exact hb4 ((all_not_failed_append _ _).mp hall.2.2).1

theorem search_view {σ : Type} (W : World σ) (args : Args) (fuel : Nat)
    (rootDir absPath : GoString) (rng fnd : Nat) (s : σ) :
    (∃ b err s3, (search W args fuel rootDir absPath rng fnd s).events =
        [.execute fnd b (some err)] ∧
      (search W args fuel rootDir absPath rng fnd s).ret =
        some (some (genErr (lit "find.Execute() [first time]") err)) ∧
      W.execute fnd s = ((b, some err), s3)) ∨
    (∃ b s3, (search W args fuel rootDir absPath rng fnd s).events =
        .execute fnd b none ::
          (report W args fuel (W.filepathRel rootDir absPath) rng fnd b s3).events ∧
      (search W args fuel rootDir absPath rng fnd s).ret =
        (report W args fuel (W.filepathRel rootDir absPath) rng fnd b s3).ret ∧
      W.execute fnd s = ((b, none), s3)) := by
  simp only [search]
  rcases hx : W.execute fnd s with ⟨⟨b, e⟩, s3⟩
  cases e with
  | some err => exact Or.inl ⟨b, err, s3, rfl, rfl, rfl⟩
  | none => exact Or.inr ⟨b, s3, rfl, rfl, rfl⟩

theorem report_no_match {σ : Type} (W : World σ) (args : Args) (fuel : Nat)
    (relPath : GoString) (rng fnd : Nat) (s : σ) :
    (report W args fuel relPath rng fnd false s).ret = some none ∧
    (report W args fuel relPath rng fnd false s).events =
      (if args.onlyHit then []
       else [.println (.simple ⟨relPath, lit "NO HIT"⟩)
          (simpleLine W.printTable args ⟨relPath, lit "NO HIT"⟩)]) := by
  simp only [report, outSimple_eq, newSimpleResult]
  cases args.onlyHit <;> simp

theorem report_match_plain {σ : Type} (W : World σ) (args : Args) (fuel : Nat)
    (relPath : GoString) (rng fnd : Nat) (s : σ) (hv : args.verbose = false) :
    (report W args fuel relPath rng fnd true s).ret = some none ∧
    (report W args fuel relPath rng fnd true s).events =
      [.println (.simple ⟨relPath, lit "HIT"⟩)
          (simpleLine W.printTable args ⟨relPath, lit "HIT"⟩)] := by
  simp [report, outSimple_eq, newSimpleResult, hv]

theorem report_match_verbose {σ : Type} (W : World σ) (args : Args) (fuel : Nat)
    (relPath : GoString) (rng fnd : Nat) (s : σ) (hv : args.verbose = true) :
    report W args fuel relPath rng fnd true s =
      detailLoop W args relPath rng fnd fuel true s := by
  simp [report, hv]

/-- C8 (as amended): for an invocation of the callback in which no call fails and the
first `find.Execute` reports a match, with `rel` the path relative to the root:
with `verbose` off the callback returns nil, `Execute` is called exactly once, and the
lines printed are the debug line "Document Open: ..." when the `debug` flag is set,
followed by exactly one result line, the simple result (`rel`, "HIT");
with `verbose` on the lines printed are the debug line when the flag is set, followed by
one detail line per iteration of the loop, each for a record with path `rel`; either the
callback returns nil, and then the `Execute` calls answered true as many times as there
are detail lines and then false once, or the callback is still in the loop when the fuel
is used up, and then `fuel` detail lines were printed and all `fuel + 1` calls of
`Execute` answered true. -/
theorem hit_reporting {σ : Type} (W : World σ) (args : Args) (fuel : Nat)
    (rootDir : GoString) (v : Visit) (s : σ)
    (hnofail : (walkFn W args fuel rootDir v s).events.all (fun e => !e.failed) = true)
    (hfirst : (executes (walkFn W args fuel rootDir v s).events).head? = some true) :
    (args.verbose = false →
      (walkFn W args fuel rootDir v s).ret = some none ∧
      executes (walkFn W args fuel rootDir v s).events = [true] ∧
      outputs (walkFn W args fuel rootDir v s).events =
        debugOutput W.printTable args (W.filepathAbs v.path) ++
          [(.simple ⟨W.filepathRel rootDir (W.filepathAbs v.path), lit "HIT"⟩,
            simpleLine W.printTable args
              ⟨W.filepathRel rootDir (W.filepathAbs v.path), lit "HIT"⟩)]) ∧
    (args.verbose = true →
      ∃ details : List DetailResult,
        outputs (walkFn W args fuel rootDir v s).events =
          debugOutput W.printTable args (W.filepathAbs v.path) ++
            details.map (fun d => (Printed.detail d, detailLine W.printTable args d)) ∧
        (∀ d ∈ details, d.Path = W.filepathRel rootDir (W.filepathAbs v.path)) ∧
        (((walkFn W args fuel rootDir v s).ret = some none ∧
          executes (walkFn W args fuel rootDir v s).events =
            List.replicate details.length true ++ [false]) ∨
         ((walkFn W args fuel rootDir v s).ret = none ∧ details.length = fuel ∧
          executes (walkFn W args fuel rootDir v s).events =
            List.replicate (fuel + 1) true))) := by
  have hne : executes (walkFn W args fuel rootDir v s).events ≠ [] := by
    intro h0
    rw [h0] at hfirst
    cases hfirst
  obtain ⟨rng, fnd, s2, hout, hex, hret, hall⟩ := walkFn_search_view W args fuel rootDir v s hne
  have hall1 := hall hnofail
  rw [hex] at hfirst
  rw [hout, hex, hret]
  rcases search_view W args fuel rootDir (W.filepathAbs v.path) rng fnd s2 with
    ⟨b, err, s3, hev, _, _⟩ | ⟨b, s3, hev, hr, _⟩
  · rw [hev] at hall1
    simp [Event.failed] at hall1
  · rw [hev] at hfirst hall1 ⊢
    rw [hr]
    have hb : b = true := by
      simpa [executes, Event.executed] using hfirst
    subst hb
    have hsplit : ∀ evs : List Event, executes (Event.execute fnd true none :: evs) =
        true :: executes evs ∧ outputs (Event.execute fnd true none :: evs) = outputs evs :=
      fun _ => ⟨rfl, rfl⟩
    rw [(hsplit _).1, (hsplit _).2]
    constructor
    · intro hv
      obtain ⟨h1, h2⟩ := report_match_plain W args fuel
        (W.filepathRel rootDir (W.filepathAbs v.path)) rng fnd s3 hv
      rw [h1, h2]
      exact ⟨rfl, rfl, rfl⟩
    · intro hv
      rw [report_match_verbose W args fuel _ rng fnd s3 hv] at hall1 ⊢
      simp only [List.all_cons, Bool.and_eq_true] at hall1
      obtain ⟨details, h1, h2, h3⟩ := detailLoop_shape W args
        (W.filepathRel rootDir (W.filepathAbs v.path)) rng fnd fuel true s3 hall1.2
      exact ⟨details, by rw [h1], h2, h3⟩

/-- Witness of `hit_reporting`: the document of the sample walk holds two matches; with
`verbose` off one line is printed for it and `Execute` is called once. -/
theorem hit_reporting_witness :
    (walkFn (scriptWorld (sampleScript 2)) { defaultArgs with text := lit "a" } 5
        (lit "C:\\w") sampleDoc 0).events.all (fun e => !e.failed) = true ∧
    (executes (walkFn (scriptWorld (sampleScript 2)) { defaultArgs with text := lit "a" } 5
        (lit "C:\\w") sampleDoc 0).events).head? = some true ∧
    ((walkFn (scriptWorld (sampleScript 2)) { defaultArgs with text := lit "a" } 5
        (lit "C:\\w") sampleDoc 0).ret = some none ∧
      executes (walkFn (scriptWorld (sampleScript 2)) { defaultArgs with text := lit "a" } 5
        (lit "C:\\w") sampleDoc 0).events = [true] ∧
      outputs (walkFn (scriptWorld (sampleScript 2)) { defaultArgs with text := lit "a" } 5
        (lit "C:\\w") sampleDoc 0).events =
        debugOutput (scriptWorld (sampleScript 2)).printTable { defaultArgs with text := lit "a" }
          ((scriptWorld (sampleScript 2)).filepathAbs sampleDoc.path) ++
          [(.simple ⟨(scriptWorld (sampleScript 2)).filepathRel (lit "C:\\w")
              ((scriptWorld (sampleScript 2)).filepathAbs sampleDoc.path), lit "HIT"⟩,
            simpleLine (scriptWorld (sampleScript 2)).printTable
              { defaultArgs with text := lit "a" }
              ⟨(scriptWorld (sampleScript 2)).filepathRel (lit "C:\\w")
                ((scriptWorld (sampleScript 2)).filepathAbs sampleDoc.path), lit "HIT"⟩)]) :=
  ⟨by decide, by decide,
    (hit_reporting (scriptWorld (sampleScript 2)) { defaultArgs with text := lit "a" } 5
      (lit "C:\\w") sampleDoc 0 (by decide) (by decide)).1 rfl⟩

/-- C8 (as stated) fails: with the `debug` flag set and `verbose` off, a document whose
first `Execute` reports a match, and for which no call fails, gets two lines on standard
output, the debug line and the result line. -/
theorem hit_with_debug_two_lines :
    (walkFn (scriptWorld (sampleScript 2)) { defaultArgs with text := lit "a", debug := true }
        5 (lit "C:\\w") sampleDoc 0).events.all (fun e => !e.failed) = true ∧
    (executes (walkFn (scriptWorld (sampleScript 2))
        { defaultArgs with text := lit "a", debug := true }
        5 (lit "C:\\w") sampleDoc 0).events).head? = some true ∧
    ({ defaultArgs with text := lit "a", debug := true } : Args).verbose = false ∧
    outputs (walkFn (scriptWorld (sampleScript 2))
        { defaultArgs with text := lit "a", debug := true }
        5 (lit "C:\\w") sampleDoc 0).events =
      [(.debug, lit "Document Open: C:\\w\\a.docx"),
       (.simple ⟨lit "a.docx", lit "HIT"⟩, lit "a.docx: HIT")] ∧
    (outputs (walkFn (scriptWorld (sampleScript 2))
        { defaultArgs with text := lit "a", debug := true }
        5 (lit "C:\\w") sampleDoc 0).events).length ≠ 1 := by
  refine ⟨?_, ?_, ?_, ?_, ?_⟩ <;> decide

theorem detailLoop_outputs_detail {σ : Type} (W : World σ) (args : Args) (relPath : GoString)
    (rng fnd : Nat) (fuel : Nat) (found : Bool) (s : σ) :
    ∀ p ∈ outputs (detailLoop W args relPath rng fnd fuel found s).events,
      ∃ d, p.1 = Printed.detail d := by
  induction fuel generalizing found s with
  | zero => cases found <;> simp [detailLoop, outputs]
  | succ n ih =>
    cases found with
    | false => simp [detailLoop, outputs]
    | true =>
      simp only [detailLoop, outDetail_eq]
      rcases hx : W.execute fnd (newDetailResult W relPath rng s).2.1 with ⟨⟨b, e⟩, s2⟩
      have hacc := (newDetailResult_outputs W relPath rng s).1
      cases e with
      | some err =>
        intro p hp
        simp only [outputs_append, hacc, List.nil_append] at hp
        simp only [outputs, List.filterMap_cons, Event.output, List.filterMap_nil,
          List.append_nil, List.mem_singleton] at hp
        exact ⟨_, by rw [hp]⟩
      | none =>
        intro p hp
        simp only [after_events, outputs_append, hacc, List.nil_append, List.mem_append] at hp
        rcases hp with (hp | hp) | hp
        · simp only [outputs, List.filterMap_cons, Event.output, List.filterMap_nil,
            List.mem_singleton] at hp
          exact ⟨_, by rw [hp]⟩
        · simp [outputs, Event.output] at hp
        · exact ih b s2 p hp

/-- Without an `Execute` call the only line an invocation of the callback can print is
the debug line. -/
theorem walkFn_outputs_without_execute {σ : Type} (W : World σ) (args : Args) (fuel : Nat)
    (rootDir : GoString) (v : Visit) (s : σ)
    (h : executes (walkFn W args fuel rootDir v s).events = []) :
    ∀ p ∈ outputs (walkFn W args fuel rootDir v s).events, p.1 = Printed.debug := by
  have hbody : ∀ doc s1,
      executes (openBody W args fuel rootDir (W.filepathAbs v.path) doc s1).events = [] →
      ∀ p ∈ outputs (openBody W args fuel rootDir (W.filepathAbs v.path) doc s1).events,
        p.1 = Printed.debug := by
    intro doc s1 hex p hp
    simp only [openBody, after_events, outputs_append, executes_append] at hex hp
    rcases stage_prepare W args fuel rootDir (W.filepathAbs v.path) doc s1 with
      ⟨h1, _⟩ | ⟨pre, rng, fnd, s2, h1, h2⟩
    · rw [outputs_of_setup _ h1, List.append_nil] at hp
      split at hp
      · simp only [outputs, List.filterMap_cons, Event.output, List.filterMap_nil,
          List.mem_singleton] at hp
        rw [hp]
      · simp [outputs] at hp
    · exfalso
      rw [h2, after_events, executes_append] at hex
      obtain ⟨tail, ht, _⟩ := search_events W args fuel rootDir (W.filepathAbs v.path) rng fnd s2
      rw [ht] at hex
      simp [executes, Event.executed] at hex
  rcases walkFn_shape W args fuel rootDir v s with h1 | ⟨doc, e, s1, _, _, h1, _⟩ |
    ⟨doc, s1, _, _, h1 | ⟨r, h1⟩⟩
  · rw [h1.1]
    intro p hp
    simp [outputs, Event.output] at hp
  · rw [h1]
    intro p hp
    simp [outputs, Event.output] at hp
  · rw [h1.2.2.2] at h ⊢
    exact hbody doc s1 h
  · rw [h1.2.2.2] at h ⊢
    have hx : ∀ evs : List Event, executes (Event.visit v.path v.isDir none ::
        Event.docOpen (W.filepathAbs v.path) doc none :: (evs ++ [Event.docRelease doc])) =
        executes evs ∧ outputs (Event.visit v.path v.isDir none ::
        Event.docOpen (W.filepathAbs v.path) doc none :: (evs ++ [Event.docRelease doc])) =
        outputs evs := by
      intro evs
      constructor
      · show executes (evs ++ [Event.docRelease doc]) = executes evs
        rw [executes_append]
        exact List.append_nil _
      · show outputs (evs ++ [Event.docRelease doc]) = outputs evs
        rw [outputs_append]
        exact List.append_nil _
    rw [(hx _).1] at h
    rw [(hx _).2]
    exact hbody doc s1 h

theorem mem_debugOutput (tbl : Nat → Bool) (args : Args) (absPath : GoString)
    (p : Printed × GoString) (hp : p ∈ debugOutput tbl args absPath) : p.1 = Printed.debug := by
  simp only [debugOutput] at hp
  split at hp
  · rw [List.mem_singleton.mp hp]
  · cases hp

theorem not_isExecute_of_isSetupStep (e : Event) (h : e.isSetupStep = true) :
    e.isExecute = false := by
  cases e <;> first
    | rfl
    | (simp [Event.isSetupStep] at h)

/-- An invocation of the callback in which `Execute` is called consists of the events of
`search`, preceded by events that are no `Execute` call and print at most the debug line,
and followed at most by the release of the document. -/
theorem walkFn_search_split {σ : Type} (W : World σ) (args : Args) (fuel : Nat)
    (rootDir : GoString) (v : Visit) (s : σ)
    (h : executes (walkFn W args fuel rootDir v s).events ≠ []) :
    ∃ rng fnd s2 pre post,
      (walkFn W args fuel rootDir v s).events =
        pre ++ (search W args fuel rootDir (W.filepathAbs v.path) rng fnd s2).events ++ post ∧
      pre.all (fun e => !e.isExecute) = true ∧
      outputs pre = debugOutput W.printTable args (W.filepathAbs v.path) ∧
      (post = [] ∨ ∃ d, post = [.docRelease d]) ∧
      (walkFn W args fuel rootDir v s).ret =
        (search W args fuel rootDir (W.filepathAbs v.path) rng fnd s2).ret := by
  have hbody : ∀ doc s1,
      (executes (openBody W args fuel rootDir (W.filepathAbs v.path) doc s1).events = [] ∨
      ∃ rng fnd s2 pre,
        (openBody W args fuel rootDir (W.filepathAbs v.path) doc s1).events =
          pre ++ (search W args fuel rootDir (W.filepathAbs v.path) rng fnd s2).events ∧
        pre.all (fun e => !e.isExecute) = true ∧
        outputs pre = debugOutput W.printTable args (W.filepathAbs v.path) ∧
        (openBody W args fuel rootDir (W.filepathAbs v.path) doc s1).ret =
          (search W args fuel rootDir (W.filepathAbs v.path) rng fnd s2).ret) := by
    intro doc s1
    rcases stage_prepare W args fuel rootDir (W.filepathAbs v.path) doc s1 with
      ⟨h1, _⟩ | ⟨pre, rng, fnd, s2, h1, h2⟩
    · left
      simp only [openBody, after_events, executes_append, executes_of_setup _ h1,
        List.append_nil]
      split <;> rfl
    · right
      have hpre : pre.all (fun e => !e.isExecute) = true := by
        rw [List.all_eq_true] at h1 ⊢
        intro e he
        rw [not_isExecute_of_isSetupStep e (h1 e he)]
        rfl
      refine ⟨rng, fnd, s2, (if args.debug then
          [Event.println .debug (sprintf W.printTable (lit "Document Open: %s")
            [.str (W.filepathAbs v.path)])] else []) ++ pre, ?_, ?_, ?_, ?_⟩
      · simp only [openBody, after_events, h2, List.append_assoc]
      · rw [List.all_append, hpre, Bool.and_true]
        split <;> rfl
      · rw [outputs_append, outputs_of_setup _ h1, List.append_nil]
        simp only [debugOutput]
        split <;> rfl
      · simp only [openBody, after_ret, h2]
  rcases walkFn_shape W args fuel rootDir v s with h1 | ⟨doc, e, s1, _, _, h1, _⟩ |
    ⟨doc, s1, _, _, h1 | ⟨r, h1⟩⟩
  · rw [h1.1] at h
    exact absurd rfl h
  · rw [h1] at h
    exact absurd rfl h
  · rcases hbody doc s1 with hb | ⟨rng, fnd, s2, pre, hb1, hb2, hb3, hb4⟩
    · rw [h1.2.2.2] at h
      exact absurd (by simpa [executes, Event.executed] using hb) h
    · refine ⟨rng, fnd, s2, .visit v.path v.isDir none ::
        .docOpen (W.filepathAbs v.path) doc none :: pre, [], ?_, ?_, ?_, Or.inl rfl, ?_⟩
      · rw [h1.2.2.2, hb1]; simp
      · simp only [List.all_cons, hb2, Bool.and_true]; rfl
      · exact hb3
      · rw [h1.2.1, ← hb4, h1.1]
  · rcases hbody doc s1 with hb | ⟨rng, fnd, s2, pre, hb1, hb2, hb3, hb4⟩
    · rw [h1.2.2.2] at h
      refine absurd ?_ h
      have : executes (Event.visit v.path v.isDir none ::
          Event.docOpen (W.filepathAbs v.path) doc none ::
          ((openBody W args fuel rootDir (W.filepathAbs v.path) doc s1).events ++
            [Event.docRelease doc])) =
          executes (openBody W args fuel rootDir (W.filepathAbs v.path) doc s1).events ++
            executes [Event.docRelease doc] := by
        rw [← executes_append]; rfl
      rw [this, hb]; rfl
    · refine ⟨rng, fnd, s2, .visit v.path v.isDir none ::
        .docOpen (W.filepathAbs v.path) doc none :: pre, [.docRelease doc], ?_, ?_, ?_,
        Or.inr ⟨doc, rfl⟩, ?_⟩
      · rw [h1.2.2.2, hb1]; simp
      · simp only [List.all_cons, hb2, Bool.and_true]; rfl
      · exact hb3
      · rw [h1.2.1, ← hb4, h1.1]

theorem executeResults_append (l m : List Event) :
    executeResults (l ++ m) = executeResults l ++ executeResults m := by
  simp [executeResults, List.filterMap_append]

theorem executeResults_of_not_execute (evs : List Event)
    (h : evs.all (fun e => !e.isExecute) = true) : executeResults evs = [] := by
  induction evs with
  | nil => rfl
  | cons e evs ih =>
    rw [List.all_cons, Bool.and_eq_true] at h
    have h1 : e.executeResult = none := by
      have h2 := h.1
      cases e <;> first
        | rfl
        | (simp [Event.isExecute] at h2)
    simp only [executeResults, List.filterMap_cons, h1]
    exact ih h.2

theorem executes_eq_map (evs : List Event) :
    executes evs = (executeResults evs).map Prod.fst := by
  induction evs with
  | nil => rfl
  | cons e evs ih =>
    cases e <;> simp_all [executes, executeResults, Event.executed, Event.executeResult]

/-- C9 (as amended): (1) for an invocation of the callback whose first `find.Execute`
reports no match (and returns no error), whatever the `verbose` flag: the callback returns
nil, so that the walk goes on with the next entry; `Execute` is called exactly once; the
lines printed are the debug line "Document Open: ..." when the `debug` flag is set,
followed by no result line when `only-hit` is true and by exactly one result line, the
simple result (`rel`, "NO HIT"), when `only-hit` is false. (2) In every invocation, a
simple result that is printed has the status "HIT" and the first `Execute` reported a
match, or has the status "NO HIT", the first `Execute` reported no match and `only-hit` is
false; the two statuses differ. (3) `only-hit` is true by default. -/
theorem no_hit_reporting {σ : Type} (W : World σ) (args : Args) (fuel : Nat)
    (rootDir : GoString) (v : Visit) (s : σ) :
    ((executeResults (walkFn W args fuel rootDir v s).events).head? = some (false, none) →
      (walkFn W args fuel rootDir v s).ret = some none ∧
      (∀ vs, walkDir (walkFn W args fuel rootDir) (v :: vs) s =
        (walkDir (walkFn W args fuel rootDir) vs (walkFn W args fuel rootDir v s).eng).after
          (walkFn W args fuel rootDir v s).events) ∧
      executeResults (walkFn W args fuel rootDir v s).events = [(false, none)] ∧
      outputs (walkFn W args fuel rootDir v s).events =
        debugOutput W.printTable args (W.filepathAbs v.path) ++
          (if args.onlyHit then []
           else [(.simple ⟨W.filepathRel rootDir (W.filepathAbs v.path), lit "NO HIT"⟩,
            simpleLine W.printTable args
              ⟨W.filepathRel rootDir (W.filepathAbs v.path), lit "NO HIT"⟩)])) ∧
    (∀ r line, (Printed.simple r, line) ∈ outputs (walkFn W args fuel rootDir v s).events →
      (r.Text = lit "HIT" ∧
        (executes (walkFn W args fuel rootDir v s).events).head? = some true) ∨
      (r.Text = lit "NO HIT" ∧
        (executes (walkFn W args fuel rootDir v s).events).head? = some false ∧
        args.onlyHit = false)) ∧
    lit "HIT" ≠ lit "NO HIT" ∧
    defaultArgs.onlyHit = true := by
  refine ⟨?_, ?_, by decide, rfl⟩
  · intro hfirst
    have hne : executes (walkFn W args fuel rootDir v s).events ≠ [] := by
      intro h0
      rw [executes_eq_map] at h0
      have h1 : executeResults (walkFn W args fuel rootDir v s).events = [] :=
        List.map_eq_nil_iff.mp h0
      rw [h1] at hfirst
      cases hfirst
    obtain ⟨rng, fnd, s2, pre, post, hev, hpre, hout, hpost, hret⟩ :=
      walkFn_search_split W args fuel rootDir v s hne
    have hpost1 : executeResults post = [] ∧ outputs post = [] := by
      rcases hpost with hp | ⟨d, hp⟩ <;> (rw [hp]; exact ⟨rfl, rfl⟩)
    have hnil : (walkFn W args fuel rootDir v s).ret = some none ∧
        executeResults (walkFn W args fuel rootDir v s).events = [(false, none)] ∧
        outputs (walkFn W args fuel rootDir v s).events =
          debugOutput W.printTable args (W.filepathAbs v.path) ++
            (if args.onlyHit then []
             else [(.simple ⟨W.filepathRel rootDir (W.filepathAbs v.path), lit "NO HIT"⟩,
              simpleLine W.printTable args
                ⟨W.filepathRel rootDir (W.filepathAbs v.path), lit "NO HIT"⟩)]) := by
      rw [hev, executeResults_append, executeResults_append,
        executeResults_of_not_execute pre hpre, hpost1.1, List.nil_append,
        List.append_nil] at hfirst
      rw [hret, hev, executeResults_append, executeResults_append,
        executeResults_of_not_execute pre hpre, hpost1.1, List.nil_append, List.append_nil,
        outputs_append, outputs_append, hout, hpost1.2, List.append_nil]
      rcases search_view W args fuel rootDir (W.filepathAbs v.path) rng fnd s2 with
        ⟨b, err, s3, hsv, _, _⟩ | ⟨b, s3, hsv, hr, _⟩
      · rw [hsv] at hfirst
        simp [executeResults, Event.executeResult] at hfirst
      · rw [hsv] at hfirst ⊢
        rw [hr]
        have hb : b = false := by
          simpa [executeResults, Event.executeResult] using hfirst
        subst hb
        obtain ⟨h1, h2⟩ := report_no_match W args fuel
          (W.filepathRel rootDir (W.filepathAbs v.path)) rng fnd s3
        have hsplit : ∀ evs : List Event,
            executeResults (Event.execute fnd false none :: evs) =
              (false, none) :: executeResults evs ∧
            outputs (Event.execute fnd false none :: evs) = outputs evs :=
          fun _ => ⟨rfl, rfl⟩
        rw [(hsplit _).1, (hsplit _).2, h1, h2]
        refine ⟨rfl, ?_, ?_⟩
        · cases args.onlyHit <;> rfl
        · cases args.onlyHit <;> rfl
    refine ⟨hnil.1, ?_, hnil.2⟩
    intro vs
    simp only [walkDir, hnil.1]
  · intro r line hmem
    by_cases hne : executes (walkFn W args fuel rootDir v s).events = []
    · have := walkFn_outputs_without_execute W args fuel rootDir v s hne _ hmem
      cases this
    · obtain ⟨rng, fnd, s2, hout, hex, _, _⟩ := walkFn_search_view W args fuel rootDir v s hne
      rw [hout, List.mem_append] at hmem
      rw [hex]
      rcases hmem with hmem | hmem
      · have := mem_debugOutput _ _ _ _ hmem
        cases this
      · rcases search_view W args fuel rootDir (W.filepathAbs v.path) rng fnd s2 with
          ⟨b, err, s3, hev, _, _⟩ | ⟨b, s3, hev, _, _⟩
        · rw [hev] at hmem
          simp [outputs, Event.output] at hmem
        · rw [hev] at hmem ⊢
          have hsplit : ∀ evs : List Event, executes (Event.execute fnd b none :: evs) =
              b :: executes evs ∧
              outputs (Event.execute fnd b none :: evs) = outputs evs :=
            fun _ => ⟨rfl, rfl⟩
          rw [(hsplit _).2] at hmem
          rw [(hsplit _).1]
          cases b with
          | false =>
            right
            rw [(report_no_match W args fuel _ rng fnd s3).2] at hmem
            cases ho : args.onlyHit with
            | true =>
              rw [ho] at hmem
              simp [outputs] at hmem
            | false =>
              rw [ho] at hmem
              simp only [Bool.false_eq_true, if_false, outputs, List.filterMap_cons,
                Event.output, List.filterMap_nil, List.mem_singleton, Prod.mk.injEq,
                Printed.simple.injEq] at hmem
              exact ⟨by rw [hmem.1], rfl, rfl⟩
          | true =>
            left
            cases hv : args.verbose with
            | false =>
              rw [(report_match_plain W args fuel _ rng fnd s3 hv).2] at hmem
              simp only [outputs, List.filterMap_cons, Event.output, List.filterMap_nil,
                List.mem_singleton, Prod.mk.injEq, Printed.simple.injEq] at hmem
              exact ⟨by rw [hmem.1], rfl⟩
            | true =>
              rw [report_match_verbose W args fuel _ rng fnd s3 hv] at hmem
              obtain ⟨d, hd⟩ := detailLoop_outputs_detail W args _ rng fnd fuel true s3 _ hmem
              cases hd

/-- Witness of `no_hit_reporting`: the document of the sample walk holds no match and
`only-hit` is off; one "NO HIT" line is printed. -/
theorem no_hit_reporting_witness :
    (executeResults (walkFn (scriptWorld (sampleScript 0))
        { defaultArgs with text := lit "a", onlyHit := false }
        5 (lit "C:\\w") sampleDoc 0).events).head? = some (false, none) ∧
    (walkFn (scriptWorld (sampleScript 0)) { defaultArgs with text := lit "a", onlyHit := false }
        5 (lit "C:\\w") sampleDoc 0).ret = some none ∧
    executeResults (walkFn (scriptWorld (sampleScript 0))
        { defaultArgs with text := lit "a", onlyHit := false }
        5 (lit "C:\\w") sampleDoc 0).events = [(false, none)] :=
  ⟨by decide,
    ((no_hit_reporting (scriptWorld (sampleScript 0))
      { defaultArgs with text := lit "a", onlyHit := false } 5 (lit "C:\\w") sampleDoc 0).1
      (by decide)).1,
    ((no_hit_reporting (scriptWorld (sampleScript 0))
      { defaultArgs with text := lit "a", onlyHit := false } 5 (lit "C:\\w") sampleDoc 0).1
      (by decide)).2.2.1⟩

/-- C9 (as stated) fails: with `only-hit` true and the `debug` flag set, a document whose
first `Execute` reports no match still gets a line on standard output, the debug line. -/
theorem no_hit_with_debug_one_line :
    (executeResults (walkFn (scriptWorld (sampleScript 0))
        { defaultArgs with text := lit "a", debug := true }
        5 (lit "C:\\w") sampleDoc 0).events).head? = some (false, none) ∧
    ({ defaultArgs with text := lit "a", debug := true } : Args).onlyHit = true ∧
    outputs (walkFn (scriptWorld (sampleScript 0))
        { defaultArgs with text := lit "a", debug := true }
        5 (lit "C:\\w") sampleDoc 0).events =
      [(.debug, lit "Document Open: C:\\w\\a.docx")] ∧
    outputs (walkFn (scriptWorld (sampleScript 0))
        { defaultArgs with text := lit "a", debug := true }
        5 (lit "C:\\w") sampleDoc 0).events ≠ [] := by
  refine ⟨?_, ?_, ?_, ?_⟩ <;> decide

/-! ## C10: the first failing callback ends the walk -/

theorem stops_after {σ : Type} (evs : List Event) (o : Outcome σ) (h : StopsAtFailure o) :
    StopsAtFailure (o.after evs) := by
  intro e he
  obtain ⟨before, f, h1, h2⟩ := h e he
  exact ⟨evs ++ before, f, by rw [after_events, h1, List.append_assoc], h2⟩

theorem stops_check {σ : Type} (procName : GoString) (ev : Option GoError → Event)
    (r : Option GoError × σ) (k : σ → Outcome σ)
    (hf : ∀ err, (ev (some err)).isQuiet = false)
    (hk : ∀ s, StopsAtFailure (k s)) : StopsAtFailure (check procName ev r k) := by
  simp only [check]
  split
  · intro e _
    exact ⟨[], _, rfl, hf _⟩
  · exact stops_after _ _ (hk _)

theorem stops_detailLoop {σ : Type} (W : World σ) (args : Args) (relPath : GoString)
    (rng fnd : Nat) (fuel : Nat) (found : Bool) (s : σ) :
    StopsAtFailure (detailLoop W args relPath rng fnd fuel found s) := by
  induction fuel generalizing found s with
  | zero =>
    cases found <;> (intro e he; simp [detailLoop] at he)
  | succ n ih =>
    cases found with
    | false => intro e he; simp [detailLoop] at he
    | true =>
      simp only [detailLoop, outDetail_eq]
      rcases hx : W.execute fnd (newDetailResult W relPath rng s).2.1 with ⟨⟨b, e⟩, s2⟩
      cases e with
      | some err =>
        intro e _
        exact ⟨_, _, rfl, rfl⟩
      | none => exact stops_after _ _ (ih b s2)

theorem stops_report {σ : Type} (W : World σ) (args : Args) (fuel : Nat)
    (relPath : GoString) (rng fnd : Nat) (found : Bool) (s : σ) :
    StopsAtFailure (report W args fuel relPath rng fnd found s) := by
  simp only [report, outSimple_eq]
  split
  · split <;> (intro e he; simp at he)
  · split
    · intro e he; simp at he
    · exact stops_detailLoop W args relPath rng fnd fuel found s

theorem stops_search {σ : Type} (W : World σ) (args : Args) (fuel : Nat)
    (rootDir absPath : GoString) (rng fnd : Nat) (s : σ) :
    StopsAtFailure (search W args fuel rootDir absPath rng fnd s) := by
  simp only [search]
  rcases hx : W.execute fnd s with ⟨⟨b, e⟩, s1⟩
  cases e with
  | some err =>
    intro e _
    exact ⟨[], _, rfl, rfl⟩
  | none => exact stops_after _ _ (stops_report W args fuel _ rng fnd b s1)

theorem stops_setPattern {σ : Type} (W : World σ) (args : Args) (fuel : Nat)
    (rootDir absPath : GoString) (rng fnd : Nat) (s : σ) :
    StopsAtFailure (setPattern W args fuel rootDir absPath rng fnd s) := by
  have hrest : ∀ s1, StopsAtFailure (check (lit "find.Text()") (.text fnd args.text)
      (W.setText fnd args.text s1) (search W args fuel rootDir absPath rng fnd)) :=
    fun s1 => stops_check _ _ _ _ (fun _ => rfl) (stops_search W args fuel rootDir absPath rng fnd)
  simp only [setPattern]
  split
  · exact stops_check _ _ _ _ (fun _ => rfl) hrest
  · exact hrest s

theorem stops_configure {σ : Type} (W : World σ) (args : Args) (fuel : Nat)
    (rootDir absPath : GoString) (rng fnd : Nat) (s : σ) :
    StopsAtFailure (configure W args fuel rootDir absPath rng fnd s) := by
  simp only [configure]
  refine stops_check _ _ _ _ (fun _ => rfl) (fun s1 => ?_)
  refine stops_check _ _ _ _ (fun _ => rfl) (fun s2 => ?_)
  refine stops_check _ _ _ _ (fun _ => rfl) (fun s3 => ?_)
  exact stops_check _ _ _ _ (fun _ => rfl) (stops_setPattern W args fuel rootDir absPath rng fnd)

theorem stops_prepare {σ : Type} (W : World σ) (args : Args) (fuel : Nat)
    (rootDir absPath : GoString) (doc : Nat) (s : σ) :
    StopsAtFailure (prepare W args fuel rootDir absPath doc s) := by
  simp only [prepare]
  split
  · intro e _
    exact ⟨[], _, rfl, rfl⟩
  · refine stops_after _ _ ?_
    split
    · intro e _
      exact ⟨[], _, rfl, rfl⟩
    · exact stops_after _ _ (stops_configure W args fuel rootDir absPath _ _ _)

theorem stops_openBody {σ : Type} (W : World σ) (args : Args) (fuel : Nat)
    (rootDir absPath : GoString) (doc : Nat) (s : σ) :
    StopsAtFailure (openBody W args fuel rootDir absPath doc s) := by
  simp only [openBody]
  exact stops_after _ _ (stops_prepare W args fuel rootDir absPath doc s)

/-- A callback invocation that returns an error ends with the failed call that caused it,
followed at most by the release of the document: nothing is printed from the failed call
on. -/
theorem walkFn_stops {σ : Type} (W : World σ) (args : Args) (fuel : Nat)
    (rootDir : GoString) (v : Visit) (s : σ) (e : GoError)
    (h : (walkFn W args fuel rootDir v s).ret = some (some e)) :
    ∃ before f tail, (walkFn W args fuel rootDir v s).events = before ++ f :: tail ∧
      f.isQuiet = false ∧ outputs (f :: tail) = [] ∧
      (tail = [] ∨ ∃ d, tail = [.docRelease d]) := by
  have hout : ∀ f : Event, f.isQuiet = false → f.output = none := by
    intro f hf
    cases f <;> first
      | rfl
      | (simp [Event.isQuiet, Event.wrappedFailure, Event.passedFailure] at hf)
  rcases walkFn_shape W args fuel rootDir v s with h1 | ⟨doc, e1, s1, _, _, h1, _⟩ |
    ⟨doc, s1, _, _, h1 | ⟨r, h1⟩⟩
  · rw [h1.2.2] at h
    have hv : v.err = some e := by simpa using h
    refine ⟨[], _, [], by rw [h1.1]; rfl, ?_, ?_, Or.inl rfl⟩
    · rw [hv]; rfl
    · rw [hv]; rfl
  · refine ⟨[.visit v.path v.isDir none], .docOpen (W.filepathAbs v.path) doc (some e1), [],
      ?_, rfl, rfl, Or.inl rfl⟩
    rw [h1]; rfl
  · rw [h1.2.1] at h
    cases h
  · rw [h1.2.1] at h
    have hr : r = some e := by simpa using h
    rw [hr] at h1
    obtain ⟨before, f, hb, hf⟩ := stops_openBody W args fuel rootDir _ doc s1 e h1.1
    refine ⟨.visit v.path v.isDir none :: .docOpen (W.filepathAbs v.path) doc none :: before,
      f, [.docRelease doc], ?_, hf, ?_, Or.inr ⟨doc, rfl⟩⟩
    · rw [h1.2.2.2, hb]
      simp
    · have h2 := hout f hf
      simp only [outputs, List.filterMap_cons, h2]
      rfl

theorem walkDir_cons_stop {σ : Type} (fn : Visit → σ → Outcome σ) (v : Visit)
    (vs : List Visit) (s : σ) (h : (fn v s).ret ≠ some none) :
    walkDir fn (v :: vs) s = fn v s := by
  cases hr : (fn v s).ret with
  | none => simp [walkDir, hr]
  | some r =>
    cases r with
    | none => exact absurd hr h
    | some e => simp [walkDir, hr]

theorem walkDir_cons_continue {σ : Type} (fn : Visit → σ → Outcome σ) (v : Visit)
    (vs : List Visit) (s : σ) (h : (fn v s).ret = some none) :
    walkDir fn (v :: vs) s = (walkDir fn vs (fn v s).eng).after (fn v s).events := by
  simp [walkDir, h]

theorem walkDir_stops {σ : Type} (fn : Visit → σ → Outcome σ) (pre : List Visit) (v : Visit)
    (post : List Visit) (s : σ) (hpre : (walkDir fn pre s).ret = some none)
    (hv : (fn v (walkDir fn pre s).eng).ret ≠ some none) :
    (walkDir fn (pre ++ v :: post) s).ret = (fn v (walkDir fn pre s).eng).ret ∧
    (walkDir fn (pre ++ v :: post) s).eng = (fn v (walkDir fn pre s).eng).eng ∧
    (walkDir fn (pre ++ v :: post) s).events =
      (walkDir fn pre s).events ++ (fn v (walkDir fn pre s).eng).events := by
  induction pre generalizing s with
  | nil =>
    have hv1 : (fn v s).ret ≠ some none := hv
    rw [List.nil_append, walkDir_cons_stop fn v post s hv1]
    exact ⟨rfl, rfl, rfl⟩
  | cons p pre ih =>
    have hp : (fn p s).ret = some none := by
      by_contra hc
      rw [walkDir_cons_stop fn p pre s hc] at hpre
      exact hc hpre
    rw [walkDir_cons_continue fn p pre s hp] at hpre hv ⊢
    rw [List.cons_append, walkDir_cons_continue fn p _ s hp]
    simp only [after_ret, after_eng, after_events] at hpre hv ⊢
    obtain ⟨i1, i2, i3⟩ := ih (fn p s).eng hpre hv
    exact ⟨i1, i2, by rw [i3, List.append_assoc]⟩

theorem walkDir_all_nil {σ : Type} (fn : Visit → σ → Outcome σ) (vs : List Visit) (s : σ)
    (h : ∀ r ∈ callbackResults fn vs s, r = some none) : (walkDir fn vs s).ret = some none := by
  induction vs generalizing s with
  | nil => rfl
  | cons v vs ih =>
    have hv : (fn v s).ret = some none := h _ (by simp [callbackResults])
    simp only [walkDir, hv, after_ret]
    apply ih
    intro r hr
    apply h
    simp only [callbackResults, hv, List.mem_cons]
    exact Or.inr hr

/-- The walk once `word.Documents()` has succeeded: the first failing callback ends it. -/
theorem walk_aborts_of_documents {σ : Type} (W : World σ) (args : Args) (fuel : Nat) (s s4 : σ)
    (hdocs : W.documents (W.silent false (W.newGord (W.initGord s))) = (none, s4)) :
    (∀ pre v post e, W.walk (abs W args.dir) = pre ++ v :: post →
      (walkDir (walkFn W args fuel (abs W args.dir)) pre s4).ret = some none →
      (walkFn W args fuel (abs W args.dir) v
        (walkDir (walkFn W args fuel (abs W args.dir)) pre s4).eng).ret = some (some e) →
      (run W args fuel s).ret = some (some e) ∧
      (run W args fuel s).events =
        [.initGord, .newGord, .silent false, .documents none] ++
          (walkDir (walkFn W args fuel (abs W args.dir)) pre s4).events ++
          (walkFn W args fuel (abs W args.dir) v
            (walkDir (walkFn W args fuel (abs W args.dir)) pre s4).eng).events ++
          [.wordRelease, .quit] ∧
      ∃ before f tail,
        (walkFn W args fuel (abs W args.dir) v
          (walkDir (walkFn W args fuel (abs W args.dir)) pre s4).eng).events
            = before ++ f :: tail ∧
        f.isQuiet = false ∧
        (tail = [] ∨ ∃ d, tail = [.docRelease d]) ∧
        outputs (run W args fuel s).events =
          outputs (walkDir (walkFn W args fuel (abs W args.dir)) pre s4).events ++
            outputs before) ∧
    ((∀ r ∈ callbackResults (walkFn W args fuel (abs W args.dir)) (W.walk (abs W args.dir)) s4,
        r = some none) →
      (run W args fuel s).ret = some none) := by
  constructor
  · intro pre v post e hwalk hpre hv
    have hne : (walkFn W args fuel (abs W args.dir) v
        (walkDir (walkFn W args fuel (abs W args.dir)) pre s4).eng).ret ≠ some none := by
      rw [hv]; simp
    obtain ⟨w1, _, w3⟩ := walkDir_stops (walkFn W args fuel (abs W args.dir)) pre v post s4
      hpre hne
    rw [← hwalk, hv] at w1
    rw [← hwalk] at w3
    have hret : (run W args fuel s).ret = some (some e) := by
      simp only [run, hdocs, after_ret, w1]
    have hev : (run W args fuel s).events =
        [.initGord, .newGord, .silent false, .documents none] ++
          (walkDir (walkFn W args fuel (abs W args.dir)) pre s4).events ++
          (walkFn W args fuel (abs W args.dir) v
            (walkDir (walkFn W args fuel (abs W args.dir)) pre s4).eng).events ++
          [.wordRelease, .quit] := by
      simp only [run, hdocs, after_ret, w1, after_events, w3]
      simp
    refine ⟨hret, hev, ?_⟩
    obtain ⟨before, f, tail, h1, h2, h3, h4⟩ := walkFn_stops W args fuel (abs W args.dir) v
      (walkDir (walkFn W args fuel (abs W args.dir)) pre s4).eng e hv
    refine ⟨before, f, tail, h1, h2, h4, ?_⟩
    rw [hev, h1]
    simp only [outputs_append]
    have h5 : outputs (f :: tail) = [] := h3
    have h6 : outputs (before ++ f :: tail) = outputs before := by
      rw [outputs_append, h5, List.append_nil]
    rw [← outputs_append before, h6]
    have h7 : outputs [Event.initGord, Event.newGord, Event.silent false,
      Event.documents none] = [] := rfl
    have h8 : outputs [Event.wordRelease, Event.quit] = [] := rfl
    rw [h7, h8, List.nil_append, List.append_nil]
  · intro hall
    have hw := walkDir_all_nil _ _ _ hall
    simp only [run, hdocs, after_ret, hw]

/-- C10 (as amended): (1) let `word.Documents()` have succeeded. If the callbacks for the
entries before `v` all returned nil and the callback for `v` returns an error, then `run`
returns that (non-nil) error; the events of `run` are the start of the engine, the events
of the entries before `v`, the events of the callback for `v`, and the two deferred
releases, so nothing of a later entry happens: none is visited, opened or printed; the
callback for `v` ends with the failed call, followed at most by the release of the
document, and the lines printed by `run` are exactly the lines of the entries before `v`
followed by the lines the callback for `v` printed before the failed call. If every
callback invocation returns nil, `run` returns nil. (2) When `word.Documents()` fails with
an error, `run` returns that error wrapped under the name "word.Documents()", and its
events are the start of the engine, the failed call and the two deferred releases: no
callback is invoked, nothing is opened or printed. -/
theorem walk_aborts {σ : Type} (W : World σ) (args : Args) (fuel : Nat) (s : σ) :
    (∀ s4, W.documents (W.silent false (W.newGord (W.initGord s))) = (none, s4) →
      (∀ pre v post e, W.walk (abs W args.dir) = pre ++ v :: post →
        (walkDir (walkFn W args fuel (abs W args.dir)) pre s4).ret = some none →
        (walkFn W args fuel (abs W args.dir) v
          (walkDir (walkFn W args fuel (abs W args.dir)) pre s4).eng).ret = some (some e) →
        (run W args fuel s).ret = some (some e) ∧
        (run W args fuel s).events =
          [.initGord, .newGord, .silent false, .documents none] ++
            (walkDir (walkFn W args fuel (abs W args.dir)) pre s4).events ++
            (walkFn W args fuel (abs W args.dir) v
              (walkDir (walkFn W args fuel (abs W args.dir)) pre s4).eng).events ++
            [.wordRelease, .quit] ∧
        ∃ before f tail,
          (walkFn W args fuel (abs W args.dir) v
            (walkDir (walkFn W args fuel (abs W args.dir)) pre s4).eng).events
              = before ++ f :: tail ∧
          f.isQuiet = false ∧
          (tail = [] ∨ ∃ d, tail = [.docRelease d]) ∧
          outputs (run W args fuel s).events =
            outputs (walkDir (walkFn W args fuel (abs W args.dir)) pre s4).events ++
              outputs before) ∧
      ((∀ r ∈ callbackResults (walkFn W args fuel (abs W args.dir)) (W.walk (abs W args.dir)) s4,
          r = some none) →
        (run W args fuel s).ret = some none)) ∧
    (∀ e s4, W.documents (W.silent false (W.newGord (W.initGord s))) = (some e, s4) →
      (run W args fuel s).ret = some (some (genErr (lit "word.Documents()") e)) ∧
      (run W args fuel s).eng = W.quit (W.wordRelease s4) ∧
      (run W args fuel s).events =
        [.initGord, .newGord, .silent false, .documents (some e), .wordRelease, .quit]) := by
  refine ⟨fun s4 hdocs => walk_aborts_of_documents W args fuel s s4 hdocs, ?_⟩
  intro e s4 hdocs
  refine ⟨?_, ?_, ?_⟩ <;> simp [run, hdocs]

/-- Witness of `walk_aborts`: in the walk `abortVisits` the first document is reported as
a hit, `doc.AllRange()` fails on the second, and a third follows: `run` returns the
wrapped error, the only line printed is that of the first document, and the third
document is not visited. -/
theorem walk_aborts_witness :
    (scriptWorld abortScript).documents 0 = (none, 0) ∧
    (scriptWorld abortScript).walk (abs (scriptWorld abortScript)
        ({ defaultArgs with text := lit "a" } : Args).dir) =
      abortVisits.take 2 ++ { path := lit "C:\\w\\bb.docx", isDir := false, err := none } ::
        [{ path := lit "C:\\w\\ccc.docx", isDir := false, err := none }] ∧
    (run (scriptWorld abortScript) { defaultArgs with text := lit "a" } 3 0).ret =
      some (some (genErr (lit "doc.AllRange()") (.external (lit "busy")))) ∧
    outputs (run (scriptWorld abortScript) { defaultArgs with text := lit "a" } 3 0).events =
      [(.simple ⟨lit "a.docx", lit "HIT"⟩, lit "a.docx: HIT")] ∧
    Event.visit (lit "C:\\w\\ccc.docx") false none ∉
      (run (scriptWorld abortScript) { defaultArgs with text := lit "a" } 3 0).events :=
  ⟨rfl, by decide,
    (((walk_aborts (scriptWorld abortScript) { defaultArgs with text := lit "a" } 3 0).1 0 rfl).1
      (abortVisits.take 2) { path := lit "C:\\w\\bb.docx", isDir := false, err := none }
      [{ path := lit "C:\\w\\ccc.docx", isDir := false, err := none }]
      (genErr (lit "doc.AllRange()") (.external (lit "busy")))
      (by decide) (by decide) (by decide)).1,
    by decide, by decide⟩

/-- C10 (as stated) fails in its last sentence: when `word.Documents()` fails no callback
is invoked at all, so none returns an error, and yet `run` returns an error. -/
theorem run_fails_without_callback :
    (run (scriptWorld { sampleScript 1 with failDocuments := some (.external (lit "no word")) })
      { defaultArgs with text := lit "a" } 3 0).events =
      [.initGord, .newGord, .silent false, .documents (some (.external (lit "no word"))),
        .wordRelease, .quit] ∧
    (run (scriptWorld { sampleScript 1 with failDocuments := some (.external (lit "no word")) })
      { defaultArgs with text := lit "a" } 3 0).ret =
      some (some (genErr (lit "word.Documents()") (.external (lit "no word")))) ∧
    (run (scriptWorld { sampleScript 1 with failDocuments := some (.external (lit "no word")) })
      { defaultArgs with text := lit "a" } 3 0).ret ≠ some none := by
  refine ⟨?_, ?_, ?_⟩ <;> decide

/-! ## C5: the plain-text lines -/

theorem natDigitsAux_eq (n : Nat) : ∀ fuel acc, n < fuel →
    natDigitsAux fuel n acc = natDigits n ++ acc := by
  induction n using Nat.strong_induction_on with
  | _ n ih =>
    intro fuel acc hfuel
    cases fuel with
    | zero => omega
    | succ f =>
      by_cases h10 : n < 10
      · simp [natDigitsAux, natDigits, h10]
      · have hdiv : n / 10 < n := by omega
        have h1 : natDigits n = natDigits (n / 10) ++ [48 + n % 10] := by
          simp only [natDigits, natDigitsAux, h10, if_false]
          rw [ih (n / 10) hdiv n _ hdiv]
          rfl
        simp only [natDigitsAux, h10, if_false]
        rw [ih (n / 10) hdiv f _ (by omega), h1]
        simp

theorem natDigits_small (n : Nat) (h : n < 10) : natDigits n = [48 + n] := by
  simp [natDigits, natDigitsAux, h]

theorem natDigits_step (n : Nat) (h : 10 ≤ n) :
    natDigits n = natDigits (n / 10) ++ [48 + n % 10] := by
  have h10 : ¬ n < 10 := by omega
  simp only [natDigits, natDigitsAux, h10, if_false]
  rw [natDigitsAux_eq (n / 10) n _ (by omega)]
  rfl

theorem natDigits_length_pos (n : Nat) : 1 ≤ (natDigits n).length := by
  by_cases h : n < 10
  · rw [natDigits_small n h]; simp
  · rw [natDigits_step n (by omega)]; simp

theorem natDigits_length_three (n : Nat) (h : 100 ≤ n) : 3 ≤ (natDigits n).length := by
  rw [natDigits_step n (by omega), natDigits_step (n / 10) (by omega)]
  have := natDigits_length_pos (n / 10 / 10)
  simp only [List.length_append, List.length_singleton]
  omega

theorem padLeft_of_length (w : Nat) (s : GoString) (h : w ≤ s.length) : padLeft w s = s := by
  simp [padLeft, Nat.sub_eq_zero_of_le h]

/-- A number with at least three characters is not padded by `%3d`. -/
theorem padLeft_itoa (i : Int) (h : 100 ≤ i ∨ i ≤ -10) : padLeft 3 (itoa i) = itoa i := by
  apply padLeft_of_length
  rcases h with h | h
  · have h1 : ¬ i < 0 := by omega
    simp only [itoa, h1, if_false]
    exact natDigits_length_three _ (by omega)
  · have h1 : i < 0 := by omega
    simp only [itoa, h1, if_true, List.length_cons]
    have h2 : 10 ≤ i.natAbs := by omega
    rw [natDigits_step _ h2]
    have := natDigits_length_pos (i.natAbs / 10)
    simp only [List.length_append, List.length_singleton]
    omega

theorem quoteLoop_plain (tbl : Nat → Bool) (s : GoString) :
    ∀ fuel, s.length ≤ fuel → s.all plainByte = true → quoteLoop tbl fuel s = s := by
  induction s with
  | nil => intro fuel _ _; cases fuel <;> rfl
  | cons b rest ih =>
    intro fuel hfuel hall
    cases fuel with
    | zero => simp at hfuel
    | succ f =>
      rw [List.all_cons, Bool.and_eq_true] at hall
      have hb := hall.1
      simp only [plainByte, Bool.and_eq_true, decide_eq_true_eq, bne_iff_ne, ne_eq] at hb
      obtain ⟨⟨⟨hb1, hb2⟩, hb3⟩, hb4⟩ := hb
      have h80 : ¬ b ≥ 0x80 := by omega
      have hne : ¬ (b = runeError) := by simp only [runeError]; omega
      have hesc : appendEscapedRune tbl b = [b] := by
        have hq : ¬ (b = 34 ∨ b = 92) := by omega
        have hp : isPrint tbl b = true := by
          have : b ≤ 0xFF := by omega
          simp [isPrint, this, hb1, hb2]
        have hv : validRune b = true := by
          simp only [validRune, Bool.or_eq_true, decide_eq_true_eq]
          left; omega
        have hu : utf8Bytes b = [b] := by
          have : b < 0x80 := by omega
          simp [utf8Bytes, this]
        simp [appendEscapedRune, hq, hp, encodeRune, hv, hu]
      simp only [quoteLoop, h80, if_false, hne, and_false, hesc, List.drop_succ_cons,
        List.drop_zero]
      rw [ih f (by simpa using hfuel) hall.2]
      rfl

/-- A text of printable ASCII without double quote and backslash is quoted by enclosing
it in double quotes. -/
theorem quote_plain (tbl : Nat → Bool) (s : GoString) (h : s.all plainByte = true) :
    quote tbl s = 34 :: (s ++ [34]) := by
  simp only [quote]
  rw [quoteLoop_plain tbl s s.length (le_refl _) h]

theorem detailLine_plain (tbl : Nat → Bool) (args : Args) (r : DetailResult)
    (h : args.json = false) :
    detailLine tbl args r = r.Path ++ lit " (" ++ padLeft 3 (itoa r.Page) ++ lit "," ++
      padLeft 3 (itoa r.Line) ++ lit "): " ++ quote tbl r.Text := by
  simp [detailLine, h, sprintf, sprintfAux, lit, utf8Bytes, fmtVerb, padLeft]

theorem simpleLine_plain (tbl : Nat → Bool) (args : Args) (r : SimpleResult)
    (h : args.json = false) :
    simpleLine tbl args r = r.Path ++ lit ": " ++ r.Text := by
  simp [simpleLine, h, sprintf, sprintfAux, lit, utf8Bytes, fmtVerb, padLeft]

/-- C5 (as amended): with JSON output off, (1) the line `outSimple` prints is the path,
then ": ", then the status text; (2) the line `outDetail` prints is the path, a space, an
opening parenthesis, the decimal page number padded on the left with spaces to at least
three characters, a comma, the decimal line number padded likewise, "): ", and the
matched text as a Go quoted string (`strconv.Quote`); (3) when the page and line numbers
have at least three characters each and the text consists of printable ASCII other than
the double quote and the backslash, that line is exactly the path, " (", the page number,
",", the line number, "): " and the text between double quotes. -/
theorem plain_lines (tbl : Nat → Bool) (args : Args) (h : args.json = false) :
    (∀ r : SimpleResult, outSimple tbl args r =
      (none, [.println (.simple r) (r.Path ++ lit ": " ++ r.Text)])) ∧
    (∀ r : DetailResult, outDetail tbl args r =
      (none, [.println (.detail r) (r.Path ++ lit " (" ++ padLeft 3 (itoa r.Page) ++ lit ","
        ++ padLeft 3 (itoa r.Line) ++ lit "): " ++ quote tbl r.Text)])) ∧
    (∀ r : DetailResult, (100 ≤ r.Page ∨ r.Page ≤ -10) → (100 ≤ r.Line ∨ r.Line ≤ -10) →
      r.Text.all plainByte = true →
      outDetail tbl args r = (none, [.println (.detail r) (specDetailLine r)])) := by
  refine ⟨?_, ?_, ?_⟩
  · intro r
    rw [outSimple_eq, simpleLine_plain tbl args r h]
  · intro r
    rw [outDetail_eq, detailLine_plain tbl args r h]
  · intro r hp hl ht
    rw [outDetail_eq, detailLine_plain tbl args r h, padLeft_itoa _ hp, padLeft_itoa _ hl,
      quote_plain tbl _ ht]
    simp [specDetailLine]

/-- Witness of `plain_lines`: page 120, line 345, text "hit". -/
theorem plain_lines_witness :
    defaultArgs.json = false ∧
    outDetail (fun _ => true) defaultArgs ⟨lit "a.docx", 120, 345, lit "hit"⟩ =
      (none, [.println (.detail ⟨lit "a.docx", 120, 345, lit "hit"⟩)
        (specDetailLine ⟨lit "a.docx", 120, 345, lit "hit"⟩)]) :=
  ⟨rfl, (plain_lines (fun _ => true) defaultArgs rfl).2.2 ⟨lit "a.docx", 120, 345, lit "hit"⟩
    (by decide) (by decide) (by decide)⟩

/-- C5 (as stated) fails: for page 1, line 2 and the text "x" the line of `outDetail` is
`a.docx (  1,  2): "x"`, with the numbers padded to three characters, not
`a.docx (1,2): "x"`; and for the text `"` the line ends in the escaped form `"\""`, not in
the text between double quotes. -/
theorem detail_line_padded_and_escaped :
    outDetail (fun _ => true) defaultArgs ⟨lit "a.docx", 1, 2, lit "x"⟩ =
      (none, [.println (.detail ⟨lit "a.docx", 1, 2, lit "x"⟩)
        (lit "a.docx (  1,  2): \"x\"")]) ∧
    specDetailLine ⟨lit "a.docx", 1, 2, lit "x"⟩ = lit "a.docx (1,2): \"x\"" ∧
    lit "a.docx (  1,  2): \"x\"" ≠ lit "a.docx (1,2): \"x\"" ∧
    outDetail (fun _ => true) defaultArgs ⟨lit "a.docx", 100, 200, lit "\""⟩ =
      (none, [.println (.detail ⟨lit "a.docx", 100, 200, lit "\""⟩)
        (lit "a.docx (100,200): \"\\\"\"")]) ∧
    specDetailLine ⟨lit "a.docx", 100, 200, lit "\""⟩ = lit "a.docx (100,200): \"\"\"" ∧
    lit "a.docx (100,200): \"\\\"\"" ≠ lit "a.docx (100,200): \"\"\"" := by
  refine ⟨?_, ?_, ?_, ?_, ?_, ?_⟩ <;> decide

/-! ## C4: JSON round trip -/

theorem validRune_iff (c : Nat) :
    validRune c = true ↔ (c < 0xD800 ∨ (0xDFFF < c ∧ c ≤ 0x10FFFF)) := by
  simp [validRune]

theorem decodeRune_two (s0 s1 : Nat) (t : List Nat) (h0 : 0xC2 ≤ s0) (h0' : s0 < 0xE0)
    (h1 : 0x80 ≤ s1) (h1' : s1 ≤ 0xBF) :
    decodeRune (s0 :: s1 :: t) = ((s0 % 32) * 64 + s1 % 64, 2) := by
  have a1 : ¬ s0 < 0x80 := by omega
  have a2 : ¬ (s0 < 0xC2 ∨ 0xF4 < s0) := by omega
  have a3 : ¬ s0 = 0xE0 := by omega
  have a4 : ¬ s0 = 0xF0 := by omega
  have a5 : ¬ s0 = 0xED := by omega
  have a6 : ¬ s0 = 0xF4 := by omega
  have a7 : ¬ (s1 < 0x80 ∨ 0xBF < s1) := by omega
  simp only [decodeRune, a1, a2, a3, a4, a5, a6, a7, h0', if_true, if_false, List.length_cons]
  rw [if_neg (by omega)]
  simp

theorem decodeRune_three (s0 s1 s2 : Nat) (t : List Nat) (h0 : 0xE0 ≤ s0) (h0' : s0 < 0xF0)
    (h1 : 0x80 ≤ s1) (h1' : s1 ≤ 0xBF) (hlo : s0 = 0xE0 → 0xA0 ≤ s1)
    (hhi : s0 = 0xED → s1 ≤ 0x9F) (h2 : 0x80 ≤ s2) (h2' : s2 ≤ 0xBF) :
    decodeRune (s0 :: s1 :: s2 :: t) = ((s0 % 16) * 4096 + (s1 % 64) * 64 + s2 % 64, 3) := by
  have a1 : ¬ s0 < 0x80 := by omega
  have a2 : ¬ (s0 < 0xC2 ∨ 0xF4 < s0) := by omega
  have a3 : ¬ s0 < 0xE0 := by omega
  have a4 : ¬ s0 = 0xF0 := by omega
  have a6 : ¬ s0 = 0xF4 := by omega
  have a7 : ¬ (s2 < 0x80 ∨ 0xBF < s2) := by omega
  have a8 : ¬ ((if s0 = 0xE0 then 0xA0 else 0x80) > s1 ∨ (if s0 = 0xED then 0x9F else 0xBF) < s1)
      := by
    by_cases e1 : s0 = 0xE0
    · have := hlo e1
      simp only [e1, if_true, show ¬ ((224 : Nat) = 237) from by decide, if_false]
      omega
    · by_cases e2 : s0 = 0xED
      · have := hhi e2
        simp only [e2, if_true, show ¬ ((237 : Nat) = 224) from by decide, if_false]
        omega
      · simp only [e1, e2, if_false]
        omega
  simp only [gt_iff_lt] at a8
  simp only [decodeRune, a1, a2, a3, a4, a6, a7, a8, h0', if_true, if_false, List.length_cons]
  rw [if_neg (by omega)]
  simp

theorem decodeRune_four (s0 s1 s2 s3 : Nat) (t : List Nat) (h0 : 0xF0 ≤ s0) (h0' : s0 ≤ 0xF4)
    (h1 : 0x80 ≤ s1) (h1' : s1 ≤ 0xBF) (hlo : s0 = 0xF0 → 0x90 ≤ s1)
    (hhi : s0 = 0xF4 → s1 ≤ 0x8F) (h2 : 0x80 ≤ s2) (h2' : s2 ≤ 0xBF)
    (h3 : 0x80 ≤ s3) (h3' : s3 ≤ 0xBF) :
    decodeRune (s0 :: s1 :: s2 :: s3 :: t) =
      ((s0 % 8) * 262144 + (s1 % 64) * 4096 + (s2 % 64) * 64 + s3 % 64, 4) := by
  have a1 : ¬ s0 < 0x80 := by omega
  have a2 : ¬ (s0 < 0xC2 ∨ 0xF4 < s0) := by omega
  have a3 : ¬ s0 < 0xE0 := by omega
  have a3' : ¬ s0 < 0xF0 := by omega
  have a4 : ¬ s0 = 0xE0 := by omega
  have a6 : ¬ s0 = 0xED := by omega
  have a7 : ¬ (s2 < 0x80 ∨ 0xBF < s2) := by omega
  have a9 : ¬ (s3 < 0x80 ∨ 0xBF < s3) := by omega
  have a8 : ¬ ((if s0 = 0xF0 then 0x90 else 0x80) > s1 ∨ (if s0 = 0xF4 then 0x8F else 0xBF) < s1)
      := by
    by_cases e1 : s0 = 0xF0
    · have := hlo e1
      simp only [e1, if_true, show ¬ ((240 : Nat) = 244) from by decide, if_false]
      omega
    · by_cases e2 : s0 = 0xF4
      · have := hhi e2
        simp only [e2, if_true, show ¬ ((244 : Nat) = 240) from by decide, if_false]
        omega
      · simp only [e1, e2, if_false]
        omega
  simp only [gt_iff_lt] at a8
  simp only [decodeRune, a1, a2, a3, a3', a4, a6, a7, a8, a9, if_true, if_false,
    List.length_cons]
  rw [if_neg (by omega), if_neg (by omega), if_neg (by omega)]

theorem utf8Bytes_two (c : Nat) (h1 : 0x80 ≤ c) (h2 : c < 0x800) :
    utf8Bytes c = [0xC0 + c / 64, 0x80 + c % 64] := by
  simp only [utf8Bytes]
  rw [if_neg (by omega), if_pos h2]

theorem utf8Bytes_three (c : Nat) (h1 : 0x800 ≤ c) (h2 : c < 0x10000) :
    utf8Bytes c = [0xE0 + c / 4096, 0x80 + c / 64 % 64, 0x80 + c % 64] := by
  simp only [utf8Bytes]
  rw [if_neg (by omega), if_neg (by omega), if_pos h2]

theorem utf8Bytes_four (c : Nat) (h1 : 0x10000 ≤ c) :
    utf8Bytes c =
      [0xF0 + c / 262144, 0x80 + c / 4096 % 64, 0x80 + c / 64 % 64, 0x80 + c % 64] := by
  simp only [utf8Bytes]
  rw [if_neg (by omega), if_neg (by omega), if_neg (by omega)]

/-- Decoding the UTF-8 encoding of a scalar value gives the value and the length of the
encoding, whatever follows. -/
theorem decodeRune_utf8Bytes (c : Nat) (t : List Nat) (h1 : 0x80 ≤ c)
    (h2 : validRune c = true) :
    decodeRune (utf8Bytes c ++ t) = (c, (utf8Bytes c).length) := by
  rw [validRune_iff] at h2
  by_cases c2 : c < 0x800
  · rw [utf8Bytes_two c h1 c2]
    simp only [List.cons_append, List.nil_append, List.length_cons, List.length_nil]
    rw [decodeRune_two _ _ _ (by omega) (by omega) (by omega) (by omega)]
    simp only [Prod.mk.injEq, and_true]
    omega
  · by_cases c3 : c < 0x10000
    · rw [utf8Bytes_three c (by omega) c3]
      simp only [List.cons_append, List.nil_append, List.length_cons, List.length_nil]
      rw [decodeRune_three _ _ _ _ (by omega) (by omega) (by omega) (by omega) (by omega)
        (by omega) (by omega) (by omega)]
      simp only [Prod.mk.injEq, and_true]
      omega
    · rw [utf8Bytes_four c (by omega)]
      simp only [List.cons_append, List.nil_append, List.length_cons, List.length_nil]
      rw [decodeRune_four _ _ _ _ _ (by omega) (by omega) (by omega) (by omega) (by omega)
        (by omega) (by omega) (by omega) (by omega) (by omega)]
      simp only [Prod.mk.injEq, and_true]
      omega

theorem lit_ufffd : lit "\\ufffd" = [92, 117, 102, 102, 102, 100] := by decide

theorem lit_u202 : lit "\\u202" = [92, 117, 50, 48, 50] := by decide

/-- The encoding of a scalar value that is not ASCII starts with a byte that is not ASCII
and has two to four bytes. -/
theorem utf8Bytes_head (c : Nat) (h1 : 0x80 ≤ c) (_h2 : validRune c = true) :
    ∃ b bs, utf8Bytes c = b :: bs ∧ 0xC2 ≤ b ∧ 1 ≤ bs.length ∧ bs.length ≤ 3 := by
  by_cases c2 : c < 0x800
  · exact ⟨_, _, utf8Bytes_two c h1 c2, by omega, by simp, by simp⟩
  · by_cases c3 : c < 0x10000
    · exact ⟨_, _, utf8Bytes_three c (by omega) c3, by omega, by simp, by simp⟩
    · exact ⟨_, _, utf8Bytes_four c (by omega), by omega, by simp, by simp⟩

theorem utf8Bytes_ascii (c : Nat) (h : c < 0x80) : utf8Bytes c = [c] := by
  simp [utf8Bytes, h]

theorem appendStringLoop_high (f b : Nat) (r : List Nat) (h : ¬ b < 0x80) :
    appendStringLoop (f + 1) (b :: r) =
      if (decodeRune ((b :: r).take 4)).1 = runeError ∧ (decodeRune ((b :: r).take 4)).2 = 1 then
        lit "\\ufffd" ++ appendStringLoop f r
      else if (decodeRune ((b :: r).take 4)).1 = 0x2028 ∨
          (decodeRune ((b :: r).take 4)).1 = 0x2029 then
        lit "\\u202" ++ [hexDigit (decodeRune ((b :: r).take 4)).1] ++
          appendStringLoop f ((b :: r).drop (decodeRune ((b :: r).take 4)).2)
      else
        (b :: r).take (decodeRune ((b :: r).take 4)).2 ++
          appendStringLoop f ((b :: r).drop (decodeRune ((b :: r).take 4)).2) := by
  simp only [appendStringLoop, h, if_false]

theorem appendStringLoop_low (f b : Nat) (r : List Nat) (h : b < 0x80) :
    appendStringLoop (f + 1) (b :: r) = asciiEscape b ++ appendStringLoop f r := by
  simp only [appendStringLoop, h, if_true]

theorem appendStringLoop_step (c : Nat) (rest : List Nat) (f : Nat)
    (h : validRune c = true) :
    appendStringLoop (f + 1) (utf8Bytes c ++ rest) = jsonEsc c ++ appendStringLoop f rest := by
  by_cases hc : c < 0x80
  · rw [utf8Bytes_ascii c hc, List.singleton_append, appendStringLoop_low f c rest hc]
    simp only [jsonEsc, hc, if_true]
  · obtain ⟨b, bs, hb, hb1, hb2, hb3⟩ := utf8Bytes_head c (by omega) h
    have hdec : decodeRune ((b :: (bs ++ rest)).take 4) = (c, bs.length + 1) := by
      have h4 : (b :: (bs ++ rest)).take 4 = utf8Bytes c ++ rest.take (3 - bs.length) := by
        rw [hb]
        simp only [List.take_succ_cons, List.cons_append, List.cons.injEq, true_and]
        rw [List.take_append_eq_append_take, List.take_of_length_le hb3]
      rw [h4, decodeRune_utf8Bytes c _ (by omega) h, hb]
      rfl
    have hb80 : ¬ b < 0x80 := by omega
    rw [hb, List.cons_append, appendStringLoop_high f b _ hb80, hdec]
    have hne : ¬ (c = runeError ∧ bs.length + 1 = 1) := by omega
    have hdrop : List.drop (bs.length + 1) (b :: (bs ++ rest)) = rest := by
      simp
    have htake : List.take (bs.length + 1) (b :: (bs ++ rest)) = b :: bs := by
      simp
    simp only [hne, if_false, hdrop, htake]
    by_cases hsep : c = 0x2028 ∨ c = 0x2029
    · rw [if_pos hsep]
      simp only [jsonEsc, hc, if_false, hsep, if_true]
    · rw [if_neg hsep]
      simp only [jsonEsc, hc, if_false, hsep, hb, List.cons_append]

theorem jsonEsc_length_pos (c : Nat) (h : validRune c = true) : 1 ≤ (jsonEsc c).length := by
  by_cases hc : c < 0x80
  · simp only [jsonEsc, hc, if_true, asciiEscape]
    split_ifs <;> simp
  · by_cases hsep : c = 0x2028 ∨ c = 0x2029
    · simp [jsonEsc, hc, hsep, lit_u202]
    · obtain ⟨b, bs, hb, _⟩ := utf8Bytes_head c (by omega) h
      simp [jsonEsc, hc, hsep, hb]

theorem utf8Bytes_length_pos (c : Nat) : 1 ≤ (utf8Bytes c).length := by
  simp only [utf8Bytes]
  split_ifs <;> simp

/-- The string encoder on valid UTF-8: scalar value by scalar value. -/
theorem appendStringLoop_valid (cs : List Nat) (h : cs.all validRune = true) :
    ∀ fuel, (cs.flatMap utf8Bytes).length ≤ fuel →
      appendStringLoop fuel (cs.flatMap utf8Bytes) = cs.flatMap jsonEsc := by
  induction cs with
  | nil => intro fuel _; cases fuel <;> rfl
  | cons c cs ih =>
    intro fuel hfuel
    rw [List.all_cons, Bool.and_eq_true] at h
    simp only [List.flatMap_cons, List.length_append] at hfuel ⊢
    have := utf8Bytes_length_pos c
    cases fuel with
    | zero => omega
    | succ f =>
      rw [appendStringLoop_step c _ f h.1, ih h.2 f (by omega)]

theorem hexVal_hexDigit (n : Nat) : hexVal (hexDigit n) = some (n % 16) := by
  have h16 : n % 16 < 16 := Nat.mod_lt _ (by decide)
  by_cases h : n % 16 < 10
  · simp only [hexDigit, h, if_true, hexVal]
    rw [if_pos (by omega)]
    congr 1
    omega
  · simp only [hexDigit, h, if_false, hexVal]
    rw [if_neg (by omega), if_pos (by omega)]
    congr 1
    omega

theorem encodeRune_valid (c : Nat) (h : validRune c = true) : encodeRune c = utf8Bytes c := by
  simp [encodeRune, h]

theorem escapedRune_plain (rr : Nat) (rest : List Nat) (h : ¬ (0xD800 ≤ rr ∧ rr < 0xE000)) :
    escapedRune rr rest = (rr, rest) := by
  simp only [escapedRune, h, if_false]

theorem readString_u (f a b c d : Nat) (more : List Nat) (rr : Nat)
    (hg : getu4 a b c d = some rr) (hs : ¬ (0xD800 ≤ rr ∧ rr < 0xE000))
    (hv : validRune rr = true) :
    readString (f + 1) (92 :: 117 :: a :: b :: c :: d :: more) =
      consBytes (utf8Bytes rr) (readString f more) := by
  simp [readString, hg, escapedRune_plain rr more hs, encodeRune_valid rr hv]

theorem consBytes_some (bytes : List Nat) (s : GoString) (rest : List Nat) :
    consBytes bytes (some (s, rest)) = some (bytes ++ s, rest) := rfl

theorem readString_step (c : Nat) (more : List Nat) (f : Nat) (h : validRune c = true) :
    readString (f + 1) (jsonEsc c ++ more) = consBytes (utf8Bytes c) (readString f more) := by
  by_cases hc : c < 0x80
  · rw [utf8Bytes_ascii c hc]
    simp only [jsonEsc, hc, if_true, asciiEscape]
    by_cases hsafe : htmlSafe c = true
    · simp only [hsafe, if_true]
      simp only [htmlSafe, Bool.and_eq_true, decide_eq_true_eq, bne_iff_ne, ne_eq] at hsafe
      obtain ⟨⟨⟨⟨⟨⟨h1, h2⟩, h3⟩, h4⟩, h5⟩, h6⟩, h7⟩ := hsafe
      have n1 : ¬ c < 32 := by omega
      simp [readString, h3, h7, n1, hc]
    · simp only [hsafe, Bool.false_eq_true, if_false]
      by_cases e1 : c = 92 ∨ c = 34
      · rcases e1 with e | e <;> (subst e; simp [readString])
      · simp only [e1, if_false]
        by_cases e2 : c = 8
        · subst e2; simp [readString]
        · by_cases e3 : c = 12
          · subst e3; simp [readString]
          · by_cases e4 : c = 10
            · subst e4; simp [readString]
            · by_cases e5 : c = 13
              · subst e5; simp [readString]
              · by_cases e6 : c = 9
                · subst e6; simp [readString]
                · simp only [e2, e3, e4, e5, e6, if_false, List.cons_append, List.nil_append]
                  have hg : getu4 48 48 (hexDigit (c / 16)) (hexDigit c) = some c := by
                    simp only [getu4, hexVal_hexDigit]
                    have : hexVal 48 = some 0 := by decide
                    simp only [this]
                    congr 1
                    omega
                  rw [readString_u f _ _ _ _ more c hg (by omega) h, utf8Bytes_ascii c hc]
  · by_cases hsep : c = 0x2028 ∨ c = 0x2029
    · simp only [jsonEsc, hc, if_false, hsep, if_true, lit_u202, List.cons_append,
        List.nil_append]
      rcases hsep with e | e
      · subst e
        exact readString_u f _ _ _ _ more 0x2028 (by decide) (by decide) (by decide)
      · subst e
        exact readString_u f _ _ _ _ more 0x2029 (by decide) (by decide) (by decide)
    · obtain ⟨b, bs, hb, hb1, hb2, hb3⟩ := utf8Bytes_head c (by omega) h
      have hdec := decodeRune_utf8Bytes c more (by omega) h
      simp only [jsonEsc, hc, if_false, hsep]
      rw [hb] at hdec ⊢
      rw [List.cons_append] at hdec ⊢
      have n1 : ¬ b = 34 := by omega
      have n2 : ¬ b = 92 := by omega
      have n3 : ¬ b < 32 := by omega
      have n4 : ¬ b < 0x80 := by omega
      have hdrop : List.drop (bs.length + 1) (b :: (bs ++ more)) = more := by simp
      simp only [readString, n1, n2, n3, n4, if_false, hdec, List.length_cons, hdrop,
        encodeRune_valid c h, hb]

/-- The string decoder on the text the encoder writes for valid UTF-8. -/
theorem readString_valid (cs : List Nat) (h : cs.all validRune = true) (rest : List Nat) :
    ∀ fuel, cs.length < fuel →
      readString fuel (cs.flatMap jsonEsc ++ 34 :: rest) = some (cs.flatMap utf8Bytes, rest) := by
  induction cs with
  | nil =>
    intro fuel hfuel
    cases fuel with
    | zero => simp at hfuel
    | succ f => simp [readString]
  | cons c cs ih =>
    intro fuel hfuel
    rw [List.all_cons, Bool.and_eq_true] at h
    cases fuel with
    | zero => simp at hfuel
    | succ f =>
      simp only [List.flatMap_cons, List.append_assoc]
      rw [readString_step c _ f h.1, ih h.2 f (by simpa using hfuel), consBytes_some]

theorem flatMap_jsonEsc_length (cs : List Nat) (h : cs.all validRune = true) :
    cs.length ≤ (cs.flatMap jsonEsc).length := by
  induction cs with
  | nil => simp
  | cons c cs ih =>
    rw [List.all_cons, Bool.and_eq_true] at h
    have := jsonEsc_length_pos c h.1
    have := ih h.2
    simp only [List.flatMap_cons, List.length_append, List.length_cons]
    omega

theorem expect_append (p s : List Nat) : expect p (p ++ s) = some s := by
  have h : startsWith (p ++ s) p = true := (startsWith_iff _ _).mpr (List.prefix_append p s)
  simp [expect, h]

/-- Reading back a string literal written by `appendString` for valid UTF-8. -/
theorem readQuoted_appendString (s : GoString) (h : ValidUTF8 s) (rest : List Nat) :
    readQuoted (appendString s ++ rest) = some (s, rest) := by
  obtain ⟨cs, hcs, hs⟩ := h
  have henc : appendString s = [34] ++ (cs.flatMap jsonEsc ++ [34]) := by
    simp only [appendString]
    rw [hs, appendStringLoop_valid cs hcs _ (le_refl _)]
    rfl
  rw [henc, List.append_assoc, readQuoted, expect_append, Option.some_bind, hs]
  have hfuel : cs.length < ((cs.flatMap jsonEsc ++ [34]) ++ rest).length + 1 := by
    have := flatMap_jsonEsc_length cs hcs
    simp only [List.length_append]
    omega
  have h2 := readString_valid cs hcs rest _ hfuel
  simpa using h2

theorem digitsValue_append (l : List Nat) (d : Nat) :
    digitsValue (l ++ [d]) = digitsValue l * 10 + (d - 48) := by
  simp [digitsValue, List.foldl_append]

theorem natDigits_spec (n : Nat) :
    (natDigits n).all isDigit = true ∧ digitsValue (natDigits n) = n ∧
    (1 ≤ n → ∃ d rest, natDigits n = d :: rest ∧ 49 ≤ d ∧ d ≤ 57) := by
  induction n using Nat.strong_induction_on with
  | _ n ih =>
    by_cases h : n < 10
    · rw [natDigits_small n h]
      refine ⟨?_, ?_, ?_⟩
      · simp only [List.all_cons, List.all_nil, Bool.and_true, isDigit, Bool.and_eq_true,
          decide_eq_true_eq]
        omega
      · simp [digitsValue]
      · intro h1
        exact ⟨48 + n, [], rfl, by omega, by omega⟩
    · obtain ⟨i1, i2, i3⟩ := ih (n / 10) (by omega)
      rw [natDigits_step n (by omega)]
      refine ⟨?_, ?_, ?_⟩
      · rw [List.all_append, i1]
        simp only [List.all_cons, List.all_nil, Bool.and_true, isDigit, Bool.true_and,
          Bool.and_eq_true, decide_eq_true_eq]
        omega
      · rw [digitsValue_append, i2]
        omega
      · intro _
        obtain ⟨d, rest, hd, hd1, hd2⟩ := i3 (by omega)
        exact ⟨d, rest ++ [48 + n % 10], by rw [hd]; rfl, hd1, hd2⟩

theorem natDigits_zero : natDigits 0 = [48] := by decide

/-- The digits of a number: a digit first, never a superfluous zero. -/
theorem natDigits_head (n : Nat) :
    ∃ d rest, natDigits n = d :: rest ∧ 48 ≤ d ∧ d ≤ 57 ∧ (d = 48 → rest = []) := by
  by_cases h : n = 0
  · subst h
    exact ⟨48, [], natDigits_zero, by omega, by omega, fun _ => rfl⟩
  · obtain ⟨d, rest, hd, hd1, hd2⟩ := (natDigits_spec n).2.2 (by omega)
    exact ⟨d, rest, hd, by omega, hd2, fun h0 => by omega⟩

/-- Reading digits back: the decimal text of `n`, followed by a byte that is no digit. -/
theorem readNat_natDigits (n c : Nat) (rest : List Nat) (hc : isDigit c = false) :
    (natDigits n ++ c :: rest).takeWhile isDigit = natDigits n ∧
    (natDigits n ++ c :: rest).dropWhile isDigit = c :: rest := by
  have hall := (natDigits_spec n).1
  rw [List.all_eq_true] at hall
  constructor
  · rw [List.takeWhile_append_of_pos hall]
    simp [List.takeWhile_cons, hc]
  · rw [List.dropWhile_append_of_pos hall]
    simp [List.dropWhile_cons, hc]

theorem readInt32_itoa (i : Int) (c : Nat) (rest : List Nat) (hc : isDigit c = false)
    (hi : IsInt32 i) : readInt32 (itoa i ++ c :: rest) = some (i, c :: rest) := by
  obtain ⟨d, tl, hd, hd1, hd2, hd3⟩ := natDigits_head i.natAbs
  obtain ⟨ht, hdr⟩ := readNat_natDigits i.natAbs c rest hc
  have hval := (natDigits_spec i.natAbs).2.1
  have hlead : (decide (1 < (natDigits i.natAbs).length) &&
      ((natDigits i.natAbs).head? == some 48)) = false := by
    rw [hd]
    by_cases h48 : d = 48
    · rw [hd3 h48]
      simp
    · simp [h48]
  have hne : (natDigits i.natAbs).isEmpty = false := by rw [hd]; rfl
  unfold IsInt32 at hi
  by_cases hneg : i < 0
  · have hs : itoa i ++ c :: rest = 45 :: (natDigits i.natAbs ++ c :: rest) := by
      simp [itoa, hneg]
    have hv : -(↑(i.natAbs) : Int) = i := by omega
    rw [hs]
    simp only [readInt32, List.head?_cons, beq_self_eq_true, if_true, List.drop_succ_cons,
      List.drop_zero, ht, hdr, hne, hlead, hval, Bool.false_eq_true, if_false, hv]
    rw [if_pos hi]
  · have hs : itoa i ++ c :: rest = natDigits i.natAbs ++ c :: rest := by
      simp [itoa, hneg]
    have hhead : ((natDigits i.natAbs ++ c :: rest).head? == some 45) = false := by
      rw [hd]
      simp only [List.cons_append, List.head?_cons, beq_eq_false_iff_ne, ne_eq,
        Option.some.injEq]
      omega
    have hv : (↑(i.natAbs) : Int) = i := by omega
    rw [hs]
    simp only [readInt32, hhead, Bool.false_eq_true, if_false, ht, hdr, hne, hlead, hval, hv]
    rw [if_pos hi]

theorem unmarshalSimple_marshal (r : SimpleResult) (hp : ValidUTF8 r.Path)
    (ht : ValidUTF8 r.Text) : unmarshalSimple (jsonMarshal (.simple r)).1 = some r := by
  simp only [jsonMarshal, unmarshalSimple, List.append_assoc]
  rw [expect_append, Option.some_bind, readQuoted_appendString _ hp, Option.some_bind]
  simp only []
  rw [expect_append, Option.some_bind, readQuoted_appendString _ ht, Option.some_bind]
  simp only []
  have h := expect_append (lit "\x7d") []
  rw [List.append_nil] at h
  rw [h, Option.some_bind]
  rfl

theorem unmarshalDetail_marshal (r : DetailResult) (hp : ValidUTF8 r.Path)
    (ht : ValidUTF8 r.Text) (hpage : IsInt32 r.Page) (hline : IsInt32 r.Line) :
    unmarshalDetail (jsonMarshal (.detail r)).1 = some r := by
  have hl : lit ",\"line\":" = 44 :: lit "\"line\":" := by decide
  have hx : lit ",\"text\":" = 44 :: lit "\"text\":" := by decide
  have hcomma : isDigit 44 = false := by decide
  simp only [jsonMarshal, unmarshalDetail, List.append_assoc]
  rw [expect_append, Option.some_bind, readQuoted_appendString _ hp, Option.some_bind]
  simp only []
  rw [expect_append, Option.some_bind]
  have e1 : ∀ rest, readInt32 (itoa r.Page ++ (lit ",\"line\":" ++ rest)) =
      some (r.Page, lit ",\"line\":" ++ rest) := by
    intro rest
    rw [hl, List.cons_append]
    exact readInt32_itoa _ _ _ hcomma hpage
  have e2 : ∀ rest, readInt32 (itoa r.Line ++ (lit ",\"text\":" ++ rest)) =
      some (r.Line, lit ",\"text\":" ++ rest) := by
    intro rest
    rw [hx, List.cons_append]
    exact readInt32_itoa _ _ _ hcomma hline
  rw [e1, Option.some_bind]
  simp only []
  rw [expect_append, Option.some_bind, e2, Option.some_bind]
  simp only []
  rw [expect_append, Option.some_bind, readQuoted_appendString _ ht, Option.some_bind]
  simp only []
  have h := expect_append (lit "\x7d") []
  rw [List.append_nil] at h
  rw [h, Option.some_bind]
  rfl

/-- C4 (as amended): for every `SimpleResult` and every `DetailResult` whose path and text
are valid UTF-8 (and whose page and line are `int32` values), `toJson` succeeds and the
JSON it produces decodes back to a record with the same path and text (and page and line):
the field values of the record, from which the plain-text line is built as well. -/
theorem json_roundtrip :
    (∀ r : SimpleResult, ValidUTF8 r.Path → ValidUTF8 r.Text →
      (toJson (.simple r)).2 = none ∧ unmarshalSimple (toJson (.simple r)).1 = some r) ∧
    (∀ r : DetailResult, ValidUTF8 r.Path → ValidUTF8 r.Text → IsInt32 r.Page →
      IsInt32 r.Line →
      (toJson (.detail r)).2 = none ∧ unmarshalDetail (toJson (.detail r)).1 = some r) := by
  constructor
  · intro r hp ht
    rw [toJson_eq]
    exact ⟨rfl, unmarshalSimple_marshal r hp ht⟩
  · intro r hp ht hpage hline
    rw [toJson_eq]
    exact ⟨rfl, unmarshalDetail_marshal r hp ht hpage hline⟩

/-- Witness of `json_roundtrip`: a record with a non-ASCII path, characters that are
escaped in the text, and a negative line number. -/
theorem json_roundtrip_witness :
    ValidUTF8 (lit "d\\é.docx") ∧ ValidUTF8 (lit "a<b>\n\"q\"") ∧ IsInt32 3 ∧ IsInt32 (-12) ∧
    unmarshalDetail (toJson (.detail ⟨lit "d\\é.docx", 3, -12, lit "a<b>\n\"q\""⟩)).1 =
      some ⟨lit "d\\é.docx", 3, -12, lit "a<b>\n\"q\""⟩ :=
  have h1 : ValidUTF8 (lit "d\\é.docx") :=
    ⟨[100, 92, 233, 46, 100, 111, 99, 120], by decide, by decide⟩
  have h2 : ValidUTF8 (lit "a<b>\n\"q\"") :=
    ⟨[97, 60, 98, 62, 10, 34, 113, 34], by decide, by decide⟩
  have h3 : IsInt32 3 := by unfold IsInt32; omega
  have h4 : IsInt32 (-12) := by unfold IsInt32; omega
  ⟨h1, h2, h3, h4,
    (json_roundtrip.2 ⟨lit "d\\é.docx", 3, -12, lit "a<b>\n\"q\""⟩ h1 h2 h3 h4).2⟩

/-- C4 (as stated) fails: a Go string may hold bytes that are not valid UTF-8, and
`json.Marshal` replaces each of them by U+FFFD. The record with the path `\xff` is written
as `{"path":"\ufffd","text":""}`, which decodes to the path `\xef\xbf\xbd`; the records
with the paths `\xff` and `\xfe` are written as the same JSON text, so no decoder gives
both back. -/
theorem json_invalid_utf8_lost :
    (toJson (.simple ⟨[0xff], []⟩)).1 = lit "\x7b\"path\":\"\\ufffd\",\"text\":\"\"\x7d" ∧
    unmarshalSimple (toJson (.simple ⟨[0xff], []⟩)).1 = some ⟨[0xef, 0xbf, 0xbd], []⟩ ∧
    unmarshalSimple (toJson (.simple ⟨[0xff], []⟩)).1 ≠ some ⟨[0xff], []⟩ ∧
    toJson (.simple ⟨[0xff], []⟩) = toJson (.simple ⟨[0xfe], []⟩) ∧
    (⟨[0xff], []⟩ : SimpleResult) ≠ ⟨[0xfe], []⟩ := by
  refine ⟨?_, ?_, ?_, ?_, ?_⟩ <;> decide

/-! ## C6: the statement -/

theorem passedFailure_of_incomingFailure (ev : Event) (e0 : GoError)
    (h : ev.incomingFailure = some e0) : ev.passedFailure = some e0 := by
  cases ev with
  | visit p d err =>
    cases err with
    | none => cases h
    | some e => exact h
  | _ => cases h

theorem failed_of_not_isQuiet (ev : Event) (h : ev.isQuiet = false) :
    ev.failed = true ∧ ev.isAccessor = false := by
  cases ev with
  | documents err => cases err <;> first | (exact ⟨rfl, rfl⟩) | (cases h)
  | visit p d err => cases err <;> first | (exact ⟨rfl, rfl⟩) | (cases h)
  | docOpen p d err => cases err <;> first | (exact ⟨rfl, rfl⟩) | (cases h)
  | allRange d r err => cases err <;> first | (exact ⟨rfl, rfl⟩) | (cases h)
  | find r f err => cases err <;> first | (exact ⟨rfl, rfl⟩) | (cases h)
  | forward f v err => cases err <;> first | (exact ⟨rfl, rfl⟩) | (cases h)
  | wrap f v err => cases err <;> first | (exact ⟨rfl, rfl⟩) | (cases h)
  | format f v err => cases err <;> first | (exact ⟨rfl, rfl⟩) | (cases h)
  | matchCase f v err => cases err <;> first | (exact ⟨rfl, rfl⟩) | (cases h)
  | matchWildcards f v err => cases err <;> first | (exact ⟨rfl, rfl⟩) | (cases h)
  | text f t err => cases err <;> first | (exact ⟨rfl, rfl⟩) | (cases h)
  | execute f b err => cases err <;> first | (exact ⟨rfl, rfl⟩) | (cases h)
  | _ => cases h

theorem walkDir_fail_event {σ : Type} (fn : Visit → σ → Outcome σ)
    (h : ∀ v s e, (fn v s).ret = some (some e) → ∃ f ∈ (fn v s).events, f.isQuiet = false)
    (vs : List Visit) (s : σ) (e : GoError) (hr : (walkDir fn vs s).ret = some (some e)) :
    ∃ f ∈ (walkDir fn vs s).events, f.isQuiet = false := by
  induction vs generalizing s with
  | nil => simp [walkDir] at hr
  | cons v vs ih =>
    by_cases hv : (fn v s).ret = some none
    · rw [walkDir_cons_continue fn v vs s hv] at hr ⊢
      obtain ⟨f, hf, hq⟩ := ih (fn v s).eng hr
      exact ⟨f, by rw [after_events]; exact List.mem_append_right _ hf, hq⟩
    · rw [walkDir_cons_stop fn v vs s hv] at hr ⊢
      exact h v s e hr

/-- An error returned by `run` comes from a failed call whose error is propagated: such a
call is among the events. -/
theorem run_fail_event {σ : Type} (W : World σ) (args : Args) (fuel : Nat) (s : σ)
    (e : GoError) (hr : (run W args fuel s).ret = some (some e)) :
    ∃ f ∈ (run W args fuel s).events, f.isQuiet = false := by
  have hfn : ∀ v s1 e1, (walkFn W args fuel (abs W args.dir) v s1).ret = some (some e1) →
      ∃ f ∈ (walkFn W args fuel (abs W args.dir) v s1).events, f.isQuiet = false := by
    intro v s1 e1 h1
    obtain ⟨before, f, tail, h2, h3, _, _⟩ := walkFn_stops W args fuel (abs W args.dir) v s1 e1 h1
    exact ⟨f, by rw [h2]; simp, h3⟩
  rcases run_shape W args fuel s with ⟨e1, s4, _, _, _, hev⟩ |
    ⟨s4, _, ⟨_, hr1, _, _⟩ | ⟨r, hw, hr1, _, hev⟩⟩
  · exact ⟨.documents (some e1), by rw [hev]; simp, rfl⟩
  · rw [hr1] at hr
    cases hr
  · rw [hr1] at hr
    have hr2 : r = some e := by simpa using hr
    rw [hr2] at hw
    obtain ⟨f, hf, hq⟩ := walkDir_fail_event _ hfn _ s4 e hw
    exact ⟨f, by rw [hev]; simp [hf], hq⟩

/-- C6 (as amended): (1) whenever a call of `word.Documents`, `doc.AllRange`, `range.Find`,
a find setter (`Forward`, `Wrap`, `Format`, `MatchCase`, `MatchWildcards`, `Text`) or
`find.Execute` fails during `run`, `run` returns `genErr name e0` for the error `e0` the
call returned and the operation name `name` the program uses for that call: a non-nil
error whose message is `name`, then " failed: ", then the message of `e0`, and which wraps
`e0`. (2) Whenever the callback receives an incoming error, `run` returns that very error,
without an operation name. (3) Failures of the accessors `Text`, `PageNumber`, `LineNo` do
not make `run` fail: when the only calls that fail during `run` are accessor calls, `run`
returns nil (or is still in the verbose loop when the fuel is used up). -/
theorem failures_propagated {σ : Type} (W : World σ) (args : Args) (fuel : Nat) (s : σ) :
    (∀ ev ∈ (run W args fuel s).events,
      (∀ names e0, ev.wrappedFailure = some (names, e0) →
        ∃ name ∈ names, (run W args fuel s).ret = some (some (genErr name e0)) ∧
          (genErr name e0).Error = name ++ lit " failed: " ++ e0.Error ∧
          (genErr name e0).Unwrap = some e0 ∧
          (genErr name e0).Is e0 = true) ∧
      (∀ e0, ev.incomingFailure = some e0 → (run W args fuel s).ret = some (some e0))) ∧
    ((∀ ev ∈ (run W args fuel s).events, ev.failed = true → ev.isAccessor = true) →
      (run W args fuel s).ret = some none ∨ (run W args fuel s).ret = none) := by
  constructor
  · intro ev hev
    have h := run_accounted W args fuel s ev hev
    refine ⟨?_, fun e0 h0 => h.2 e0 (passedFailure_of_incomingFailure ev e0 h0)⟩
    intro names e0 hw
    obtain ⟨name, hn, hr⟩ := h.1 names e0 hw
    exact ⟨name, hn, hr, genErr_spec name e0⟩
  · intro hacc
    rcases hr : (run W args fuel s).ret with _ | _ | e
    · exact Or.inr rfl
    · exact Or.inl rfl
    · exfalso
      obtain ⟨f, hf, hq⟩ := run_fail_event W args fuel s e hr
      have h1 := failed_of_not_isQuiet f hq
      have h2 := hacc f hf h1.1
      rw [h1.2] at h2
      cases h2

/-- Witness of `failures_propagated`: `doc.AllRange()` fails on the document of the
sample walk and `run` returns the wrapped error; in another run the three accessors fail
in the verbose loop, nothing else does, and `run` returns nil. -/
theorem failures_propagated_witness :
    Event.allRange 11 12 (some (.external (lit "busy"))) ∈
      (run (scriptWorld { sampleScript 1 with
          failAllRange := fun _ => some (.external (lit "busy")) })
        { defaultArgs with text := lit "a" } 3 0).events ∧
    (run (scriptWorld { sampleScript 1 with
          failAllRange := fun _ => some (.external (lit "busy")) })
        { defaultArgs with text := lit "a" } 3 0).ret =
      some (some (genErr (lit "doc.AllRange()") (.external (lit "busy")))) ∧
    (∀ ev ∈ (run (scriptWorld { sampleScript 1 with
          failText := some (.external (lit "gone")),
          failPage := some (.external (lit "gone")),
          failLine := some (.external (lit "gone")) })
        { defaultArgs with text := lit "a", verbose := true } 3 0).events,
      ev.failed = true → ev.isAccessor = true) ∧
    ((run (scriptWorld { sampleScript 1 with
          failText := some (.external (lit "gone")),
          failPage := some (.external (lit "gone")),
          failLine := some (.external (lit "gone")) })
        { defaultArgs with text := lit "a", verbose := true } 3 0).ret = some none ∨
     (run (scriptWorld { sampleScript 1 with
          failText := some (.external (lit "gone")),
          failPage := some (.external (lit "gone")),
          failLine := some (.external (lit "gone")) })
        { defaultArgs with text := lit "a", verbose := true } 3 0).ret = none) := by
  have hmem : Event.allRange 11 12 (some (.external (lit "busy"))) ∈
      (run (scriptWorld { sampleScript 1 with
          failAllRange := fun _ => some (.external (lit "busy")) })
        { defaultArgs with text := lit "a" } 3 0).events := by decide
  have hacc : ∀ ev ∈ (run (scriptWorld { sampleScript 1 with
          failText := some (.external (lit "gone")),
          failPage := some (.external (lit "gone")),
          failLine := some (.external (lit "gone")) })
        { defaultArgs with text := lit "a", verbose := true } 3 0).events,
      ev.failed = true → ev.isAccessor = true := by decide
  refine ⟨hmem, ?_, hacc, ?_⟩
  · obtain ⟨name, hn, hr, _⟩ := ((failures_propagated
      (scriptWorld { sampleScript 1 with
        failAllRange := fun _ => some (.external (lit "busy")) })
      { defaultArgs with text := lit "a" } 3 0).1 _ hmem).1 _ _ rfl
    rw [List.mem_singleton.mp hn] at hr
    exact hr
  · exact (failures_propagated
      (scriptWorld { sampleScript 1 with
        failText := some (.external (lit "gone")),
        failPage := some (.external (lit "gone")),
        failLine := some (.external (lit "gone")) })
      { defaultArgs with text := lit "a", verbose := true } 3 0).2 hacc

/-- C6 (as stated) fails. When the accessors `Text`, `PageNumber` and `LineNo` fail during
the verbose loop, `run` returns nil, not an error. When the callback receives the incoming
error "access denied", `run` returns that error itself: its message is "access denied"
and contains no " failed: ". -/
theorem failures_not_all_wrapped :
    (Event.rangeText 12 [] (some (.external (lit "gone"))) ∈
      (run (scriptWorld { sampleScript 1 with
          failText := some (.external (lit "gone")),
          failPage := some (.external (lit "gone")),
          failLine := some (.external (lit "gone")) })
        { defaultArgs with text := lit "a", verbose := true } 3 0).events ∧
     Event.pageNumber 12 0 (some (.external (lit "gone"))) ∈
      (run (scriptWorld { sampleScript 1 with
          failText := some (.external (lit "gone")),
          failPage := some (.external (lit "gone")),
          failLine := some (.external (lit "gone")) })
        { defaultArgs with text := lit "a", verbose := true } 3 0).events ∧
     Event.lineNo 12 0 (some (.external (lit "gone"))) ∈
      (run (scriptWorld { sampleScript 1 with
          failText := some (.external (lit "gone")),
          failPage := some (.external (lit "gone")),
          failLine := some (.external (lit "gone")) })
        { defaultArgs with text := lit "a", verbose := true } 3 0).events ∧
     (run (scriptWorld { sampleScript 1 with
          failText := some (.external (lit "gone")),
          failPage := some (.external (lit "gone")),
          failLine := some (.external (lit "gone")) })
        { defaultArgs with text := lit "a", verbose := true } 3 0).ret = some none) ∧
    ((run (scriptWorld { sampleScript 1 with
          visits := deniedVisits })
        { defaultArgs with text := lit "a" } 3 0).ret =
        some (some (.external (lit "access denied"))) ∧
      (GoError.external (lit "access denied")).Error = lit "access denied" ∧
      contains (GoError.external (lit "access denied")).Error (lit " failed: ") = false) := by
  refine ⟨⟨?_, ?_, ?_, ?_⟩, ?_, ?_, ?_⟩ <;> decide

end GrepDocx
